import Mathlib

/-!
# Remus: a tempo-synchronised looper (src/remus.c)

A shallow embedding of the engine state (`struct Remus`), of the per-block
processing routine `run` and of `activate`, `save` and `restore`, followed by
theorems about recording, tail capture, splicing, playback and persistence.

Modelling conventions.

* `float`/`double` values are modelled by rationals (`ℚ`): every finite float
  is a rational and comparisons of finite floats are exact.  Rounding of the
  arithmetic in the crossfade and in the loop-length computation is abstracted
  (exact arithmetic), NaN and infinities are outside the model.
* `uint32_t` fields are natural numbers; subtractions and the additions that
  can leave the 32-bit range are reduced modulo `2^32` (`u32`, `usub`).
* The loop buffer and the tail buffer are maps from indices to samples; every
  access is checked against `buffer_size` (resp. `TAIL_BUFFER_SIZE`) and an
  out-of-range access makes the processing functions return `none`.
* Diagnostic output (`fprintf`) is not modelled.
-/

namespace Looper

/-! ## Constants -/

/-- Capacity of the loop buffer: `48000 * 60 * 5` samples (5 minutes at 48 kHz). -/
def MAX_BUFFER_SIZE : Nat := 48000 * 60 * 5

/-- Capacity of the tail buffer. -/
def TAIL_BUFFER_SIZE : Nat := 1024

/-- Largest distance between a tail crossing and a matching loop crossing. -/
def ZERO_CROSSING_DISTANCE : Nat := 8

/-- Width of the crossfade window in samples. -/
def CROSSFADE_SAMPLES : Nat := 64

/-- Reduction of a natural number to the range of `uint32_t`. -/
def u32 (n : Nat) : Nat := n % 4294967296

/-- Subtraction of `uint32_t` values (wraps around below zero). -/
def usub (a b : Nat) : Nat := (a + 4294967296 - b % 4294967296) % 4294967296

/-- Conversion `(uint32_t)x` of a floating-point value: truncation for values
in range; negative values give 0 and large values are reduced modulo `2^32`
(the conversion is undefined in C outside the range). -/
def toU32 (x : ℚ) : Nat := u32 (Int.toNat ⌊x⌋)

/-- A buffer write `m[i] = v`. -/
def store (m : Nat → ℚ) (i : Nat) (v : ℚ) : Nat → ℚ :=
  fun k => if k = i then v else m k

/-! ## Engine state -/

/-- The internal state of `struct Remus` (ports and URIDs are left out). -/
structure Remus where
  buffer : Nat → ℚ
  buffer_size : Nat
  write_pos : Nat
  read_pos : Nat
  loop_samples : Nat
  recording : Bool
  has_recorded : Bool
  waiting_for_bar : Bool
  playing : Bool
  waiting_to_play : Bool
  prev_record_enable : ℚ
  tail_buffer : Nat → ℚ
  tail_pos : Nat
  recording_tail : Bool
  tail_zero_crossings : Nat
  tail_min_distance : Int
  stitch_position : Nat
  sample_rate : ℚ
  last_bar_beat : ℚ
  last_bar : Int
  transport_bpm : ℚ
  transport_beats_per_bar : ℚ
  debug_logged : Bool

/-- One decoded `time:Position` object of the control port; a field is `none`
when the property is absent or has the wrong atom type. -/
structure PositionEvent where
  bar_beat : Option ℚ
  bar : Option Int
  speed : Option ℚ
  bpm : Option ℚ
  beats_per_bar : Option ℚ

/-- The inputs of one call of `run`: the position events of the control port
in order, the control values and the `n_samples` input samples. -/
structure Block where
  events : List PositionEvent
  rec_enable : ℚ
  loop_len : ℚ
  audio_in : List ℚ

/-- The locals of `run` that hold the transport position of the block,
together with the tempo and signature fields the event loop updates. -/
structure Transport where
  current_bar_beat : ℚ
  current_bar : Int
  transport_rolling : Bool
  bpm : ℚ
  beats_per_bar : ℚ

/-- Remus set up by `instantiate` for sample rate `rate` (`calloc` zeroes the
buffers). -/
def instantiate (rate : ℚ) : Remus where
  buffer := fun _ => 0
  buffer_size := MAX_BUFFER_SIZE
  write_pos := 0
  read_pos := 0
  loop_samples := 0
  recording := false
  has_recorded := false
  waiting_for_bar := false
  playing := false
  waiting_to_play := false
  prev_record_enable := 0
  tail_buffer := fun _ => 0
  tail_pos := 0
  recording_tail := false
  tail_zero_crossings := 0
  tail_min_distance := 1024
  stitch_position := 0
  sample_rate := rate
  last_bar_beat := -1
  last_bar := -1
  transport_bpm := 120
  transport_beats_per_bar := 4
  debug_logged := false

/-- The function `activate`. -/
def activate (s : Remus) : Remus :=
  let s1 : Remus :=
    if s.has_recorded = false then
      { s with buffer := fun k => if k < s.buffer_size then 0 else s.buffer k, loop_samples := 0 }
    else s
  { s1 with
    write_pos := 0
    read_pos := 0
    recording := false
    waiting_for_bar := false
    playing := false
    waiting_to_play := false
    prev_record_enable := 0
    loop_samples := 0
    tail_pos := 0
    recording_tail := false
    tail_zero_crossings := 0
    tail_min_distance := 1024
    stitch_position := 0
    last_bar_beat := -1
    last_bar := -1
    transport_bpm := 120
    transport_beats_per_bar := 4 }

/-! ## Block prelude of `run` -/

/-- Effect of one position event on the transport locals (lines 280-294). -/
def applyEvent (t : Transport) (e : PositionEvent) : Transport :=
  { current_bar_beat := match e.bar_beat with
      | some v => v
      | none => t.current_bar_beat
    current_bar := match e.bar with
      | some v => v
      | none => t.current_bar
    transport_rolling := match e.speed with
      | some v => decide (v > 0)
      | none => t.transport_rolling
    bpm := match e.bpm with
      | some v => v
      | none => t.bpm
    beats_per_bar := match e.beats_per_bar with
      | some v => v
      | none => t.beats_per_bar }

/-- The event loop of `run` (lines 260-297). -/
def processEvents (s : Remus) (evs : List PositionEvent) : Transport :=
  evs.foldl applyEvent
    { current_bar_beat := s.last_bar_beat
      current_bar := s.last_bar
      transport_rolling := false
      bpm := s.transport_bpm
      beats_per_bar := s.transport_beats_per_bar }

/-- The local `new_loop_samples` of `run` (lines 301-302). -/
def new_loop_samples (sample_rate bpm beats_per_bar loop_len : ℚ) : Nat :=
  let loop_beats := toU32 (beats_per_bar * loop_len)
  toU32 (((loop_beats : ℚ) * 60 * sample_rate) / bpm)

/-- The local `rec_start` of `run` (line 305): falling edge of record-enable. -/
def rec_start (prev_record_enable rec_enable : ℚ) : Bool :=
  decide (rec_enable ≤ 1/2) && decide (prev_record_enable > 1/2)

/-- Lines 309-320: stop recording on a manual restart. -/
def stopOnRestart (s : Remus) (rec_start : Bool) : Remus :=
  if s.recording = true ∧ rec_start = true then
    let s1 : Remus := if s.recording = true then { s with recording := false } else s
    if s1.recording_tail = true then
      { s1 with recording_tail := false, has_recorded := true, tail_pos := 0 }
    else s1
  else s

/-- Lines 322-331: on a trigger, arm and latch the loop length. -/
def armOnTrigger (s : Remus) (rec_start : Bool) (new_loop_samples : Nat) : Remus :=
  if rec_start = true then
    let s1 : Remus := { s with waiting_for_bar := true, loop_samples := new_loop_samples }
    if s1.loop_samples > s1.buffer_size then { s1 with loop_samples := s1.buffer_size } else s1
  else s

/-- Lines 333-353: start recording on a bar boundary. -/
def checkBarBoundary (s : Remus) (t : Transport) : Remus :=
  if s.waiting_for_bar = true ∧ t.transport_rolling = true then
    if t.current_bar ≥ 0 ∧ s.last_bar ≥ 0 ∧ t.current_bar ≠ s.last_bar then
      { s with recording := true, waiting_for_bar := false, write_pos := 0, read_pos := 0,
               has_recorded := false }
    else if t.current_bar_beat ≥ 0 ∧ s.last_bar_beat ≥ 0 ∧
        t.current_bar_beat < s.last_bar_beat then
      { s with recording := true, waiting_for_bar := false, write_pos := 0, read_pos := 0,
               has_recorded := false }
    else s
  else s

/-- Lines 355-387: playback alignment with the transport.  The constant
`0.1f` is modelled by `1/10`: no float lies between `1/10` and `0.1f`, so the
two bounds accept the same floats. -/
def playbackAlign (s : Remus) (t : Transport) : Remus :=
  if s.has_recorded = true ∧ s.loop_samples > 0 ∧ s.recording = false then
    if t.transport_rolling = false then
      { s with playing := false, waiting_to_play := false }
    else if s.playing = false ∧ s.waiting_to_play = false then
      if t.current_bar = 0 ∧ t.current_bar_beat ≥ 0 ∧ t.current_bar_beat < 1/10 then
        { s with playing := true, waiting_to_play := false, read_pos := 0 }
      else
        { s with waiting_to_play := true }
    else if s.waiting_to_play = true then
      if t.current_bar ≥ 0 ∧ s.last_bar ≥ 0 ∧ t.current_bar ≠ s.last_bar then
        { s with playing := true, waiting_to_play := false, read_pos := 0 }
      else if t.current_bar_beat ≥ 0 ∧ s.last_bar_beat ≥ 0 ∧
          t.current_bar_beat < s.last_bar_beat then
        { s with playing := true, waiting_to_play := false, read_pos := 0 }
      else s
    else s
  else s

/-- Lines 389-401: adopt a changed loop length while idle with a loop. -/
def hotUpdate (s : Remus) (new_loop_samples : Nat) : Remus :=
  if s.recording = false ∧ s.waiting_for_bar = false ∧ s.has_recorded = true then
    if new_loop_samples ≠ s.loop_samples then
      let s1 : Remus := { s with loop_samples := new_loop_samples }
      let s2 : Remus :=
        if s1.loop_samples > s1.buffer_size then { s1 with loop_samples := s1.buffer_size } else s1
      if s2.read_pos ≥ s2.loop_samples then { s2 with read_pos := 0 } else s2
    else s
  else s

/-- The transport locals of the block, as computed by the event loop. -/
def blockTransport (s : Remus) (b : Block) : Transport :=
  processEvents s b.events

/-- The value of `new_loop_samples` in the block. -/
def blockLoopSamples (s : Remus) (b : Block) : Nat :=
  new_loop_samples s.sample_rate (blockTransport s b).bpm (blockTransport s b).beats_per_bar
    b.loop_len

/-- The value of `rec_start` in the block. -/
def blockRecStart (s : Remus) (b : Block) : Bool :=
  rec_start s.prev_record_enable b.rec_enable

/-- Remus after the trigger handling of the block (lines 249-331). -/
def afterTrigger (s : Remus) (b : Block) : Remus :=
  let t := blockTransport s b
  let s0 : Remus :=
    if s.debug_logged = false ∧ s.has_recorded = true then { s with debug_logged := true } else s
  let s1 : Remus :=
    { s0 with transport_bpm := t.bpm, transport_beats_per_bar := t.beats_per_bar,
              prev_record_enable := b.rec_enable }
  armOnTrigger (stopOnRestart s1 (blockRecStart s b)) (blockRecStart s b) (blockLoopSamples s b)

/-- Remus after the trigger and bar-boundary handling of the block (lines
249-353), on which the playback scheduler works. -/
def afterBarCheck (s : Remus) (b : Block) : Remus :=
  checkBarBoundary (afterTrigger s b) (blockTransport s b)

/-- Remus of the engine when the sample loop of the block starts (line 403). -/
def blockPrelude (s : Remus) (b : Block) : Remus :=
  hotUpdate (playbackAlign (afterBarCheck s b) (blockTransport s b)) (blockLoopSamples s b)

/-! ## Sample loop of `run` -/

/-- Direction of the zero crossing between two consecutive samples, if any
(lines 438-444 and 459-465): `some true` is a rising crossing, `some false` a
falling one. -/
def crossing (a b : ℚ) : Option Bool :=
  if a < 0 ∧ b ≥ 0 then some true
  else if a > 0 ∧ b ≤ 0 then some false
  else none

/-- One iteration of the scan of the loop start at position `l`, for the tail
crossing at `t` with direction `tail_positive` (lines 455-494); the second
component tells whether the iteration leaves the scan with `break`. -/
def scanBody (t : Nat) (tail_positive : Bool) (l : Nat) (s : Remus) : Remus × Bool :=
  match crossing (s.buffer (l - 1)) (s.buffer l) with
  | some loop_positive =>
    if tail_positive = loop_positive then
      let distance : Int := |(t : Int) - (l : Int)|
      let s1 : Remus :=
        if distance < s.tail_min_distance then { s with tail_min_distance := distance } else s
      let midpoint : Nat := (t + l) / 2
      if distance ≤ (ZERO_CROSSING_DISTANCE : Int) ∧ midpoint ≥ CROSSFADE_SAMPLES / 2 ∧
          midpoint + 1 < TAIL_BUFFER_SIZE - CROSSFADE_SAMPLES / 2 ∧
          s1.stitch_position = 0 then
        ({ s1 with stitch_position := midpoint + 1 }, true)
      else (s1, false)
    else (s, false)
  | none => (s, false)

/-- The scan of the loop start for a crossing matching the tail crossing at
`t` (lines 454-495), from position `l` on.  The first argument counts the
iterations that remain until `l` exceeds `loop_search_end`. -/
def scanLoop (t : Nat) (tail_positive : Bool) : Nat → Nat → Remus → Option Remus
  | 0, _, s => some s
  | n + 1, l, s =>
    if l - 1 < s.buffer_size ∧ l < s.buffer_size then
      if (scanBody t tail_positive l s).2 = true then some (scanBody t tail_positive l s).1
      else scanLoop t tail_positive n (l + 1) (scanBody t tail_positive l s).1
    else none

/-- Lines 432-497: test the newest tail sample for a zero crossing and search
the loop start for a match. -/
def searchCrossing (s : Remus) : Option Remus :=
  if s.tail_pos ≥ 2 then
    let t := s.tail_pos - 1
    match crossing (s.tail_buffer (t - 1)) (s.tail_buffer t) with
    | some tail_positive =>
      let s1 : Remus := { s with tail_zero_crossings := u32 (s.tail_zero_crossings + 1) }
      let loop_search_start := if t > ZERO_CROSSING_DISTANCE then t - ZERO_CROSSING_DISTANCE else 1
      let loop_search_end :=
        if t + ZERO_CROSSING_DISTANCE < s1.loop_samples then t + ZERO_CROSSING_DISTANCE
        else usub s1.loop_samples 1
      scanLoop t tail_positive (loop_search_end + 1 - loop_search_start) loop_search_start s1
    | none => some s
  else some s

/-- Lines 499-507: end the capture once the crossfade samples are collected. -/
def checkEnough (s : Remus) : Remus :=
  if s.stitch_position > 0 then
    let samples_needed := u32 (s.stitch_position + CROSSFADE_SAMPLES / 2)
    if s.tail_pos ≥ samples_needed then
      { s with recording_tail := false, has_recorded := true }
    else s
  else s

/-- Lines 509-526: fall back when the tail buffer is full without a match. -/
def checkFull (s : Remus) : Remus :=
  if s.tail_pos ≥ TAIL_BUFFER_SIZE ∧ s.stitch_position = 0 then
    { s with stitch_position := CROSSFADE_SAMPLES / 2, recording_tail := false,
             has_recorded := true }
  else s

/-- Lines 404-531: the capture branch of one sample (recording or tail). -/
def captureStage (s : Remus) (x : ℚ) : Option Remus :=
  if s.recording = true then
    if s.write_pos < s.loop_samples then
      if s.write_pos < s.buffer_size then
        let s1 : Remus :=
          { s with buffer := store s.buffer s.write_pos x, write_pos := s.write_pos + 1 }
        if s1.write_pos ≥ s1.loop_samples then
          some { s1 with recording := false, recording_tail := true, tail_pos := 0,
                         tail_zero_crossings := 0, tail_min_distance := 1024,
                         stitch_position := 0 }
        else some s1
      else none
    else some s
  else if s.recording_tail = true then
    if s.tail_pos < TAIL_BUFFER_SIZE then
      let s1 : Remus :=
        { s with tail_buffer := store s.tail_buffer s.tail_pos x, tail_pos := s.tail_pos + 1 }
      match searchCrossing s1 with
      | some s2 => some (checkFull (checkEnough s2))
      | none => none
    else some s
  else some s

/-- The crossfade loop (lines 545-554); the first argument counts the
iterations that remain, `cf` is the loop variable. -/
def crossfadeLoop (tail : Nat → ℚ) (buffer_size crossfade_start : Nat) :
    Nat → Nat → (Nat → ℚ) → Option (Nat → ℚ)
  | 0, _, buf => some buf
  | n + 1, cf, buf =>
    let pos := u32 (crossfade_start + cf)
    if pos < buffer_size ∧ pos < TAIL_BUFFER_SIZE then
      let fade_in : ℚ := (cf : ℚ) / ((CROSSFADE_SAMPLES - 1 : Nat) : ℚ)
      let fade_out : ℚ := 1 - fade_in
      crossfadeLoop tail buffer_size crossfade_start n (cf + 1)
        (store buf pos (tail pos * fade_out + buf pos * fade_in))
    else none

/-- The condition of line 534: a finished tail capture waits for its splice. -/
def spliceDue (s : Remus) : Prop :=
  s.recording_tail = false ∧ s.stitch_position > 0 ∧ s.tail_pos > 0

instance (s : Remus) : Decidable (spliceDue s) :=
  inferInstanceAs (Decidable (s.recording_tail = false ∧ s.stitch_position > 0 ∧ s.tail_pos > 0))

/-- Lines 533-561: the splice of the tail into the loop start. -/
def spliceStage (s : Remus) : Option Remus :=
  if spliceDue s then
    let half_crossfade := CROSSFADE_SAMPLES / 2
    let crossfade_start := usub s.stitch_position half_crossfade
    if crossfade_start ≤ s.buffer_size ∧ crossfade_start ≤ TAIL_BUFFER_SIZE then
      let buf1 : Nat → ℚ :=
        if crossfade_start > 0 then
          fun k => if k < crossfade_start then s.tail_buffer k else s.buffer k
        else s.buffer
      match crossfadeLoop s.tail_buffer s.buffer_size crossfade_start CROSSFADE_SAMPLES 0 buf1 with
      | some buf2 => some { s with buffer := buf2, tail_pos := 0, stitch_position := 0 }
      | none => none
    else none
  else some s

/-- Lines 563-574: the playback read of one sample; the second component is
the value left in `audio_out[i]`. -/
def playbackStage (s : Remus) : Option (Remus × ℚ) :=
  if s.playing = true ∧ s.has_recorded = true ∧ s.loop_samples > 0 then
    if s.read_pos < s.buffer_size then
      let s1 : Remus := { s with read_pos := u32 (s.read_pos + 1) }
      some (if s1.read_pos ≥ s1.loop_samples then { s1 with read_pos := 0 } else s1,
            s.buffer s.read_pos)
    else none
  else some (s, 0)

/-- One iteration of the sample loop (lines 403-575) on input sample `x`. -/
def processSample (s : Remus) (x : ℚ) : Option (Remus × ℚ) :=
  match captureStage s x with
  | some s1 =>
    match spliceStage s1 with
    | some s2 => playbackStage s2
    | none => none
  | none => none

/-- The sample loop over the input samples of a block, with the output
samples it writes. -/
def processSamples : Remus → List ℚ → Option (Remus × List ℚ)
  | s, [] => some (s, [])
  | s, x :: xs =>
    match processSample s x with
    | some (s1, y) =>
      match processSamples s1 xs with
      | some (s2, ys) => some (s2, y :: ys)
      | none => none
    | none => none

/-- The function `run` on one block: final state and output samples, or `none`
when an access leaves a buffer. -/
def run (s : Remus) (b : Block) : Option (Remus × List ℚ) :=
  match processSamples (blockPrelude s b) b.audio_in with
  | some (s1, out) =>
    some ({ s1 with last_bar_beat := (blockTransport s b).current_bar_beat,
                    last_bar := (blockTransport s b).current_bar }, out)
  | none => none

/-- Consecutive calls of `run`, with the concatenated output. -/
def runBlocks : Remus → List Block → Option (Remus × List ℚ)
  | s, [] => some (s, [])
  | s, b :: bs =>
    match run s b with
    | some (s1, out) =>
      match runBlocks s1 bs with
      | some (s2, outs) => some (s2, out ++ outs)
      | none => none
    | none => none

/-- The status ports written at the end of `run` (lines 577-586). -/
def recording_status (s : Remus) : ℚ :=
  if s.recording = true ∨ s.recording_tail = true then 1 else 0

/-- The armed status port. -/
def armed_status (s : Remus) : ℚ := if s.waiting_for_bar = true then 1 else 0

/-- The recorded status port. -/
def recorded_status (s : Remus) : ℚ := if s.has_recorded = true then 1 else 0

/-! ## Predicates and functions used in the statements -/

/-- Loop position `l` qualifies for the tail crossing at `t` with direction
`d`: it has a crossing of that direction and the midpoint leaves room for
the crossfade window (the conditions of lines 468 and 480-482). -/
def loopMatch (buffer : Nat → ℚ) (t : Nat) (d : Bool) (l : Nat) : Prop :=
  crossing (buffer (l - 1)) (buffer l) = some d ∧ 32 ≤ (t + l) / 2 ∧ (t + l) / 2 + 1 < 992

/-- The loop buffer after a splice with crossfade start `c`: the tail up to
`c`, the blend over the window, the old content behind it. -/
def splicedBuffer (tail buf : Nat → ℚ) (c : Nat) : Nat → ℚ :=
  fun k =>
    if k < c then tail k
    else if k < c + 64 then
      tail k * (1 - ((k - c : Nat) : ℚ) / 63) + buf k * (((k - c : Nat) : ℚ) / 63)
    else buf k

/-- The recording phase after `n` of the `L` samples of the loop have been
written from the input `x`: still recording while `n < L`, at the start of the
tail capture when `n = L`. -/
def RecPhase (L : Nat) (x : Nat → ℚ) (n : Nat) (s : Remus) : Prop :=
  s.loop_samples = L ∧ L ≤ s.buffer_size ∧ s.has_recorded = false ∧
  s.waiting_for_bar = false ∧ (∀ k, k < n → s.buffer k = x k) ∧
  (n < L → s.recording = true ∧ s.write_pos = n ∧ ¬ spliceDue s) ∧
  (n = L → s.recording = false ∧ s.recording_tail = true ∧ s.tail_pos = 0 ∧
    s.stitch_position = 0 ∧ s.tail_zero_crossings = 0 ∧ s.tail_min_distance = 1024)

/-- No block of the list is a record trigger, `prev` being the record-enable
value of the block before the first one. -/
def noTrigger : ℚ → List Block → Prop
  | _, [] => True
  | prev, b :: bs => rec_start prev b.rec_enable = false ∧ noTrigger b.rec_enable bs

/-- The input samples of a list of blocks, in order. -/
def inputOf : List Block → List ℚ
  | [] => []
  | b :: bs => b.audio_in ++ inputOf bs

/-- A tail capture in progress over the loop content `B` of length `L`: the
first `p` tail samples are the inputs `x 0 .. x (p-1)` and the stitch position
is `sp` (0 while unset). -/
def TailPhase (B : Nat → ℚ) (L : Nat) (x : Nat → ℚ) (sp p : Nat) (s : Remus) : Prop :=
  s.recording = false ∧ s.recording_tail = true ∧ s.has_recorded = false ∧
  s.stitch_position = sp ∧ s.tail_pos = p ∧ s.buffer = B ∧ s.loop_samples = L ∧
  1 ≤ L ∧ L ≤ s.buffer_size ∧ s.buffer_size = MAX_BUFFER_SIZE ∧
  s.read_pos < s.buffer_size ∧ ∀ k, k < p → s.tail_buffer k = x k

/-- What the sample loop leaves alone: the fields it never writes, and the
`recording` flag, which it can clear but never set. -/
def LoopFrame (s s' : Remus) : Prop :=
  s'.buffer_size = s.buffer_size ∧ s'.loop_samples = s.loop_samples ∧
  s'.waiting_for_bar = s.waiting_for_bar ∧ s'.playing = s.playing ∧
  s'.waiting_to_play = s.waiting_to_play ∧ s'.prev_record_enable = s.prev_record_enable ∧
  s'.sample_rate = s.sample_rate ∧ s'.transport_bpm = s.transport_bpm ∧
  s'.transport_beats_per_bar = s.transport_beats_per_bar ∧ s'.last_bar = s.last_bar ∧
  s'.last_bar_beat = s.last_bar_beat ∧ s'.debug_logged = s.debug_logged ∧
  (s'.recording = true → s.recording = true)

/-- A bar crossing between the previous block (the position kept in the
state) and the current transport position: (a) both bar indices are set and
differ, or (b) both beat positions are set and the beat went down. -/
def barCrossed (s : Remus) (t : Transport) : Prop :=
  (t.current_bar ≥ 0 ∧ s.last_bar ≥ 0 ∧ t.current_bar ≠ s.last_bar) ∨
  (t.current_bar_beat ≥ 0 ∧ s.last_bar_beat ≥ 0 ∧ t.current_bar_beat < s.last_bar_beat)

/-- The transport is at the very beginning: bar 0 and beat in `[0, 0.1)`
(the condition of line 364). -/
def atTop (t : Transport) : Prop :=
  t.current_bar = 0 ∧ t.current_bar_beat ≥ 0 ∧ t.current_bar_beat < 1/10

/-- States reachable from activation through calls of `run`. -/
inductive Reachable : Remus → Prop
  | init (rate : ℚ) : Reachable (activate (instantiate rate))
  | step (s : Remus) (b : Block) (s' : Remus) (out : List ℚ) :
      Reachable s → run s b = some (s', out) → Reachable s'

/-! ## Concrete states and blocks used as instances -/

/-- A finished tail capture of 70 samples (a ramp) with stitch position 38. -/
def spliceAt38 : Remus :=
  { instantiate 48000 with
    stitch_position := 38
    tail_pos := 70
    tail_buffer := fun k => (k : ℚ) }

/-- A finished tail capture of 1024 samples of value 1 over a silent loop,
with the fallback stitch position 32. -/
def spliceOnes : Remus :=
  { instantiate 48000 with
    stitch_position := 32
    tail_pos := 1024
    tail_buffer := fun _ => 1 }

/-- The start of a tail capture after a silent loop of 96000 samples. -/
def tailStart : Remus :=
  { instantiate 48000 with
    recording_tail := true
    loop_samples := 96000 }

/-- A playing engine with a loop of 96000 samples (a ramp), one sample before
the wrap. -/
def playingState : Remus :=
  { instantiate 48000 with
    playing := true
    has_recorded := true
    loop_samples := 96000
    read_pos := 95999
    buffer := fun k => (k : ℚ) }

/-- A rolling block of three samples in bar 2, loop length one bar. -/
def rollingBlock : Block :=
  { events := [⟨some 1, some 2, some 1, none, none⟩]
    rec_enable := 0
    loop_len := 1
    audio_in := [0, 0, 0] }

/-- A stopped engine with a loop of 96000 samples. -/
def stoppedState : Remus :=
  { instantiate 48000 with
    has_recorded := true
    loop_samples := 96000
    last_bar := 7
    last_bar_beat := 3 }

/-- A rolling block of two samples at bar 0, beat 0. -/
def topBlock : Block :=
  { events := [⟨some 0, some 0, some 1, none, none⟩]
    rec_enable := 0
    loop_len := 1
    audio_in := [0, 0] }

/-- A position event of a rolling transport at 120 bpm in 4/4. -/
def posEvent (bar : Int) (beat : ℚ) : PositionEvent :=
  { bar_beat := some beat, bar := some bar, speed := some 1, bpm := some 120,
    beats_per_bar := some 4 }

/-- Session block: transport rolling at bar 0, record-enable held down. -/
def sessionPress : Block :=
  { events := [posEvent 0 0], rec_enable := 1, loop_len := 1, audio_in := [0, 0] }

/-- Session block: record-enable released as the transport enters bar 1; the
block carries the 96000 samples of a one-bar loop and 1024 tail samples. -/
def sessionRecord : Block :=
  { events := [posEvent 1 0], rec_enable := 0, loop_len := 1,
    audio_in := List.replicate 96000 0 ++ (List.replicate 1023 0 ++ [0]) }

/-- Session block: record-enable released as the transport enters bar 1, two
samples long. -/
def sessionRerecord : Block :=
  { events := [posEvent 1 0], rec_enable := 0, loop_len := 1, audio_in := [0, 0] }

/-- Session block: no position event (transport not rolling), two samples. -/
def sessionStop : Block :=
  { events := [], rec_enable := 0, loop_len := 1, audio_in := [0, 0] }

/-- A block without position event and without trigger, two samples long,
with the loop length of `playingState` (one bar at the default tempo). -/
def silentStopBlock : Block :=
  { events := [], rec_enable := 0, loop_len := 1, audio_in := [0, 0] }

/-- Session block: record-enable pressed again during the take, later in
bar 1; the block carries the last 95998 samples of the loop and the first two
tail samples. -/
def takePress : Block :=
  { events := [posEvent 1 1], rec_enable := 1, loop_len := 1,
    audio_in := List.replicate 95998 0 ++ [0, 0] }

/-- Session block: record-enable released during the tail capture, still in
bar 1, two samples long. -/
def takeRelease : Block :=
  { events := [posEvent 1 2], rec_enable := 0, loop_len := 1, audio_in := [0, 0] }

/-! ## The stage before the hot-update -/

/-- Remus of the engine after the trigger, bar-boundary and playback-alignment
steps of the block (lines 249-387), on which the hot-update works. -/
def afterScheduler (s : Remus) (b : Block) : Remus :=
  playbackAlign (afterBarCheck s b) (blockTransport s b)

/-! ## State persistence (`save` and `restore`) -/

/-- The atom types the plugin maps to URIDs; distinct URIs have distinct
URIDs. -/
inductive AtomType
  | atom_Blank
  | atom_Object
  | atom_Float
  | atom_Long
  | atom_Int
  deriving DecidableEq

/-- The properties of the host's state store that the plugin uses: for each of
its three keys the stored value with its type, `none` when the key is absent
(`retrieve` returns `NULL`).  The buffer value is a sequence of whole samples,
its size in bytes being four times its length; the other two values are
32-bit words. -/
structure Storage where
  remus_buffer : Option (List ℚ × AtomType)
  remus_loop_samples : Option (Nat × AtomType)
  remus_has_recorded : Option (Nat × AtomType)

/-- The function `save` (lines 607-657) for the value `persist_enable` of the
persistence port: the store after the calls of the `store` callback, or `none`
when the stored buffer value would extend beyond the loop buffer. -/
def save (s : Remus) (persist_enable : ℚ) (st : Storage) : Option Storage :=
  if persist_enable < 1/2 then some st
  else if s.has_recorded = false ∨ s.loop_samples = 0 then some st
  else if s.loop_samples ≤ s.buffer_size then
    some { remus_buffer := some ((List.range s.loop_samples).map s.buffer, AtomType.atom_Float)
           remus_loop_samples := some (s.loop_samples, AtomType.atom_Long)
           remus_has_recorded :=
             some (if s.has_recorded = true then 1 else 0, AtomType.atom_Long) }
  else none

/-- The function `restore` (lines 659-730).  The number of samples copied is
`copy_size / sizeof(float)`, the smaller of the length of the stored value and
`loop_samples`; the clamp of `loop_samples` keeps the copy inside the loop
buffer. -/
def restore (s : Remus) (st : Storage) : Remus :=
  let s1 : Remus :=
    match st.remus_loop_samples with
    | some (n, ty) =>
      if ty = AtomType.atom_Long then
        let s0 : Remus := { s with loop_samples := u32 n }
        if s0.loop_samples > s0.buffer_size then { s0 with loop_samples := s0.buffer_size }
        else s0
      else s
    | none => s
  let s2 : Remus :=
    match st.remus_has_recorded with
    | some (n, ty) =>
      if ty = AtomType.atom_Long then { s1 with has_recorded := decide (u32 n ≠ 0) } else s1
    | none => s1
  match st.remus_buffer with
  | some (data, _) =>
    if s2.loop_samples > 0 then
      let copy := min data.length s2.loop_samples
      { s2 with
        buffer := fun k => if k < copy then data.getD k 0 else s2.buffer k
        read_pos := 0
        recording := false
        waiting_for_bar := false }
    else s2
  | none => s2

/-! ## More concrete states and blocks -/

/-- A rolling block of three samples in bar 2 with a loop length of half a
bar. -/
def halfBarBlock : Block :=
  { events := [⟨some 1, some 2, some 1, none, none⟩]
    rec_enable := 0
    loop_len := 1/2
    audio_in := [0, 0, 0] }

/-- A stopped engine with a loop whose record-enable port was held high in
the previous block. -/
def pressedState : Remus :=
  { instantiate 48000 with
    has_recorded := true
    loop_samples := 48000
    prev_record_enable := 1
    last_bar := 7
    last_bar_beat := 3 }

/-- An engine with a recorded loop of three samples. -/
def threeSampleLoop : Remus :=
  { instantiate 48000 with
    has_recorded := true
    loop_samples := 3
    buffer := fun k => (k : ℚ) + 1 }

/-- An empty state store. -/
def emptyStorage : Storage :=
  { remus_buffer := none, remus_loop_samples := none, remus_has_recorded := none }

/-- The state store holding a saved loop of three samples. -/
def threeSampleStorage : Storage :=
  { remus_buffer := some ([1, 2, 3], AtomType.atom_Float)
    remus_loop_samples := some (3, AtomType.atom_Long)
    remus_has_recorded := some (1, AtomType.atom_Long) }

/-- An armed engine that waits for the next bar. -/
def armedState : Remus :=
  { instantiate 48000 with
    waiting_for_bar := true
    loop_samples := 96000 }

/-- A block of 1024 silent samples without position event. -/
def tailBlock : Block :=
  { events := [], rec_enable := 0, loop_len := 1, audio_in := List.replicate 1024 0 }

/-- Session block: record-enable released during the tail capture as the
transport enters bar 2, two samples long. -/
def tailRestart : Block :=
  { events := [posEvent 2 0], rec_enable := 0, loop_len := 1, audio_in := [0, 0] }

/-- Session block: record-enable released during the tail capture, still in
bar 1, with the loop length set to an eighth of a bar (half a beat); the two
input samples form a rising zero crossing. -/
def tailRelatch : Block :=
  { events := [posEvent 1 2], rec_enable := 0, loop_len := 1/8, audio_in := [-1, 1] }

/-- Session block: record-enable released at the bar line while the loop
plays; the block carries the 96000 samples of the new take and 1024 tail
samples of value 1. -/
def sessionRecordOnes : Block :=
  { events := [posEvent 1 0], rec_enable := 0, loop_len := 1,
    audio_in := List.replicate 96000 0 ++ (List.replicate 1023 1 ++ [1]) }


/-! ## Blocks of the sessions with a changed loop length -/

/-- Session block: record-enable released as the transport enters bar 1, with
the loop length set to an eighth of a bar (half a beat), two samples long. -/
def zeroLengthTake : Block :=
  { events := [posEvent 1 0], rec_enable := 0, loop_len := 1/8, audio_in := [0, 0] }

/-- Session block: the transport is relocated to bar 0 with record-enable held
down; the loop plays for 50000 samples. -/
def sessionPlayLong : Block :=
  { events := [posEvent 0 0], rec_enable := 1, loop_len := 1,
    audio_in := List.replicate 50000 0 }

/-- Session block: record-enable released later in bar 0, with the loop length
set to a quarter of a bar (one beat), two samples long. -/
def quarterBarTrigger : Block :=
  { events := [posEvent 0 1], rec_enable := 0, loop_len := 1/4, audio_in := [0, 0] }

/-! ## Invariants -/

/-- The bounds on the tail bookkeeping: `tail_pos` is within the tail buffer,
the stitch position is unset or has its crossfade window inside the tail
buffer, and a splice that is due has all the tail samples of its window. -/
def TailInv (s : Remus) : Prop :=
  s.tail_pos ≤ 1024 ∧
  (s.stitch_position = 0 ∨ (32 ≤ s.stitch_position ∧ s.stitch_position ≤ 991)) ∧
  (spliceDue s → s.stitch_position + 32 ≤ s.tail_pos)

/-- The loop length is within the allocated buffer of `MAX_BUFFER_SIZE`
samples. -/
def CapInv (s : Remus) : Prop :=
  s.loop_samples ≤ s.buffer_size ∧ s.buffer_size = MAX_BUFFER_SIZE

/-- While recording, the write position has not passed the loop length. -/
def WriteInv (s : Remus) : Prop :=
  s.recording = true → s.write_pos ≤ s.loop_samples

/-- States reachable from `instantiate` through calls of `activate`, `run`
and `restore` in any order. -/
inductive ReachableR : Remus → Prop
  | fresh (rate : ℚ) : ReachableR (instantiate rate)
  | activated (s : Remus) : ReachableR s → ReachableR (activate s)
  | step (s : Remus) (b : Block) (s' : Remus) (out : List ℚ) :
      ReachableR s → run s b = some (s', out) → ReachableR s'
  | restored (s : Remus) (st : Storage) : ReachableR s → ReachableR (restore s st)

/-- Session block: a rolling block in the middle of bar 1 without trigger,
with the loop length set to a quarter of a bar (one beat), two samples
long. -/
def shrinkBlock : Block :=
  { events := [posEvent 1 2], rec_enable := 0, loop_len := 1/4, audio_in := [0, 0] }


/-! ## Arithmetic helpers -/

theorem toNat_numeral (n : ℕ) :
    Int.toNat (no_index (@OfNat.ofNat ℤ n instOfNat)) = n := rfl

/-! ## The zero-crossing scan -/

theorem scanBody_frame (t : Nat) (d : Bool) (l : Nat) (s : Remus) :
    ∃ md sp, (scanBody t d l s).1 = { s with tail_min_distance := md, stitch_position := sp } := by
  unfold scanBody
  cases crossing (s.buffer (l - 1)) (s.buffer l) with
  | none => exact ⟨s.tail_min_distance, s.stitch_position, rfl⟩
  | some lp =>
    simp only
    split
    · split
      · split
        · exact ⟨_, _, rfl⟩
        · exact ⟨_, _, rfl⟩
      · split
        · exact ⟨_, _, rfl⟩
        · exact ⟨_, _, rfl⟩
    · exact ⟨s.tail_min_distance, s.stitch_position, rfl⟩

theorem scanBody_set (t : Nat) (d : Bool) (l : Nat) (s : Remus) (hs : s.stitch_position ≠ 0) :
    (scanBody t d l s).2 = false ∧ (scanBody t d l s).1.stitch_position = s.stitch_position := by
  unfold scanBody
  cases crossing (s.buffer (l - 1)) (s.buffer l) with
  | none => exact ⟨rfl, rfl⟩
  | some lp =>
    simp only
    split
    · split
      · rw [if_neg (by simp [hs])]
        exact ⟨rfl, rfl⟩
      · rw [if_neg (by simp [hs])]
        exact ⟨rfl, rfl⟩
    · exact ⟨rfl, rfl⟩

theorem scanBody_hit (t : Nat) (d : Bool) (l : Nat) (s : Remus) (hs : s.stitch_position = 0)
    (hd : |(t : Int) - (l : Int)| ≤ 8) (hm : loopMatch s.buffer t d l) :
    (scanBody t d l s).2 = true ∧ (scanBody t d l s).1.stitch_position = (t + l) / 2 + 1 := by
  obtain ⟨hc, h1, h2⟩ := hm
  unfold scanBody
  rw [hc]
  simp only [if_true]
  have hcond : ∀ s1 : Remus, s1.stitch_position = 0 →
      (|(t : Int) - (l : Int)| ≤ (ZERO_CROSSING_DISTANCE : Int) ∧
        (t + l) / 2 ≥ CROSSFADE_SAMPLES / 2 ∧
        (t + l) / 2 + 1 < TAIL_BUFFER_SIZE - CROSSFADE_SAMPLES / 2 ∧ s1.stitch_position = 0) := by
    intro s1 h
    refine ⟨?_, ?_, ?_, h⟩
    · simpa [ZERO_CROSSING_DISTANCE] using hd
    · simpa [CROSSFADE_SAMPLES] using h1
    · simpa [CROSSFADE_SAMPLES, TAIL_BUFFER_SIZE] using h2
  split
  · rw [if_pos (hcond _ hs)]
    exact ⟨rfl, rfl⟩
  · rw [if_pos (hcond _ hs)]
    exact ⟨rfl, rfl⟩

theorem scanBody_miss (t : Nat) (d : Bool) (l : Nat) (s : Remus) (hs : s.stitch_position = 0)
    (hm : ¬ loopMatch s.buffer t d l) :
    (scanBody t d l s).2 = false ∧ (scanBody t d l s).1.stitch_position = 0 := by
  unfold scanBody
  cases hc : crossing (s.buffer (l - 1)) (s.buffer l) with
  | none => exact ⟨rfl, hs⟩
  | some lp =>
    simp only
    by_cases hdl : d = lp
    · subst hdl
      have hno : ¬ (32 ≤ (t + l) / 2 ∧ (t + l) / 2 + 1 < 992) := fun h => hm ⟨hc, h⟩
      have hcond : ∀ s1 : Remus,
          ¬ (|(t : Int) - (l : Int)| ≤ (ZERO_CROSSING_DISTANCE : Int) ∧
            (t + l) / 2 ≥ CROSSFADE_SAMPLES / 2 ∧
            (t + l) / 2 + 1 < TAIL_BUFFER_SIZE - CROSSFADE_SAMPLES / 2 ∧
            s1.stitch_position = 0) := by
        intro s1 h
        apply hno
        refine ⟨?_, ?_⟩
        · simpa [CROSSFADE_SAMPLES] using h.2.1
        · simpa [CROSSFADE_SAMPLES, TAIL_BUFFER_SIZE] using h.2.2.1
      rw [if_pos rfl]
      split
      · rw [if_neg (hcond _)]
        exact ⟨rfl, hs⟩
      · rw [if_neg (hcond _)]
        exact ⟨rfl, hs⟩
    · rw [if_neg hdl]
      exact ⟨rfl, hs⟩


theorem scanLoop_spec (t : Nat) (d : Bool) :
    ∀ (n l : Nat) (s : Remus), l + n ≤ s.buffer_size →
      ∃ md sp, scanLoop t d n l s = some { s with tail_min_distance := md, stitch_position := sp } ∧
        (s.stitch_position ≠ 0 → sp = s.stitch_position) ∧
        (s.stitch_position = 0 → (∀ k, l ≤ k → k < l + n → ¬ loopMatch s.buffer t d k) → sp = 0) ∧
        (s.stitch_position = 0 → ∀ m, l ≤ m → m < l + n →
          (∀ k, l ≤ k → k < m → ¬ loopMatch s.buffer t d k) → loopMatch s.buffer t d m →
          (∀ k, l ≤ k → k ≤ m → |(t : Int) - (k : Int)| ≤ 8) → sp = (t + m) / 2 + 1) := by
  intro n
  induction n with
  | zero =>
    intro l s _
    refine ⟨s.tail_min_distance, s.stitch_position, rfl, fun _ => rfl, fun h _ => h, ?_⟩
    intro _ m h1 h2
    omega
  | succ n ih =>
    intro l s hb
    obtain ⟨md1, sp1, hbody⟩ := scanBody_frame t d l s
    have hin : l - 1 < s.buffer_size ∧ l < s.buffer_size := by omega
    have hsp1 : (scanBody t d l s).1.stitch_position = sp1 := by rw [hbody]
    unfold scanLoop
    rw [if_pos hin]
    by_cases hbrk : (scanBody t d l s).2 = true
    · rw [if_pos hbrk]
      refine ⟨md1, sp1, by rw [hbody], ?_, ?_, ?_⟩
      · intro hs
        have := scanBody_set t d l s hs
        rw [this.1] at hbrk
        exact absurd hbrk (by simp)
      · intro hs hno
        have := scanBody_miss t d l s hs (hno l (le_refl l) (by omega))
        rw [this.1] at hbrk
        exact absurd hbrk (by simp)
      · intro hs m hm1 hm2 hlow hmatch hdist
        by_cases hml : m = l
        · subst hml
          have := scanBody_hit t d m s hs (hdist m (le_refl m) (le_refl m)) hmatch
          rw [← hsp1, this.2]
        · have := scanBody_miss t d l s hs (hlow l (le_refl l) (by omega))
          rw [this.1] at hbrk
          exact absurd hbrk (by simp)
    · rw [if_neg hbrk]
      have hb1 : (l + 1) + n ≤ (scanBody t d l s).1.buffer_size := by
        rw [hbody]; simp only; omega
      obtain ⟨md, sp, hrun, hA, hB, hC⟩ := ih (l + 1) (scanBody t d l s).1 hb1
      have hbuf : (scanBody t d l s).1.buffer = s.buffer := by rw [hbody]
      refine ⟨md, sp, ?_, ?_, ?_, ?_⟩
      · rw [hrun, hbody]
      · intro hs
        have h1 := scanBody_set t d l s hs
        rw [hA (by rw [h1.2]; exact hs), h1.2]
      · intro hs hno
        have h1 := scanBody_miss t d l s hs (hno l (le_refl l) (by omega))
        apply hB h1.2
        intro k hk1 hk2
        rw [hbuf]
        exact hno k (by omega) (by omega)
      · intro hs m hm1 hm2 hlow hmatch hdist
        by_cases hml : m = l
        · subst hml
          have := scanBody_hit t d m s hs (hdist m (le_refl m) (le_refl m)) hmatch
          rw [this.1] at hbrk
          exact absurd rfl hbrk
        · have h1 := scanBody_miss t d l s hs (hlow l (le_refl l) (by omega))
          apply hC h1.2 m (by omega) (by omega)
          · intro k hk1 hk2
            rw [hbuf]
            exact hlow k (by omega) hk2
          · rw [hbuf]; exact hmatch
          · intro k hk1 hk2
            exact hdist k (by omega) hk2


theorem usub_one {a : Nat} (h1 : 1 ≤ a) (h2 : a < 4294967296) : usub a 1 = a - 1 := by
  unfold usub
  omega

theorem searchCrossing_spec (s : Remus) (t : Nat) (ht : s.tail_pos = t + 1) (htB : t < 1024)
    (hL : 1 ≤ s.loop_samples) (hLB : s.loop_samples ≤ s.buffer_size)
    (hB : s.buffer_size < 4294967296) (hB2 : 1024 ≤ s.buffer_size) :
    ∃ zc md sp, searchCrossing s =
        some { s with tail_zero_crossings := zc, tail_min_distance := md, stitch_position := sp } ∧
      (s.stitch_position ≠ 0 → sp = s.stitch_position) ∧
      (s.stitch_position = 0 →
        (∀ d, 1 ≤ t → crossing (s.tail_buffer (t - 1)) (s.tail_buffer t) = some d →
          ∀ k, max 1 (t - 8) ≤ k → k ≤ min (t + 8) (s.loop_samples - 1) →
            ¬ loopMatch s.buffer t d k) → sp = 0) ∧
      (s.stitch_position = 0 → ∀ d m, 1 ≤ t →
        crossing (s.tail_buffer (t - 1)) (s.tail_buffer t) = some d →
        max 1 (t - 8) ≤ m → m ≤ min (t + 8) (s.loop_samples - 1) →
        (∀ k, max 1 (t - 8) ≤ k → k < m → ¬ loopMatch s.buffer t d k) →
        loopMatch s.buffer t d m → sp = (t + m) / 2 + 1) := by
  unfold searchCrossing
  by_cases h2 : s.tail_pos ≥ 2
  · have h1t : 1 ≤ t := by omega
    have hpos : s.tail_pos - 1 = t := by omega
    rw [if_pos h2]
    simp only [hpos]
    cases hc : crossing (s.tail_buffer (t - 1)) (s.tail_buffer t) with
    | none =>
      refine ⟨s.tail_zero_crossings, s.tail_min_distance, s.stitch_position, rfl, fun _ => rfl,
        fun h _ => h, ?_⟩
      intro _ d m _ hd
      exact absurd hd (by simp)
    | some d =>
      simp only [ZERO_CROSSING_DISTANCE]
      have hend : (if t + 8 < s.loop_samples then t + 8 else usub s.loop_samples 1)
          = min (t + 8) (s.loop_samples - 1) := by
        rw [usub_one hL (by omega)]
        split <;> omega
      have hstart : (if t > 8 then t - 8 else 1) = max 1 (t - 8) := by
        split <;> omega
      rw [hend, hstart]
      obtain ⟨md, sp, hrun, hA, hB, hC⟩ := scanLoop_spec t d
        (min (t + 8) (s.loop_samples - 1) + 1 - max 1 (t - 8)) (max 1 (t - 8))
        { s with tail_zero_crossings := u32 (s.tail_zero_crossings + 1) }
        (by simp only; omega)
      refine ⟨u32 (s.tail_zero_crossings + 1), md, sp, by rw [hrun], hA, ?_, ?_⟩
      · intro hs hno
        apply hB hs
        intro k hk1 hk2
        exact hno d h1t rfl k hk1 (by omega)
      · intro hs d2 m _ hd2 hm1 hm2 hlow hmatch
        have hdd : d = d2 := by simpa using hd2
        subst hdd
        apply hC hs m hm1 (by omega) hlow hmatch
        intro k hk1 hk2
        rw [abs_le]
        constructor <;> omega
  · have ht0 : t = 0 := by omega
    rw [if_neg h2]
    refine ⟨s.tail_zero_crossings, s.tail_min_distance, s.stitch_position, rfl, fun _ => rfl,
      fun h _ => h, ?_⟩
    intro _ d m h1
    omega

/-! ## The splice -/

theorem crossfadeLoop_spec (tail : Nat → ℚ) (bsize c : Nat) :
    ∀ (n cf : Nat) (buf : Nat → ℚ), c + cf + n ≤ bsize → c + cf + n ≤ 1024 →
      crossfadeLoop tail bsize c n cf buf =
        some (fun k => if c + cf ≤ k ∧ k < c + cf + n then
          tail k * (1 - ((k - c : Nat) : ℚ) / 63) + buf k * (((k - c : Nat) : ℚ) / 63)
          else buf k) := by
  intro n
  induction n with
  | zero =>
    intro cf buf _ _
    simp only [crossfadeLoop, Option.some.injEq]
    funext k
    rw [if_neg (by omega)]
  | succ n ih =>
    intro cf buf h1 h2
    have hpos : u32 (c + cf) = c + cf := by unfold u32; omega
    unfold crossfadeLoop
    simp only [hpos, TAIL_BUFFER_SIZE, CROSSFADE_SAMPLES]
    rw [if_pos (by omega)]
    rw [ih (cf + 1) _ (by omega) (by omega)]
    simp only [Option.some.injEq]
    funext k
    by_cases hk : k = c + cf
    · subst hk
      rw [if_neg (by omega), if_pos (by omega)]
      simp [store]
    · by_cases hr : c + (cf + 1) ≤ k ∧ k < c + (cf + 1) + n
      · rw [if_pos hr, if_pos (by omega)]
        simp [store, hk]
      · rw [if_neg hr, if_neg (by omega)]
        simp [store, hk]

theorem usub_half {a : Nat} (h1 : 32 ≤ a) (h2 : a < 4294967296) : usub a 32 = a - 32 := by
  unfold usub
  omega

theorem spliceStage_spec (s : Remus) (hdue : spliceDue s) (h1 : 32 ≤ s.stitch_position)
    (h2 : s.stitch_position + 32 ≤ 1024) (h3 : s.stitch_position + 32 ≤ s.buffer_size) :
    spliceStage s = some { s with
      buffer := splicedBuffer s.tail_buffer s.buffer (s.stitch_position - 32)
      tail_pos := 0
      stitch_position := 0 } := by
  have hc : usub s.stitch_position (CROSSFADE_SAMPLES / 2) = s.stitch_position - 32 :=
    usub_half h1 (by omega)
  have hcf := fun buf => crossfadeLoop_spec s.tail_buffer s.buffer_size (s.stitch_position - 32)
    CROSSFADE_SAMPLES 0 buf (by simp only [CROSSFADE_SAMPLES]; omega)
    (by simp only [CROSSFADE_SAMPLES]; omega)
  have hbuf : (fun k => if s.stitch_position - 32 + 0 ≤ k ∧
        k < s.stitch_position - 32 + 0 + CROSSFADE_SAMPLES then
        s.tail_buffer k * (1 - ((k - (s.stitch_position - 32) : Nat) : ℚ) / 63) +
          (if s.stitch_position - 32 > 0 then
            fun k => if k < s.stitch_position - 32 then s.tail_buffer k else s.buffer k
            else s.buffer) k * (((k - (s.stitch_position - 32) : Nat) : ℚ) / 63)
        else (if s.stitch_position - 32 > 0 then
            fun k => if k < s.stitch_position - 32 then s.tail_buffer k else s.buffer k
            else s.buffer) k)
      = splicedBuffer s.tail_buffer s.buffer (s.stitch_position - 32) := by
    funext k
    unfold splicedBuffer
    simp only [CROSSFADE_SAMPLES]
    by_cases hc : s.stitch_position - 32 > 0
    · simp only [hc, if_true]
      by_cases hk : k < s.stitch_position - 32
      · rw [if_neg (by omega), if_pos hk, if_pos hk]
      · rw [if_neg hk, if_neg hk]
        by_cases hk2 : k < s.stitch_position - 32 + 64
        · rw [if_pos (by omega), if_pos hk2]
        · rw [if_neg (by omega), if_neg hk2]
    · have hz : s.stitch_position - 32 = 0 := by omega
      rw [hz]
      simp
  unfold spliceStage
  rw [if_pos hdue]
  simp only [hc, hcf]
  rw [if_pos (by simp only [TAIL_BUFFER_SIZE]; omega)]
  rw [hbuf]

theorem spliceStage_idle (s : Remus) (h : ¬ spliceDue s) : spliceStage s = some s := by
  unfold spliceStage
  rw [if_neg h]

/-! ## Recording -/

theorem playbackStage_silent (s : Remus)
    (h : ¬ (s.playing = true ∧ s.has_recorded = true ∧ s.loop_samples > 0)) :
    playbackStage s = some (s, 0) := by
  unfold playbackStage
  rw [if_neg h]

theorem processSample_recording (s : Remus) (x : ℚ) (hr : s.recording = true)
    (hh : s.has_recorded = false) (hnd : ¬ spliceDue s) (hw : s.write_pos < s.loop_samples)
    (hb : s.loop_samples ≤ s.buffer_size) :
    processSample s x = some
      (if s.write_pos + 1 ≥ s.loop_samples then
        { s with buffer := store s.buffer s.write_pos x, write_pos := s.write_pos + 1,
                 recording := false, recording_tail := true, tail_pos := 0,
                 tail_zero_crossings := 0, tail_min_distance := 1024, stitch_position := 0 }
      else { s with buffer := store s.buffer s.write_pos x, write_pos := s.write_pos + 1 }, 0) := by
  have hcap : captureStage s x = some
      (if s.write_pos + 1 ≥ s.loop_samples then
        { s with buffer := store s.buffer s.write_pos x, write_pos := s.write_pos + 1,
                 recording := false, recording_tail := true, tail_pos := 0,
                 tail_zero_crossings := 0, tail_min_distance := 1024, stitch_position := 0 }
      else { s with buffer := store s.buffer s.write_pos x, write_pos := s.write_pos + 1 }) := by
    unfold captureStage
    rw [if_pos hr, if_pos hw, if_pos (by omega)]
    simp only
    split <;> rfl
  unfold processSample
  rw [hcap]
  by_cases hlast : s.write_pos + 1 ≥ s.loop_samples
  · simp only [if_pos hlast]
    rw [spliceStage_idle _ (by simp [spliceDue])]
    simp only
    rw [playbackStage_silent _ (by simp [hh])]
  · simp only [if_neg hlast]
    rw [spliceStage_idle _ (by simpa [spliceDue] using hnd)]
    simp only
    rw [playbackStage_silent _ (by simp [hh])]

theorem processSamples_recPhase (L : Nat) (x : Nat → ℚ) :
    ∀ (xs : List ℚ) (n : Nat) (s : Remus), RecPhase L x n s → n + xs.length ≤ L →
      (∀ i, i < xs.length → x (n + i) = xs.getD i 0) →
      ∃ s', processSamples s xs = some (s', List.replicate xs.length 0) ∧
        RecPhase L x (n + xs.length) s' ∧ s'.prev_record_enable = s.prev_record_enable ∧
        s'.read_pos = s.read_pos := by
  intro xs
  induction xs with
  | nil =>
    intro n s h _ _
    exact ⟨s, rfl, h, rfl, rfl⟩
  | cons y ys ih =>
    intro n s h hlen hx
    obtain ⟨hL, hB, hh, hwb, hbuf, hmid, _⟩ := h
    simp only [List.length_cons] at hlen
    obtain ⟨hr, hwp, hnd⟩ := hmid (by omega)
    have hx0 : x n = y := by simpa using hx 0 (by simp)
    have hstep := processSample_recording s y hr hh hnd (by omega) (by omega)
    have hnext : RecPhase L x (n + 1)
        (if s.write_pos + 1 ≥ s.loop_samples then
          { s with buffer := store s.buffer s.write_pos y, write_pos := s.write_pos + 1,
                   recording := false, recording_tail := true, tail_pos := 0,
                   tail_zero_crossings := 0, tail_min_distance := 1024, stitch_position := 0 }
        else { s with buffer := store s.buffer s.write_pos y, write_pos := s.write_pos + 1 }) := by
      have hbuf2 : ∀ k, k < n + 1 → store s.buffer s.write_pos y k = x k := by
        intro k hk
        unfold store
        by_cases hkn : k = s.write_pos
        · rw [if_pos hkn, hkn, hwp, hx0]
        · rw [if_neg hkn]
          exact hbuf k (by omega)
      by_cases hlast : s.write_pos + 1 ≥ s.loop_samples
      · rw [if_pos hlast]
        refine ⟨hL, hB, hh, hwb, hbuf2, fun h => by omega, fun _ => ⟨rfl, rfl, rfl, rfl, rfl, rfl⟩⟩
      · rw [if_neg hlast]
        refine ⟨hL, hB, hh, hwb, hbuf2, fun _ => ⟨hr, by simp only; omega, ?_⟩, fun h => by omega⟩
        simpa [spliceDue] using hnd
    obtain ⟨s', hrun, hph, hprev, hrp⟩ := ih (n + 1) _ hnext (by omega) (by
      intro i hi
      have := hx (i + 1) (by simp only [List.length_cons]; omega)
      simpa [Nat.add_assoc, Nat.add_comm 1 i] using this)
    refine ⟨s', ?_, ?_, ?_, ?_⟩
    · unfold processSamples
      rw [hstep]
      simp only
      rw [hrun]
      simp [List.replicate_succ]
    · have : n + (y :: ys).length = n + 1 + ys.length := by simp only [List.length_cons]; omega
      rw [this]
      exact hph
    · rw [hprev]
      split <;> rfl
    · rw [hrp]
      split <;> rfl

theorem blockPrelude_idle (s : Remus) (b : Block) (hh : s.has_recorded = false)
    (hw : s.waiting_for_bar = false) (ht : blockRecStart s b = false) :
    blockPrelude s b = { s with
      transport_bpm := (blockTransport s b).bpm
      transport_beats_per_bar := (blockTransport s b).beats_per_bar
      prev_record_enable := b.rec_enable } := by
  simp [blockPrelude, afterBarCheck, afterTrigger, ht, hh, hw, stopOnRestart, armOnTrigger, checkBarBoundary,
    playbackAlign, hotUpdate]

theorem run_recPhase (L : Nat) (x : Nat → ℚ) (n : Nat) (s : Remus) (b : Block)
    (h : RecPhase L x n s) (ht : rec_start s.prev_record_enable b.rec_enable = false)
    (hlen : n + b.audio_in.length ≤ L)
    (hx : ∀ i, i < b.audio_in.length → x (n + i) = b.audio_in.getD i 0) :
    ∃ s', run s b = some (s', List.replicate b.audio_in.length 0) ∧
      RecPhase L x (n + b.audio_in.length) s' ∧ s'.prev_record_enable = b.rec_enable := by
  have hpre := blockPrelude_idle s b h.2.2.1 h.2.2.2.1 ht
  have hph : RecPhase L x n (blockPrelude s b) := by
    rw [hpre]
    exact h
  obtain ⟨s', hrun, hph', hprev, _⟩ := processSamples_recPhase L x b.audio_in n _ hph hlen hx
  refine ⟨{ s' with last_bar_beat := (blockTransport s b).current_bar_beat,
                    last_bar := (blockTransport s b).current_bar }, ?_, hph', ?_⟩
  · unfold run
    rw [hrun]
  · simp only [hprev, hpre]

theorem runBlocks_recPhase (L : Nat) (x : Nat → ℚ) :
    ∀ (bs : List Block) (n : Nat) (s : Remus), RecPhase L x n s →
      noTrigger s.prev_record_enable bs → n + (inputOf bs).length ≤ L →
      (∀ i, i < (inputOf bs).length → x (n + i) = (inputOf bs).getD i 0) →
      ∃ s', runBlocks s bs = some (s', List.replicate (inputOf bs).length 0) ∧
        RecPhase L x (n + (inputOf bs).length) s' := by
  intro bs
  induction bs with
  | nil =>
    intro n s h _ _ _
    exact ⟨s, rfl, h⟩
  | cons b bs ih =>
    intro n s h ht hlen hx
    have hl : (inputOf (b :: bs)).length = b.audio_in.length + (inputOf bs).length := by
      simp [inputOf]
    rw [hl] at hlen
    obtain ⟨s1, hrun1, hph1, hprev1⟩ := run_recPhase L x n s b h ht.1 (by omega) (by
      intro i hi
      have := hx i (by rw [hl]; omega)
      rw [this]
      simp only [inputOf, List.getD_eq_getElem?_getD]
      rw [List.getElem?_append_left hi])
    obtain ⟨s2, hrun2, hph2⟩ := ih (n + b.audio_in.length) s1 hph1
      (by rw [hprev1]; exact ht.2) (by omega) (by
      intro i hi
      have := hx (b.audio_in.length + i) (by rw [hl]; omega)
      rw [Nat.add_assoc, this]
      simp only [inputOf, List.getD_eq_getElem?_getD]
      rw [List.getElem?_append_right (by omega)]
      simp)
    refine ⟨s2, ?_, ?_⟩
    · unfold runBlocks
      rw [hrun1]
      simp only
      rw [hrun2, hl, List.replicate_add]
    · rw [hl, ← Nat.add_assoc]
      exact hph2

/-! ## Tail capture -/

theorem captureStage_tail (s : Remus) (y : ℚ) (hr : s.recording = false)
    (ht : s.recording_tail = true) (hp : s.tail_pos < 1024)
    (hL : 1 ≤ s.loop_samples) (hLB : s.loop_samples ≤ s.buffer_size)
    (hB : s.buffer_size = MAX_BUFFER_SIZE) :
    ∃ zc md sp, captureStage s y = some (checkFull (checkEnough { s with
        tail_buffer := store s.tail_buffer s.tail_pos y
        tail_pos := s.tail_pos + 1
        tail_zero_crossings := zc
        tail_min_distance := md
        stitch_position := sp })) ∧
      (s.stitch_position ≠ 0 → sp = s.stitch_position) ∧
      (s.stitch_position = 0 →
        (∀ d, 1 ≤ s.tail_pos → crossing (s.tail_buffer (s.tail_pos - 1)) y = some d →
          ∀ k, max 1 (s.tail_pos - 8) ≤ k → k ≤ min (s.tail_pos + 8) (s.loop_samples - 1) →
            ¬ loopMatch s.buffer s.tail_pos d k) → sp = 0) ∧
      (s.stitch_position = 0 → ∀ d m, 1 ≤ s.tail_pos →
        crossing (s.tail_buffer (s.tail_pos - 1)) y = some d →
        max 1 (s.tail_pos - 8) ≤ m → m ≤ min (s.tail_pos + 8) (s.loop_samples - 1) →
        (∀ k, max 1 (s.tail_pos - 8) ≤ k → k < m → ¬ loopMatch s.buffer s.tail_pos d k) →
        loopMatch s.buffer s.tail_pos d m → sp = (s.tail_pos + m) / 2 + 1) := by
  have hB1 : s.buffer_size < 4294967296 := by rw [hB]; decide
  have hB2 : 1024 ≤ s.buffer_size := by rw [hB]; decide
  obtain ⟨zc, md, sp, hrun, hA, hN, hM⟩ := searchCrossing_spec
    { s with tail_buffer := store s.tail_buffer s.tail_pos y, tail_pos := s.tail_pos + 1 }
    s.tail_pos rfl hp hL hLB hB1 hB2
  have hprev : 1 ≤ s.tail_pos →
      store s.tail_buffer s.tail_pos y (s.tail_pos - 1) = s.tail_buffer (s.tail_pos - 1) := by
    intro h
    unfold store
    rw [if_neg (by omega)]
  have hcur : store s.tail_buffer s.tail_pos y s.tail_pos = y := by
    unfold store
    rw [if_pos rfl]
  refine ⟨zc, md, sp, ?_, hA, ?_, ?_⟩
  · unfold captureStage
    rw [if_neg (by simp [hr]), if_pos ht, if_pos (by simpa [TAIL_BUFFER_SIZE] using hp)]
    simp only [hrun]
  · intro hs hno
    apply hN hs
    intro d h1 hc
    have hc2 : crossing (store s.tail_buffer s.tail_pos y (s.tail_pos - 1))
        (store s.tail_buffer s.tail_pos y s.tail_pos) = some d := hc
    rw [hprev h1, hcur] at hc2
    exact hno d h1 hc2
  · intro hs d m h1 hc
    have hc2 : crossing (store s.tail_buffer s.tail_pos y (s.tail_pos - 1))
        (store s.tail_buffer s.tail_pos y s.tail_pos) = some d := by
      rw [hprev h1, hcur]
      exact hc
    exact hM hs d m h1 hc2

theorem tail_continue (B : Nat → ℚ) (L : Nat) (x : Nat → ℚ) (sp p : Nat) (s s2 : Remus)
    (y : ℚ) (zc : Nat) (md : Int) (sp2 : Nat) (h : TailPhase B L x sp p s) (hy : x p = y)
    (hcap : captureStage s y = some (checkFull (checkEnough s2)))
    (hs2 : s2 = { s with
        tail_buffer := store s.tail_buffer s.tail_pos y
        tail_pos := s.tail_pos + 1
        tail_zero_crossings := zc
        tail_min_distance := md
        stitch_position := sp2 })
    (hgo : (sp2 = 0 ∧ p + 1 < 1024) ∨ (sp2 ≠ 0 ∧ p + 1 < sp2 + 32 ∧ sp2 + 32 ≤ 1024)) :
    processSample s y = some (s2, 0) ∧ TailPhase B L x sp2 (p + 1) s2 := by
  obtain ⟨h1, h2, h3, h4, h5, h6, h7, h8, h9, h10, h11, h12⟩ := h
  have hE : checkEnough s2 = s2 := by
    unfold checkEnough
    rcases hgo with ⟨hz, _⟩ | ⟨hz, hlt, hle⟩
    · rw [if_neg (by rw [hs2]; simp [hz])]
    · rw [if_pos (by rw [hs2]; simp only; omega)]
      simp only
      rw [if_neg]
      rw [hs2]
      simp only [CROSSFADE_SAMPLES, u32, h5]
      omega
  have hF : checkFull s2 = s2 := by
    unfold checkFull
    rw [if_neg]
    rw [hs2]
    simp only [TAIL_BUFFER_SIZE, h5]
    omega
  have hph : TailPhase B L x sp2 (p + 1) s2 := by
    rw [hs2]
    refine ⟨h1, h2, h3, rfl, by simp only [h5], h6, h7, h8, h9, h10, h11, ?_⟩
    intro k hk
    simp only [store, h5]
    by_cases hkp : k = p
    · rw [if_pos hkp, hkp, hy]
    · rw [if_neg hkp]
      exact h12 k (by omega)
  refine ⟨?_, hph⟩
  unfold processSample
  rw [hcap, hE, hF]
  simp only
  rw [spliceStage_idle _ (by simp [spliceDue, hph.2.1])]
  simp only
  rw [playbackStage_silent _ (by simp [hph.2.2.1])]

theorem playbackStage_fields (c : Remus) (h : c.read_pos < c.buffer_size) :
    ∃ s' out, playbackStage c = some (s', out) ∧ s'.recording = c.recording ∧
      s'.recording_tail = c.recording_tail ∧ s'.has_recorded = c.has_recorded ∧
      s'.tail_pos = c.tail_pos ∧ s'.stitch_position = c.stitch_position ∧
      s'.buffer = c.buffer := by
  unfold playbackStage
  split
  · simp only
    split
    · exact ⟨_, _, rfl, rfl, rfl, rfl, rfl, rfl, rfl⟩
    · exact ⟨_, _, rfl, rfl, rfl, rfl, rfl, rfl, rfl⟩
  · exact ⟨_, _, rfl, rfl, rfl, rfl, rfl, rfl, rfl⟩

theorem tail_complete (B : Nat → ℚ) (L : Nat) (x : Nat → ℚ) (sp p : Nat) (s s2 : Remus)
    (y : ℚ) (zc : Nat) (md : Int) (sp2 : Nat) (h : TailPhase B L x sp p s)
    (hcap : captureStage s y = some (checkFull (checkEnough s2)))
    (hs2 : s2 = { s with
        tail_buffer := store s.tail_buffer s.tail_pos y
        tail_pos := s.tail_pos + 1
        tail_zero_crossings := zc
        tail_min_distance := md
        stitch_position := sp2 })
    (hend : (sp2 = 0 ∧ p + 1 = 1024) ∨ (sp2 ≠ 0 ∧ 32 ≤ sp2 ∧ sp2 + 32 ≤ p + 1 ∧ p + 1 ≤ 1024)) :
    ∃ c s' out, captureStage s y = some c ∧ processSample s y = some (s', out) ∧
      c.stitch_position = (if sp2 = 0 then 32 else sp2) ∧ c.recording_tail = false ∧
      c.has_recorded = true ∧ c.buffer = B ∧ c.tail_buffer = store s.tail_buffer p y ∧
      spliceStage c = some { c with
        buffer := splicedBuffer c.tail_buffer c.buffer (c.stitch_position - 32)
        tail_pos := 0
        stitch_position := 0 } ∧
      s'.recording = false ∧ s'.recording_tail = false ∧ s'.has_recorded = true ∧
      s'.tail_pos = 0 ∧ s'.stitch_position = 0 ∧
      s'.buffer = splicedBuffer (store s.tail_buffer p y) B ((if sp2 = 0 then 32 else sp2) - 32) := by
  obtain ⟨h1, h2, h3, h4, h5, h6, h7, h8, h9, h10, h11, h12⟩ := h
  have hc : checkFull (checkEnough s2) = { s2 with
      stitch_position := (if sp2 = 0 then 32 else sp2)
      recording_tail := false
      has_recorded := true } := by
    rcases hend with ⟨hz, hfull⟩ | ⟨hz, h32, hle, hcap2⟩
    · have hE : checkEnough s2 = s2 := by
        unfold checkEnough
        rw [if_neg (by rw [hs2]; simp [hz])]
      rw [hE]
      unfold checkFull
      rw [if_pos (by rw [hs2]; simp only [TAIL_BUFFER_SIZE, h5]; omega)]
      simp [hz, CROSSFADE_SAMPLES]
    · have hE : checkEnough s2 = { s2 with recording_tail := false, has_recorded := true } := by
        unfold checkEnough
        rw [if_pos (by rw [hs2]; simp only; omega)]
        simp only
        rw [if_pos]
        rw [hs2]
        simp only [CROSSFADE_SAMPLES, u32, h5]
        omega
      rw [hE]
      unfold checkFull
      rw [if_neg (by rw [hs2]; simp [hz])]
      rw [hs2]
      simp [hz]
  have hsf : 32 ≤ (if sp2 = 0 then 32 else sp2) ∧ (if sp2 = 0 then 32 else sp2) + 32 ≤ 1024 := by
    rcases hend with ⟨hz, _⟩ | ⟨hz, h32, hle, hcap2⟩
    · rw [if_pos hz]; omega
    · rw [if_neg hz]; omega
  have hMax : (1024 : Nat) ≤ MAX_BUFFER_SIZE := by decide
  have hsplice := spliceStage_spec (checkFull (checkEnough s2))
    (by rw [hc, hs2]; simp only [spliceDue]; refine ⟨trivial, by omega, by omega⟩)
    (by rw [hc]; exact hsf.1) (by rw [hc]; exact hsf.2)
    (by rw [hc, hs2]; simp only [h10]; omega)
  have hplay : ∃ s' out, playbackStage { checkFull (checkEnough s2) with
        buffer := splicedBuffer (checkFull (checkEnough s2)).tail_buffer
          (checkFull (checkEnough s2)).buffer ((checkFull (checkEnough s2)).stitch_position - 32)
        tail_pos := 0
        stitch_position := 0 } = some (s', out) ∧
      s'.recording = false ∧ s'.recording_tail = false ∧ s'.has_recorded = true ∧
      s'.tail_pos = 0 ∧ s'.stitch_position = 0 ∧
      s'.buffer = splicedBuffer (store s.tail_buffer p y) B
        ((if sp2 = 0 then 32 else sp2) - 32) := by
    obtain ⟨s', out, hpb, q1, q2, q3, q4, q5, q6⟩ := playbackStage_fields
      { checkFull (checkEnough s2) with
        buffer := splicedBuffer (checkFull (checkEnough s2)).tail_buffer
          (checkFull (checkEnough s2)).buffer ((checkFull (checkEnough s2)).stitch_position - 32)
        tail_pos := 0
        stitch_position := 0 } (by rw [hc, hs2]; exact h11)
    refine ⟨s', out, hpb, ?_, ?_, ?_, q4, q5, ?_⟩
    · rw [q1, hc, hs2]; exact h1
    · rw [q2, hc]
    · rw [q3, hc]
    · rw [q6, hc, hs2]; simp only [h5, h6]
  obtain ⟨s', out, hpb, hq⟩ := hplay
  refine ⟨checkFull (checkEnough s2), s', out, hcap, ?_, ?_, ?_, ?_, ?_, ?_, hsplice, hq⟩
  · unfold processSample
    rw [hcap]
    simp only
    rw [hsplice]
    simp only
    exact hpb
  · rw [hc]
  · rw [hc]
  · rw [hc]
  · rw [hc, hs2]; exact h6
  · rw [hc, hs2]; simp only [h5]

theorem tail_run (B : Nat → ℚ) (L : Nat) (x : Nat → ℚ) (sp : Nat) :
    ∀ (ys : List ℚ) (p : Nat) (s : Remus), TailPhase B L x sp p s →
      (∀ i, i < ys.length → x (p + i) = ys.getD i 0) →
      ((sp = 0 ∧ p + ys.length < 1024 ∧
          ∀ t, p ≤ t → t < p + ys.length → ∀ d, 1 ≤ t → crossing (x (t - 1)) (x t) = some d →
            ∀ k, max 1 (t - 8) ≤ k → k ≤ min (t + 8) (L - 1) → ¬ loopMatch B t d k) ∨
        (sp ≠ 0 ∧ p + ys.length < sp + 32 ∧ sp + 32 ≤ 1024)) →
      ∃ s', processSamples s ys = some (s', List.replicate ys.length 0) ∧
        TailPhase B L x sp (p + ys.length) s' := by
  intro ys
  induction ys with
  | nil =>
    intro p s h _ _
    exact ⟨s, rfl, h⟩
  | cons y ys ih =>
    intro p s h hx hcase
    have hy : x p = y := by simpa using hx 0 (by simp)
    have hlen : (y :: ys).length = ys.length + 1 := by simp
    have hp : p + 1 < 1024 ∨ (sp ≠ 0 ∧ p + 1 < sp + 32 ∧ sp + 32 ≤ 1024) := by
      rcases hcase with ⟨_, h1, _⟩ | ⟨h0, h1, h2⟩
      · left; rw [hlen] at h1; omega
      · right; rw [hlen] at h1; exact ⟨h0, by omega, h2⟩
    obtain ⟨h1, h2, h3, h4, h5, h6, h7, h8, h9, h10, h11, h12⟩ := h
    obtain ⟨zc, md, sp2, hcap, hA, hN, _⟩ := captureStage_tail s y h1 h2
      (by rw [h5]; omega) (by rw [h7]; exact h8) (by rw [h7]; exact h9) h10
    have hsp2 : sp2 = sp := by
      by_cases hz : sp = 0
      · rw [hz]
        apply hN (by rw [h4, hz])
        intro d hd hc k hk1 hk2
        rcases hcase with ⟨_, hl, hno⟩ | ⟨hnz, _⟩
        · rw [h5] at hd hc hk1 hk2 ⊢
          rw [h12 (p - 1) (by omega), ← hy] at hc
          rw [h6]
          rw [h7] at hk2
          exact hno p (le_refl p) (by rw [hlen]; omega) d hd hc k hk1 hk2
        · exact absurd hz hnz
      · rw [hA (by rw [h4]; exact hz), h4]
    rw [hsp2] at hcap
    have hgo : (sp = 0 ∧ p + 1 < 1024) ∨ (sp ≠ 0 ∧ p + 1 < sp + 32 ∧ sp + 32 ≤ 1024) := by
      by_cases hz : sp = 0
      · left
        refine ⟨hz, ?_⟩
        rcases hp with hp | ⟨hnz, _⟩
        · exact hp
        · exact absurd hz hnz
      · right
        rcases hcase with ⟨hz0, _⟩ | ⟨_, hl, hle⟩
        · exact absurd hz0 hz
        · rw [hlen] at hl
          exact ⟨hz, by omega, hle⟩
    obtain ⟨hstep, hph⟩ := tail_continue B L x sp p s _ y zc md sp
      ⟨h1, h2, h3, h4, h5, h6, h7, h8, h9, h10, h11, h12⟩ hy hcap rfl hgo
    obtain ⟨s', hrun, hph'⟩ := ih (p + 1) _ hph (by
      intro i hi
      have := hx (i + 1) (by rw [hlen]; omega)
      simpa [Nat.add_assoc, Nat.add_comm 1 i] using this) (by
      rcases hcase with ⟨hz, hl, hno⟩ | ⟨hnz, hl, hle⟩
      · left
        rw [hlen] at hl
        refine ⟨hz, by omega, ?_⟩
        intro t ht1 ht2
        exact hno t (by omega) (by rw [hlen]; omega)
      · right
        rw [hlen] at hl
        exact ⟨hnz, by omega, hle⟩)
    refine ⟨s', ?_, ?_⟩
    · unfold processSamples
      rw [hstep]
      simp only
      rw [hrun]
      simp [List.replicate_succ]
    · have : p + (y :: ys).length = p + 1 + ys.length := by rw [hlen]; omega
      rw [this]
      exact hph'

theorem TailPhase.congr {B : Nat → ℚ} {L : Nat} {x : Nat → ℚ} {sp p : Nat} {s : Remus}
    (h : TailPhase B L x sp p s) (x' : Nat → ℚ) (hx : ∀ k, k < p → x k = x' k) :
    TailPhase B L x' sp p s := by
  obtain ⟨h1, h2, h3, h4, h5, h6, h7, h8, h9, h10, h11, h12⟩ := h
  exact ⟨h1, h2, h3, h4, h5, h6, h7, h8, h9, h10, h11, fun k hk => (h12 k hk).trans (hx k hk)⟩

theorem processSamples_append :
    ∀ (xs ys : List ℚ) (s s1 s2 : Remus) (o1 o2 : List ℚ),
      processSamples s xs = some (s1, o1) → processSamples s1 ys = some (s2, o2) →
      processSamples s (xs ++ ys) = some (s2, o1 ++ o2) := by
  intro xs
  induction xs with
  | nil =>
    intro ys s s1 s2 o1 o2 h1 h2
    simp only [processSamples, Option.some.injEq, Prod.mk.injEq] at h1
    rw [← h1.1] at h2
    rw [← h1.2]
    simpa using h2
  | cons x xs ih =>
    intro ys s s1 s2 o1 o2 h1 h2
    unfold processSamples at h1
    split at h1
    · rename_i sa y ha
      split at h1
      · rename_i sb yb hb
        simp only [Option.some.injEq, Prod.mk.injEq] at h1
        have := ih ys sa sb s2 yb o2 hb (by rw [h1.1]; exact h2)
        rw [List.cons_append]
        unfold processSamples
        rw [ha]
        simp only
        rw [this, ← h1.2]
        rfl
      · exact absurd h1 (by simp)
    · exact absurd h1 (by simp)

theorem processSamples_single (s s1 : Remus) (y o : ℚ) (h : processSample s y = some (s1, o)) :
    processSamples s [y] = some (s1, [o]) := by
  unfold processSamples
  rw [h]
  rfl

/-- A tail capture whose stitch position `sp` is set ends exactly when
`tail_pos` reaches `sp + 32`. -/
theorem tail_finish (B : Nat → ℚ) (L : Nat) (x : Nat → ℚ) (sp p : Nat) (s : Remus)
    (h : TailPhase B L x sp p s) (hsp : 32 ≤ sp) (hsp2 : sp + 32 ≤ 1024) (hp : p < sp + 32)
    (ys : List ℚ) (hlen : p + ys.length = sp + 32) :
    ∃ s' out, processSamples s ys = some (s', out) ∧ s'.recording = false ∧
      s'.recording_tail = false ∧ s'.has_recorded = true ∧ s'.tail_pos = 0 ∧
      s'.stitch_position = 0 := by
  have hne : ys ≠ [] := by
    intro h0
    rw [h0] at hlen
    simp at hlen
    omega
  have hsplit := List.dropLast_append_getLast hne
  have hdl : ys.dropLast.length = ys.length - 1 := List.length_dropLast ys
  have hpos : 0 < ys.length := List.length_pos.mpr hne
  have hA := TailPhase.congr h (fun k => if k < p then x k else ys.dropLast.getD (k - p) 0)
    (by intro k hk; simp [hk])
  obtain ⟨s1, hrun1, hph1⟩ := tail_run B L _ sp ys.dropLast p s hA
    (by intro i hi; simp)
    (Or.inr ⟨by omega, by omega, hsp2⟩)
  obtain ⟨h1, h2, h3, h4, h5, h6, h7, h8, h9, h10, h11, h12⟩ := hph1
  obtain ⟨zc, md, sp2, hcap, hS, _, _⟩ := captureStage_tail s1 (ys.getLast hne) h1 h2
    (by rw [h5]; omega) (by rw [h7]; exact h8) (by rw [h7]; exact h9) h10
  have hsp2e : sp2 = sp := by rw [hS (by rw [h4]; omega), h4]
  obtain ⟨c, s', out, _, hstep, _, _, _, _, _, _, q1, q2, q3, q4, q5, _⟩ :=
    tail_complete B L _ sp (p + ys.dropLast.length) s1 _ (ys.getLast hne) zc md sp2
      ⟨h1, h2, h3, h4, h5, h6, h7, h8, h9, h10, h11, h12⟩ hcap rfl
      (Or.inr ⟨by omega, by omega, by omega, by omega⟩)
  refine ⟨s', List.replicate ys.dropLast.length 0 ++ [out], ?_, q1, q2, q3, q4, q5⟩
  have happ := processSamples_append _ _ _ _ _ _ _ hrun1 (processSamples_single _ _ _ _ hstep)
  rw [hsplit] at happ
  exact happ

/-- A tail capture without any qualifying match: the stitch position is
still unset after each of the first 1023 samples. -/
theorem tail_unset_run (s : Remus) (xs : List ℚ) (y : ℚ)
    (hph : TailPhase s.buffer s.loop_samples (fun k => (xs ++ [y]).getD k 0) 0 0 s)
    (hlen : xs.length = 1023)
    (hno : ∀ t, 1 ≤ t → t < 1024 → ∀ d,
      crossing ((xs ++ [y]).getD (t - 1) 0) ((xs ++ [y]).getD t 0) = some d →
      ∀ k, max 1 (t - 8) ≤ k → k ≤ min (t + 8) (s.loop_samples - 1) →
        ¬ loopMatch s.buffer t d k) :
    ∀ j, j ≤ 1023 → ∃ sj, processSamples s (xs.take j) = some (sj, List.replicate j 0) ∧
      TailPhase s.buffer s.loop_samples (fun k => (xs ++ [y]).getD k 0) 0 j sj := by
  intro j hj
  have hlj : (xs.take j).length = j := by rw [List.length_take]; omega
  obtain ⟨sj, hrun, hp⟩ := tail_run _ _ _ 0 (xs.take j) 0 s hph
    (by
      intro i hi
      rw [hlj] at hi
      simp only [Nat.zero_add, List.getD_eq_getElem?_getD]
      rw [List.getElem?_append_left (by omega), List.getElem?_take_of_lt hi])
    (Or.inl ⟨rfl, by rw [hlj]; omega, by
      intro t _ ht2 d ht1 hc
      rw [hlj] at ht2
      exact hno t ht1 (by omega) d hc⟩)
  rw [hlj] at hrun
  rw [hlj, Nat.zero_add] at hp
  exact ⟨sj, hrun, hp⟩

/-- A tail capture without any qualifying match falls back to stitch
position 32 on the 1024th sample and splices with crossfade start 0. -/
theorem tail_fallback (s : Remus) (xs : List ℚ) (y : ℚ)
    (hph : TailPhase s.buffer s.loop_samples (fun k => (xs ++ [y]).getD k 0) 0 0 s)
    (hlen : xs.length = 1023)
    (hno : ∀ t, 1 ≤ t → t < 1024 → ∀ d,
      crossing ((xs ++ [y]).getD (t - 1) 0) ((xs ++ [y]).getD t 0) = some d →
      ∀ k, max 1 (t - 8) ≤ k → k ≤ min (t + 8) (s.loop_samples - 1) →
        ¬ loopMatch s.buffer t d k) :
    ∃ s1 c s' out, processSamples s xs = some (s1, List.replicate 1023 0) ∧
      captureStage s1 y = some c ∧ c.stitch_position = 32 ∧ c.recording_tail = false ∧
      c.has_recorded = true ∧
      processSamples s (xs ++ [y]) = some (s', out) ∧ s'.recording = false ∧
      s'.recording_tail = false ∧ s'.has_recorded = true ∧ s'.tail_pos = 0 ∧
      s'.stitch_position = 0 ∧
      (∀ p, p < 64 → s'.buffer p =
        (xs ++ [y]).getD p 0 * (1 - (p : ℚ) / 63) + s.buffer p * ((p : ℚ) / 63)) ∧
      (∀ p, 64 ≤ p → s'.buffer p = s.buffer p) := by
  obtain ⟨s1, hrun1, hp1⟩ := tail_unset_run s xs y hph hlen hno 1023 (le_refl _)
  have htake : xs.take 1023 = xs := by rw [← hlen, List.take_length]
  rw [htake] at hrun1
  obtain ⟨h1, h2, h3, h4, h5, h6, h7, h8, h9, h10, h11, h12⟩ := hp1
  obtain ⟨zc, md, sp2, hcap, _, hN, _⟩ := captureStage_tail s1 y h1 h2
    (by rw [h5]; omega) (by rw [h7]; exact h8) (by rw [h7]; exact h9) h10
  have hy : (xs ++ [y]).getD 1023 0 = y := by
    simp only [List.getD_eq_getElem?_getD]
    rw [List.getElem?_append_right (by omega), hlen]
    simp
  have hsp2 : sp2 = 0 := by
    apply hN h4
    intro d hd hc k hk1 hk2
    rw [h5] at hd hc hk1 hk2
    rw [h12 (1023 - 1) (by omega)] at hc
    rw [h6, h5]
    rw [h7] at hk2
    exact hno 1023 (by omega) (by omega) d (by rw [hy]; exact hc) k hk1 hk2
  rw [hsp2] at hcap
  obtain ⟨c, s', out, hc1, hstep, hc2, hc3, hc4, _, hc6, _, q1, q2, q3, q4, q5, q6⟩ :=
    tail_complete _ _ _ 0 1023 s1 _ y zc md 0
      ⟨h1, h2, h3, h4, h5, h6, h7, h8, h9, h10, h11, h12⟩ hcap rfl (Or.inl ⟨rfl, rfl⟩)
  refine ⟨s1, c, s', List.replicate 1023 0 ++ [out], hrun1, hc1, by simpa using hc2, hc3, hc4,
    processSamples_append _ _ _ _ _ _ _ hrun1 (processSamples_single _ _ _ _ hstep),
    q1, q2, q3, q4, q5, ?_, ?_⟩
  · intro p hp
    rw [q6]
    simp only [splicedBuffer, if_true, Nat.sub_self, Nat.zero_add, Nat.sub_zero]
    rw [if_neg (by omega), if_pos hp]
    have hst : store s1.tail_buffer 1023 y p = (xs ++ [y]).getD p 0 := by
      unfold store
      rw [if_neg (by omega)]
      exact h12 p (by omega)
    rw [hst]
  · intro p hp
    rw [q6]
    simp only [splicedBuffer, if_true, Nat.sub_self, Nat.zero_add]
    rw [if_neg (by omega), if_neg (by omega)]

/-! ## Frame of the sample loop -/

theorem LoopFrame.refl (s : Remus) : LoopFrame s s :=
  ⟨rfl, rfl, rfl, rfl, rfl, rfl, rfl, rfl, rfl, rfl, rfl, rfl, fun h => h⟩

theorem LoopFrame.trans {a b c : Remus} (h1 : LoopFrame a b) (h2 : LoopFrame b c) :
    LoopFrame a c := by
  obtain ⟨a1, a2, a3, a4, a5, a6, a7, a8, a9, a10, a11, a12, a13⟩ := h1
  obtain ⟨b1, b2, b3, b4, b5, b6, b7, b8, b9, b10, b11, b12, b13⟩ := h2
  exact ⟨b1.trans a1, b2.trans a2, b3.trans a3, b4.trans a4, b5.trans a5, b6.trans a6,
    b7.trans a7, b8.trans a8, b9.trans a9, b10.trans a10, b11.trans a11, b12.trans a12,
    fun h => a13 (b13 h)⟩

theorem scanLoop_frame (t : Nat) (d : Bool) :
    ∀ (n l : Nat) (s s' : Remus), scanLoop t d n l s = some s' → LoopFrame s s' := by
  intro n
  induction n with
  | zero =>
    intro l s s' h
    simp only [scanLoop, Option.some.injEq] at h
    rw [← h]
    exact LoopFrame.refl s
  | succ n ih =>
    intro l s s' h
    obtain ⟨md, sp, hbody⟩ := scanBody_frame t d l s
    have hf : LoopFrame s (scanBody t d l s).1 := by
      rw [hbody]
      exact ⟨rfl, rfl, rfl, rfl, rfl, rfl, rfl, rfl, rfl, rfl, rfl, rfl, fun h => h⟩
    unfold scanLoop at h
    split at h
    · split at h
      · simp only [Option.some.injEq] at h
        rw [← h]
        exact hf
      · exact LoopFrame.trans hf (ih _ _ _ h)
    · exact absurd h (by simp)

theorem searchCrossing_frame (s s' : Remus) (h : searchCrossing s = some s') :
    LoopFrame s s' := by
  unfold searchCrossing at h
  split at h
  · simp only at h
    cases hc : crossing (s.tail_buffer (s.tail_pos - 1 - 1)) (s.tail_buffer (s.tail_pos - 1)) with
    | none =>
      rw [hc] at h
      simp only [Option.some.injEq] at h
      rw [← h]
      exact LoopFrame.refl s
    | some d =>
      rw [hc] at h
      simp only at h
      have hf := scanLoop_frame _ _ _ _ _ _ h
      exact LoopFrame.trans ⟨rfl, rfl, rfl, rfl, rfl, rfl, rfl, rfl, rfl, rfl, rfl, rfl, fun h => h⟩ hf
  · simp only [Option.some.injEq] at h
    rw [← h]
    exact LoopFrame.refl s

theorem checkEnough_frame (s : Remus) : LoopFrame s (checkEnough s) := by
  unfold checkEnough
  split
  · simp only
    split
    · exact ⟨rfl, rfl, rfl, rfl, rfl, rfl, rfl, rfl, rfl, rfl, rfl, rfl, fun h => h⟩
    · exact LoopFrame.refl s
  · exact LoopFrame.refl s

theorem checkFull_frame (s : Remus) : LoopFrame s (checkFull s) := by
  unfold checkFull
  split
  · exact ⟨rfl, rfl, rfl, rfl, rfl, rfl, rfl, rfl, rfl, rfl, rfl, rfl, fun h => h⟩
  · exact LoopFrame.refl s

theorem captureStage_frame (s s' : Remus) (x : ℚ) (h : captureStage s x = some s') :
    LoopFrame s s' := by
  unfold captureStage at h
  split at h
  · rename_i hr
    split at h
    · split at h
      · simp only at h
        split at h
        · simp only [Option.some.injEq] at h
          rw [← h]
          exact ⟨rfl, rfl, rfl, rfl, rfl, rfl, rfl, rfl, rfl, rfl, rfl, rfl, fun _ => hr⟩
        · simp only [Option.some.injEq] at h
          rw [← h]
          exact ⟨rfl, rfl, rfl, rfl, rfl, rfl, rfl, rfl, rfl, rfl, rfl, rfl, fun _ => hr⟩
      · exact absurd h (by simp)
    · simp only [Option.some.injEq] at h
      rw [← h]
      exact LoopFrame.refl s
  · split at h
    · split at h
      · simp only at h
        split at h
        · rename_i s2 hs2
          simp only [Option.some.injEq] at h
          rw [← h]
          have h1 := searchCrossing_frame _ _ hs2
          exact LoopFrame.trans (LoopFrame.trans (LoopFrame.trans
            ⟨rfl, rfl, rfl, rfl, rfl, rfl, rfl, rfl, rfl, rfl, rfl, rfl, fun h => h⟩ h1) (checkEnough_frame s2))
            (checkFull_frame _)
        · exact absurd h (by simp)
      · simp only [Option.some.injEq] at h
        rw [← h]
        exact LoopFrame.refl s
    · simp only [Option.some.injEq] at h
      rw [← h]
      exact LoopFrame.refl s

theorem spliceStage_frame (s s' : Remus) (h : spliceStage s = some s') : LoopFrame s s' := by
  unfold spliceStage at h
  split at h
  · simp only at h
    split at h
    · split at h
      · simp only [Option.some.injEq] at h
        rw [← h]
        exact ⟨rfl, rfl, rfl, rfl, rfl, rfl, rfl, rfl, rfl, rfl, rfl, rfl, fun h => h⟩
      · exact absurd h (by simp)
    · exact absurd h (by simp)
  · simp only [Option.some.injEq] at h
    rw [← h]
    exact LoopFrame.refl s

theorem playbackStage_frame (s s' : Remus) (y : ℚ) (h : playbackStage s = some (s', y)) :
    LoopFrame s s' := by
  unfold playbackStage at h
  split at h
  · split at h
    · simp only [Option.some.injEq, Prod.mk.injEq] at h
      rw [← h.1]
      split
      · exact ⟨rfl, rfl, rfl, rfl, rfl, rfl, rfl, rfl, rfl, rfl, rfl, rfl, fun h => h⟩
      · exact ⟨rfl, rfl, rfl, rfl, rfl, rfl, rfl, rfl, rfl, rfl, rfl, rfl, fun h => h⟩
    · exact absurd h (by simp)
  · simp only [Option.some.injEq, Prod.mk.injEq] at h
    rw [← h.1]
    exact LoopFrame.refl s

theorem processSample_frame (s s' : Remus) (x y : ℚ) (h : processSample s x = some (s', y)) :
    LoopFrame s s' := by
  unfold processSample at h
  split at h
  · rename_i s1 h1
    split at h
    · rename_i s2 h2
      exact LoopFrame.trans (LoopFrame.trans (captureStage_frame _ _ _ h1)
        (spliceStage_frame _ _ h2)) (playbackStage_frame _ _ _ h)
    · exact absurd h (by simp)
  · exact absurd h (by simp)

theorem processSamples_frame :
    ∀ (xs : List ℚ) (s s' : Remus) (ys : List ℚ), processSamples s xs = some (s', ys) →
      LoopFrame s s' := by
  intro xs
  induction xs with
  | nil =>
    intro s s' ys h
    simp only [processSamples, Option.some.injEq, Prod.mk.injEq] at h
    rw [← h.1]
    exact LoopFrame.refl s
  | cons x xs ih =>
    intro s s' ys h
    unfold processSamples at h
    split at h
    · rename_i s1 y h1
      split at h
      · rename_i s2 ys2 h2
        simp only [Option.some.injEq, Prod.mk.injEq] at h
        rw [← h.1]
        exact LoopFrame.trans (processSample_frame _ _ _ _ h1) (ih _ _ _ h2)
      · exact absurd h (by simp)
    · exact absurd h (by simp)

theorem run_frame (s s' : Remus) (b : Block) (out : List ℚ) (h : run s b = some (s', out)) :
    ∃ s1, processSamples (blockPrelude s b) b.audio_in = some (s1, out) ∧
      LoopFrame (blockPrelude s b) s1 ∧
      s' = { s1 with last_bar_beat := (blockTransport s b).current_bar_beat,
                     last_bar := (blockTransport s b).current_bar } := by
  unfold run at h
  split at h
  · rename_i s1 o h1
    simp only [Option.some.injEq, Prod.mk.injEq] at h
    refine ⟨s1, ?_, processSamples_frame _ _ _ _ h1, h.1.symm⟩
    rw [h1, h.2]
  · exact absurd h (by simp)

/-! ## The block prelude -/

theorem afterTrigger_last (s : Remus) (b : Block) :
    (afterTrigger s b).last_bar = s.last_bar ∧
      (afterTrigger s b).last_bar_beat = s.last_bar_beat ∧
      (afterTrigger s b).buffer = s.buffer ∧
      (afterTrigger s b).buffer_size = s.buffer_size := by
  unfold afterTrigger armOnTrigger stopOnRestart
  simp only
  split_ifs <;> exact ⟨rfl, rfl, rfl, rfl⟩

theorem checkBarBoundary_start (a : Remus) (t : Transport) (h1 : a.waiting_for_bar = true)
    (h2 : t.transport_rolling = true) (h3 : barCrossed a t) :
    checkBarBoundary a t = { a with recording := true, waiting_for_bar := false, write_pos := 0,
                                    read_pos := 0, has_recorded := false } := by
  unfold checkBarBoundary
  rw [if_pos ⟨h1, h2⟩]
  by_cases hbar : t.current_bar ≥ 0 ∧ a.last_bar ≥ 0 ∧ t.current_bar ≠ a.last_bar
  · rw [if_pos hbar]
  · rw [if_neg hbar]
    rcases h3 with h3 | h3
    · exact absurd h3 hbar
    · rw [if_pos h3]

theorem checkBarBoundary_stay (a : Remus) (t : Transport)
    (h : ¬ (a.waiting_for_bar = true ∧ t.transport_rolling = true ∧ barCrossed a t)) :
    checkBarBoundary a t = a := by
  unfold checkBarBoundary
  by_cases h1 : a.waiting_for_bar = true ∧ t.transport_rolling = true
  · rw [if_pos h1]
    have hn : ¬ barCrossed a t := fun hc => h ⟨h1.1, h1.2, hc⟩
    rw [if_neg (fun hc => hn (Or.inl hc)), if_neg (fun hc => hn (Or.inr hc))]
  · rw [if_neg h1]

theorem playbackAlign_frame (s : Remus) (t : Transport) :
    ∃ pl wp rp, playbackAlign s t = { s with playing := pl, waiting_to_play := wp,
                                             read_pos := rp } := by
  unfold playbackAlign
  split_ifs <;> exact ⟨_, _, _, rfl⟩

theorem hotUpdate_frame (s : Remus) (n : Nat) :
    ∃ L rp, hotUpdate s n = { s with loop_samples := L, read_pos := rp } ∧
      (s.read_pos = 0 → rp = 0) := by
  unfold hotUpdate
  simp only
  split_ifs <;> exact ⟨_, _, rfl, fun h => by first | rfl | exact h⟩

theorem hotUpdate_skip (s : Remus) (n : Nat)
    (h : ¬ (s.recording = false ∧ s.waiting_for_bar = false ∧ s.has_recorded = true)) :
    hotUpdate s n = s := by
  unfold hotUpdate
  rw [if_neg h]

theorem playbackAlign_skip (s : Remus) (t : Transport)
    (h : ¬ (s.has_recorded = true ∧ s.loop_samples > 0 ∧ s.recording = false)) :
    playbackAlign s t = s := by
  unfold playbackAlign
  rw [if_neg h]

theorem checkBarBoundary_buffer (a : Remus) (t : Transport) :
    (checkBarBoundary a t).buffer = a.buffer ∧
      (checkBarBoundary a t).buffer_size = a.buffer_size := by
  unfold checkBarBoundary
  split_ifs <;> exact ⟨rfl, rfl⟩

theorem blockPrelude_buffer (s : Remus) (b : Block) :
    (blockPrelude s b).buffer = s.buffer ∧ (blockPrelude s b).buffer_size = s.buffer_size := by
  unfold blockPrelude afterBarCheck
  obtain ⟨L, rp, h1, _⟩ := hotUpdate_frame
    (playbackAlign (checkBarBoundary (afterTrigger s b) (blockTransport s b))
      (blockTransport s b)) (blockLoopSamples s b)
  obtain ⟨pl, wp, rp2, h2⟩ := playbackAlign_frame
    (checkBarBoundary (afterTrigger s b) (blockTransport s b)) (blockTransport s b)
  obtain ⟨h3, h3'⟩ := checkBarBoundary_buffer (afterTrigger s b) (blockTransport s b)
  obtain ⟨_, _, h4, h4'⟩ := afterTrigger_last s b
  rw [h1]
  simp only
  rw [h2]
  simp only
  rw [h3, h3', h4, h4']
  exact ⟨rfl, rfl⟩

theorem afterBarCheck_last (s : Remus) (b : Block) :
    (afterBarCheck s b).last_bar = s.last_bar ∧
      (afterBarCheck s b).last_bar_beat = s.last_bar_beat := by
  obtain ⟨h1, h2, _, _⟩ := afterTrigger_last s b
  unfold afterBarCheck checkBarBoundary
  split_ifs <;> exact ⟨h1, h2⟩

theorem playbackAlign_stopped_top (a : Remus) (t : Transport)
    (hg : a.has_recorded = true ∧ a.loop_samples > 0 ∧ a.recording = false)
    (h1 : a.playing = false) (h2 : a.waiting_to_play = false)
    (hr : t.transport_rolling = true) (htop : atTop t) :
    playbackAlign a t = { a with playing := true, waiting_to_play := false, read_pos := 0 } := by
  have htop2 : t.current_bar = 0 ∧ t.current_bar_beat ≥ 0 ∧ t.current_bar_beat < 1/10 := htop
  unfold playbackAlign
  rw [if_pos hg, if_neg (by simp [hr]), if_pos ⟨h1, h2⟩, if_pos htop2]

theorem playbackAlign_stopped_wait (a : Remus) (t : Transport)
    (hg : a.has_recorded = true ∧ a.loop_samples > 0 ∧ a.recording = false)
    (h1 : a.playing = false) (h2 : a.waiting_to_play = false)
    (hr : t.transport_rolling = true) (htop : ¬ atTop t) :
    playbackAlign a t = { a with waiting_to_play := true } := by
  have htop2 : ¬ (t.current_bar = 0 ∧ t.current_bar_beat ≥ 0 ∧ t.current_bar_beat < 1/10) :=
    htop
  unfold playbackAlign
  rw [if_pos hg, if_neg (by simp [hr]), if_pos ⟨h1, h2⟩, if_neg htop2]

theorem playbackAlign_waiting_start (a : Remus) (t : Transport)
    (hg : a.has_recorded = true ∧ a.loop_samples > 0 ∧ a.recording = false)
    (h2 : a.waiting_to_play = true) (hr : t.transport_rolling = true) (hc : barCrossed a t) :
    playbackAlign a t = { a with playing := true, waiting_to_play := false, read_pos := 0 } := by
  unfold playbackAlign
  rw [if_pos hg, if_neg (by simp [hr]), if_neg (by simp [h2]), if_pos h2]
  by_cases hbar : t.current_bar ≥ 0 ∧ a.last_bar ≥ 0 ∧ t.current_bar ≠ a.last_bar
  · rw [if_pos hbar]
  · rw [if_neg hbar]
    rcases hc with hc | hc
    · exact absurd hc hbar
    · rw [if_pos hc]

theorem playbackAlign_waiting_stay (a : Remus) (t : Transport)
    (hg : a.has_recorded = true ∧ a.loop_samples > 0 ∧ a.recording = false)
    (h2 : a.waiting_to_play = true) (hr : t.transport_rolling = true) (hc : ¬ barCrossed a t) :
    playbackAlign a t = a := by
  unfold playbackAlign
  rw [if_pos hg, if_neg (by simp [hr]), if_neg (by simp [h2]), if_pos h2,
    if_neg (fun h => hc (Or.inl h)), if_neg (fun h => hc (Or.inr h))]

theorem playbackAlign_stop (a : Remus) (t : Transport)
    (hg : a.has_recorded = true ∧ a.loop_samples > 0 ∧ a.recording = false)
    (hr : t.transport_rolling = false) :
    playbackAlign a t = { a with playing := false, waiting_to_play := false } := by
  unfold playbackAlign
  rw [if_pos hg, if_pos hr]

theorem hotUpdate_flags (s : Remus) (n : Nat) :
    (hotUpdate s n).playing = s.playing ∧ (hotUpdate s n).waiting_to_play = s.waiting_to_play ∧
      (s.read_pos = 0 → (hotUpdate s n).read_pos = 0) := by
  obtain ⟨L, rp, h, h0⟩ := hotUpdate_frame s n
  rw [h]
  exact ⟨rfl, rfl, h0⟩

/-! ## Playback -/

theorem captureStage_idle (s : Remus) (x : ℚ) (h1 : s.recording = false)
    (h2 : s.recording_tail = false) : captureStage s x = some s := by
  unfold captureStage
  rw [if_neg (by simp [h1]), if_neg (by simp [h2])]

theorem processSample_playing (s : Remus) (x : ℚ) (h1 : s.recording = false)
    (h2 : s.recording_tail = false) (h3 : s.stitch_position = 0) (h4 : s.playing = true)
    (h5 : s.has_recorded = true) (h6 : s.read_pos < s.loop_samples)
    (h7 : s.loop_samples ≤ s.buffer_size) (h8 : s.buffer_size = MAX_BUFFER_SIZE) :
    processSample s x =
      some ({ s with read_pos := (s.read_pos + 1) % s.loop_samples }, s.buffer s.read_pos) := by
  have hmax : MAX_BUFFER_SIZE < 4294967296 := by decide
  have hu : u32 (s.read_pos + 1) = s.read_pos + 1 := by
    unfold u32
    omega
  unfold processSample
  rw [captureStage_idle s x h1 h2]
  simp only
  rw [spliceStage_idle s (by simp [spliceDue, h3])]
  simp only
  unfold playbackStage
  rw [if_pos ⟨h4, h5, by omega⟩, if_pos (by omega)]
  simp only [hu]
  by_cases hw : s.read_pos + 1 ≥ s.loop_samples
  · rw [if_pos hw]
    have : s.read_pos + 1 = s.loop_samples := by omega
    rw [this, Nat.mod_self]
  · rw [if_neg hw, Nat.mod_eq_of_lt (by omega)]

theorem processSamples_playing :
    ∀ (xs : List ℚ) (s : Remus), s.recording = false → s.recording_tail = false →
      s.stitch_position = 0 → s.playing = true → s.has_recorded = true →
      s.read_pos < s.loop_samples → s.loop_samples ≤ s.buffer_size →
      s.buffer_size = MAX_BUFFER_SIZE →
      processSamples s xs =
        some ({ s with read_pos := (s.read_pos + xs.length) % s.loop_samples },
          (List.range xs.length).map (fun i => s.buffer ((s.read_pos + i) % s.loop_samples))) := by
  intro xs
  induction xs with
  | nil =>
    intro s _ _ _ _ _ h6 _ _
    simp only [processSamples, List.length_nil, Nat.add_zero, List.range_zero, List.map_nil]
    rw [Nat.mod_eq_of_lt h6]
  | cons x xs ih =>
    intro s h1 h2 h3 h4 h5 h6 h7 h8
    have hL : 0 < s.loop_samples := by omega
    have hstep := processSample_playing s x h1 h2 h3 h4 h5 h6 h7 h8
    have hnext := ih { s with read_pos := (s.read_pos + 1) % s.loop_samples } h1 h2 h3 h4 h5
      (Nat.mod_lt _ hL) h7 h8
    unfold processSamples
    rw [hstep]
    simp only
    rw [hnext]
    simp only [List.length_cons, Option.some.injEq, Prod.mk.injEq]
    refine ⟨?_, ?_⟩
    · have : ((s.read_pos + 1) % s.loop_samples + xs.length) % s.loop_samples
          = (s.read_pos + (xs.length + 1)) % s.loop_samples := by
        rw [Nat.mod_add_mod, Nat.add_assoc, Nat.add_comm 1 xs.length]
      rw [this]
    · rw [List.range_succ_eq_map, List.map_cons, List.map_map]
      congr 1
      · rw [Nat.add_zero, Nat.mod_eq_of_lt h6]
      · apply List.map_congr_left
        intro i _
        simp only [Function.comp]
        have : ((s.read_pos + 1) % s.loop_samples + i) % s.loop_samples
            = (s.read_pos + (i + 1)) % s.loop_samples := by
          rw [Nat.mod_add_mod, Nat.add_assoc, Nat.add_comm 1 i]
        rw [this]

theorem processSamples_silent :
    ∀ (xs : List ℚ) (s : Remus), s.recording = false → s.recording_tail = false →
      s.stitch_position = 0 →
      ¬ (s.playing = true ∧ s.has_recorded = true ∧ s.loop_samples > 0) →
      processSamples s xs = some (s, List.replicate xs.length 0) := by
  intro xs
  induction xs with
  | nil =>
    intro s _ _ _ _
    rfl
  | cons x xs ih =>
    intro s h1 h2 h3 h4
    have hstep : processSample s x = some (s, 0) := by
      unfold processSample
      rw [captureStage_idle s x h1 h2]
      simp only
      rw [spliceStage_idle s (by simp [spliceDue, h3])]
      simp only
      rw [playbackStage_silent s h4]
    unfold processSamples
    rw [hstep]
    simp only
    rw [ih s h1 h2 h3 h4]
    simp [List.replicate_succ]

/-! ## A recording session, block by block -/

theorem blockTransport_posEvent (s : Remus) (bar : Int) (beat r l : ℚ) (audio : List ℚ) :
    blockTransport s ⟨[posEvent bar beat], r, l, audio⟩ =
      { current_bar_beat := beat, current_bar := bar, transport_rolling := true, bpm := 120,
        beats_per_bar := 4 } := by
  simp [blockTransport, processEvents, applyEvent, posEvent]

theorem blockTransport_noEvent (s : Remus) (r l : ℚ) (audio : List ℚ) :
    (blockTransport s ⟨[], r, l, audio⟩).transport_rolling = false := by
  simp [blockTransport, processEvents]

theorem blockLoopSamples_posEvent (s : Remus) (bar : Int) (beat r : ℚ) (audio : List ℚ)
    (hsr : s.sample_rate = 48000) :
    blockLoopSamples s ⟨[posEvent bar beat], r, 1, audio⟩ = 96000 := by
  unfold blockLoopSamples
  rw [blockTransport_posEvent, hsr]
  norm_num [new_loop_samples, toU32, u32, toNat_numeral]

/-- A trigger in a rolling block that crosses into a new bar: the engine is
recording from the first sample of the block. -/
theorem blockPrelude_trigger_crossing (s : Remus) (bar : Int) (beat r : ℚ) (audio : List ℚ)
    (hrec : s.recording = false) (hprev : s.prev_record_enable > 1/2) (hr : r ≤ 1/2)
    (hlast : s.last_bar ≥ 0) (hbar : bar ≥ 0) (hne : bar ≠ s.last_bar)
    (hsr : s.sample_rate = 48000) (hB : s.buffer_size = MAX_BUFFER_SIZE) :
    ∃ dl, blockPrelude s ⟨[posEvent bar beat], r, 1, audio⟩ = { s with
      debug_logged := dl
      transport_bpm := 120
      transport_beats_per_bar := 4
      prev_record_enable := r
      waiting_for_bar := false
      loop_samples := 96000
      recording := true
      write_pos := 0
      read_pos := 0
      has_recorded := false } := by
  have hstart : blockRecStart s ⟨[posEvent bar beat], r, 1, audio⟩ = true := by
    simp only [blockRecStart, rec_start, decide_eq_true hr, decide_eq_true hprev, Bool.and_self]
  have hL := blockLoopSamples_posEvent s bar beat r audio hsr
  have hT := blockTransport_posEvent s bar beat r 1 audio
  refine ⟨if s.debug_logged = false ∧ s.has_recorded = true then true else s.debug_logged, ?_⟩
  unfold blockPrelude afterBarCheck
  rw [hL, hT]
  have hA : afterTrigger s ⟨[posEvent bar beat], r, 1, audio⟩ = { s with
      debug_logged := if s.debug_logged = false ∧ s.has_recorded = true then true
        else s.debug_logged
      transport_bpm := 120
      transport_beats_per_bar := 4
      prev_record_enable := r
      waiting_for_bar := true
      loop_samples := 96000 } := by
    unfold afterTrigger
    rw [hL, hT, hstart]
    simp only [stopOnRestart, armOnTrigger, if_true]
    split <;> simp [hrec, hB, MAX_BUFFER_SIZE]
  have hw : (afterTrigger s ⟨[posEvent bar beat], r, 1, audio⟩).waiting_for_bar = true := by
    rw [hA]
  have hlb : (afterTrigger s ⟨[posEvent bar beat], r, 1, audio⟩).last_bar = s.last_bar := by
    rw [hA]
  rw [checkBarBoundary_start (afterTrigger s ⟨[posEvent bar beat], r, 1, audio⟩) _ hw rfl
    (Or.inl ⟨hbar, by rw [hlb]; exact hlast, by rw [hlb]; exact hne⟩)]
  rw [playbackAlign_skip _ _ (by simp), hotUpdate_skip _ _ (by simp), hA]

/-- While a take is being recorded and no trigger arrives, a block leaves the
scheduler flags as they are, whatever the transport does. -/
theorem run_recPhase_flags (L : Nat) (x : Nat → ℚ) (n : Nat) (s : Remus) (b : Block)
    (h : RecPhase L x n s) (ht : rec_start s.prev_record_enable b.rec_enable = false)
    (hlen : n + b.audio_in.length ≤ L)
    (hx : ∀ i, i < b.audio_in.length → x (n + i) = b.audio_in.getD i 0) :
    ∃ s', run s b = some (s', List.replicate b.audio_in.length 0) ∧
      RecPhase L x (n + b.audio_in.length) s' ∧ s'.prev_record_enable = b.rec_enable ∧
      s'.playing = s.playing ∧ s'.waiting_to_play = s.waiting_to_play ∧
      s'.sample_rate = s.sample_rate ∧ s'.buffer_size = s.buffer_size := by
  obtain ⟨s', hrun, hph, hprev⟩ := run_recPhase L x n s b h ht hlen hx
  obtain ⟨s1, _, hf, hs'⟩ := run_frame s s' b _ hrun
  obtain ⟨f1, _, _, f4, f5, _, f7, _⟩ := hf
  have hpre := blockPrelude_idle s b h.2.2.1 h.2.2.2.1 ht
  refine ⟨s', hrun, hph, hprev, ?_, ?_, ?_, ?_⟩
  · rw [hs']; simp only [f4, hpre]
  · rw [hs']; simp only [f5, hpre]
  · rw [hs']; simp only [f7, hpre]
  · rw [hs']; simp only [f1, hpre]

/-- A trigger in a rolling block that crosses into a new bar, with fewer input
samples than the loop length: the block ends in the middle of the take. -/
theorem run_trigger_crossing (s : Remus) (bar : Int) (beat r : ℚ) (audio : List ℚ)
    (hrec : s.recording = false) (hprev : s.prev_record_enable > 1/2) (hr : r ≤ 1/2)
    (hlast : s.last_bar ≥ 0) (hbar : bar ≥ 0) (hne : bar ≠ s.last_bar)
    (hsr : s.sample_rate = 48000) (hB : s.buffer_size = MAX_BUFFER_SIZE)
    (hst : s.stitch_position = 0) (hlen : audio.length ≤ 96000) :
    ∃ s' s1, run s ⟨[posEvent bar beat], r, 1, audio⟩ =
        some (s', List.replicate audio.length 0) ∧
      processSamples (blockPrelude s ⟨[posEvent bar beat], r, 1, audio⟩) audio =
        some (s1, List.replicate audio.length 0) ∧
      s' = { s1 with last_bar_beat := beat, last_bar := bar } ∧
      RecPhase 96000 (fun k => audio.getD k 0) audio.length s1 ∧
      s1.prev_record_enable = r ∧ s1.playing = s.playing ∧
      s1.waiting_to_play = s.waiting_to_play ∧ s1.sample_rate = 48000 ∧
      s1.buffer_size = MAX_BUFFER_SIZE ∧ s1.read_pos = 0 := by
  obtain ⟨dl, hpre⟩ := blockPrelude_trigger_crossing s bar beat r audio hrec hprev hr hlast hbar
    hne hsr hB
  have hph : RecPhase 96000 (fun k => audio.getD k 0) 0
      (blockPrelude s ⟨[posEvent bar beat], r, 1, audio⟩) := by
    rw [hpre]
    refine ⟨rfl, by simp only [hB]; decide, rfl, rfl, fun k hk => absurd hk (by omega),
      fun _ => ⟨rfl, rfl, ?_⟩, fun h => absurd h (by decide)⟩
    simp [spliceDue, hst]
  obtain ⟨s1, hrun, hph1, hprev1, hrp1⟩ := processSamples_recPhase 96000 _ audio 0 _ hph
    (by omega) (by intro i _; simp)
  obtain ⟨f1, _, _, f4, f5, _, f7, _⟩ := processSamples_frame _ _ _ _ hrun
  rw [Nat.zero_add] at hph1
  refine ⟨{ s1 with last_bar_beat := beat, last_bar := bar }, s1, ?_, hrun, rfl, hph1, ?_, ?_,
    ?_, ?_, ?_, ?_⟩
  · unfold run
    rw [hrun, blockTransport_posEvent]
  · rw [hprev1, hpre]
  · rw [f4, hpre]
  · rw [f5, hpre]
  · rw [f7, hpre]; exact hsr
  · rw [f1, hpre]; exact hB
  · rw [hrp1, hpre]

/-- A trigger in a rolling block that crosses into a new bar, followed in the
same block by the 96000 samples of the loop and by 1024 silent tail samples:
the block ends with the loop accepted. -/
theorem run_record_full (s : Remus) (bar : Int) (beat r : ℚ) (xs : List ℚ)
    (hrec : s.recording = false) (hprev : s.prev_record_enable > 1/2) (hr : r ≤ 1/2)
    (hlast : s.last_bar ≥ 0) (hbar : bar ≥ 0) (hne : bar ≠ s.last_bar)
    (hsr : s.sample_rate = 48000) (hB : s.buffer_size = MAX_BUFFER_SIZE)
    (hst : s.stitch_position = 0) (hlen : xs.length = 96000) :
    ∃ s' out, run s ⟨[posEvent bar beat], r, 1, xs ++ (List.replicate 1023 0 ++ [0])⟩ =
        some (s', out) ∧
      s'.recording = false ∧ s'.recording_tail = false ∧ s'.has_recorded = true ∧
      s'.stitch_position = 0 ∧ s'.tail_pos = 0 ∧ s'.loop_samples = 96000 ∧
      s'.buffer_size = MAX_BUFFER_SIZE ∧ s'.waiting_for_bar = false ∧
      s'.playing = s.playing ∧ s'.waiting_to_play = s.waiting_to_play ∧
      s'.prev_record_enable = r ∧ s'.sample_rate = 48000 ∧ s'.last_bar = bar ∧
      s'.last_bar_beat = beat := by
  obtain ⟨dl, hpre⟩ := blockPrelude_trigger_crossing s bar beat r
    (xs ++ (List.replicate 1023 0 ++ [0])) hrec hprev hr hlast hbar hne hsr hB
  have hph : RecPhase 96000 (fun k => xs.getD k 0) 0
      (blockPrelude s ⟨[posEvent bar beat], r, 1, xs ++ (List.replicate 1023 0 ++ [0])⟩) := by
    rw [hpre]
    refine ⟨rfl, by simp only [hB]; decide, rfl, rfl, fun k hk => absurd hk (by omega),
      fun _ => ⟨rfl, rfl, ?_⟩, fun h => absurd h (by decide)⟩
    simp [spliceDue, hst]
  obtain ⟨s1, hrun1, hph1, _, hrp1⟩ := processSamples_recPhase 96000 _ xs 0 _ hph
    (by omega) (by intro i _; simp)
  obtain ⟨f1, f2, f3, f4, f5, f6, f7, _⟩ := processSamples_frame _ _ _ _ hrun1
  rw [Nat.zero_add, hlen] at hph1
  obtain ⟨p1, p2, p3, _, _, _, pend⟩ := hph1
  obtain ⟨e1, e2, e3, e4, _, _⟩ := pend rfl
  have hB1 : s1.buffer_size = MAX_BUFFER_SIZE := by rw [f1, hpre]; exact hB
  have hz : ∀ i, (List.replicate 1023 (0 : ℚ) ++ [0]).getD i 0 = 0 := by
    intro i
    have hrep : List.replicate 1023 (0 : ℚ) ++ [0] = List.replicate 1024 0 := by
      rw [← List.replicate_succ']
    rw [hrep, List.getD_eq_getElem?_getD, List.getElem?_replicate]
    split <;> rfl
  have hrp : s1.read_pos < s1.buffer_size := by
    rw [hrp1, hpre, hB1]
    simp only
    decide
  obtain ⟨s2, c, s3, out, _, _, _, _, _, hrun3, q1, q2, q3, q4, q5, _, _⟩ :=
    tail_fallback s1 (List.replicate 1023 0) 0
      ⟨e1, e2, p3, e4, e3, rfl, rfl, by rw [p1]; decide, by rw [p1, hB1]; decide, hB1,
        hrp, fun k hk => absurd hk (by omega)⟩
      (by rw [List.length_replicate])
      (by
        intro t _ _ d hc
        rw [hz, hz] at hc
        simp [crossing] at hc)
  obtain ⟨g1, g2, g3, g4, g5, g6, g7, _⟩ := processSamples_frame _ _ _ _ hrun3
  have happ := processSamples_append _ _ _ _ _ _ _ hrun1 hrun3
  refine ⟨{ s3 with last_bar_beat := beat, last_bar := bar }, List.replicate xs.length 0 ++ out,
    ?_, q1, q2, q3, q5, q4, ?_, ?_, ?_, ?_, ?_, ?_, ?_, rfl, rfl⟩
  · unfold run
    rw [happ, blockTransport_posEvent]
  · simp only [g2, f2, hpre]
  · simp only [g1, hB1]
  · simp only [g3, f3, hpre]
  · simp only [g4, f4, hpre]
  · simp only [g5, f5, hpre]
  · simp only [g6, f6, hpre]
  · simp only [g7, f7, hpre, hsr]

theorem afterTrigger_noTrigger (s : Remus) (b : Block) (ht : blockRecStart s b = false) :
    afterTrigger s b = { s with
      debug_logged := if s.debug_logged = false ∧ s.has_recorded = true then true
        else s.debug_logged
      transport_bpm := (blockTransport s b).bpm
      transport_beats_per_bar := (blockTransport s b).beats_per_bar
      prev_record_enable := b.rec_enable } := by
  unfold afterTrigger
  rw [ht]
  simp only [stopOnRestart, armOnTrigger, Bool.false_eq_true, and_false, if_false]
  split <;> rfl

theorem hotUpdate_same (s : Remus) (n : Nat) (h : n = s.loop_samples) : hotUpdate s n = s := by
  unfold hotUpdate
  split
  · rw [if_neg (by simp [h])]
  · rfl

/-- An idle engine without a loop passes a block without trigger in silence. -/
theorem run_idle (s : Remus) (b : Block) (h1 : s.has_recorded = false)
    (h2 : s.waiting_for_bar = false) (h3 : s.recording = false)
    (h4 : s.recording_tail = false) (h5 : s.stitch_position = 0)
    (ht : blockRecStart s b = false) :
    run s b = some ({ s with
      transport_bpm := (blockTransport s b).bpm
      transport_beats_per_bar := (blockTransport s b).beats_per_bar
      prev_record_enable := b.rec_enable
      last_bar_beat := (blockTransport s b).current_bar_beat
      last_bar := (blockTransport s b).current_bar }, List.replicate b.audio_in.length 0) := by
  have hpre := blockPrelude_idle s b h1 h2 ht
  have hsil : ∀ (xs : List ℚ) (p : Remus), p.recording = false → p.recording_tail = false →
      p.stitch_position = 0 → p.has_recorded = false →
      processSamples p xs = some (p, List.replicate xs.length 0) := by
    intro xs
    induction xs with
    | nil => intro p _ _ _ _; rfl
    | cons x xs ih =>
      intro p p1 p2 p3 p4
      have hstep : processSample p x = some (p, 0) := by
        unfold processSample
        rw [captureStage_idle p x p1 p2]
        simp only
        rw [spliceStage_idle p (by simp [spliceDue, p3])]
        simp only
        rw [playbackStage_silent p (by simp [p4])]
      unfold processSamples
      rw [hstep]
      simp only
      rw [ih p p1 p2 p3 p4]
      simp [List.replicate_succ]
  have hrun := hsil b.audio_in (blockPrelude s b) (by rw [hpre]; exact h3)
    (by rw [hpre]; exact h4) (by rw [hpre]; exact h5) (by rw [hpre]; exact h1)
  unfold run
  rw [hrun, hpre]

/-- A stopped engine with a loop of 96000 samples meets a rolling block at
bar 0, beat 0 without trigger: it plays from the first sample. -/
theorem run_start_top (s : Remus) (r : ℚ) (audio : List ℚ)
    (h1 : s.recording = false) (h2 : s.recording_tail = false) (h3 : s.has_recorded = true)
    (h4 : s.stitch_position = 0) (h5 : s.loop_samples = 96000)
    (h6 : s.buffer_size = MAX_BUFFER_SIZE) (h7 : s.waiting_for_bar = false)
    (h8 : s.playing = false) (h9 : s.waiting_to_play = false) (h10 : s.sample_rate = 48000)
    (ht : rec_start s.prev_record_enable r = false) :
    ∃ s' out, run s ⟨[posEvent 0 0], r, 1, audio⟩ = some (s', out) ∧
      s'.playing = true ∧ s'.recording = false ∧ s'.recording_tail = false ∧
      s'.has_recorded = true ∧ s'.stitch_position = 0 ∧ s'.loop_samples = 96000 ∧
      s'.buffer_size = MAX_BUFFER_SIZE ∧ s'.waiting_for_bar = false ∧
      s'.prev_record_enable = r ∧ s'.sample_rate = 48000 ∧ s'.last_bar = 0 := by
  have hT := blockTransport_posEvent s 0 0 r 1 audio
  have hL := blockLoopSamples_posEvent s 0 0 r audio h10
  have hA := afterTrigger_noTrigger s ⟨[posEvent 0 0], r, 1, audio⟩ ht
  have hpre : blockPrelude s ⟨[posEvent 0 0], r, 1, audio⟩ =
      { afterTrigger s ⟨[posEvent 0 0], r, 1, audio⟩ with
        playing := true, waiting_to_play := false, read_pos := 0 } := by
    unfold blockPrelude afterBarCheck
    rw [checkBarBoundary_stay _ _ (by rw [hA]; simp [h7])]
    rw [playbackAlign_stopped_top _ _ (by rw [hA]; simp [h3, h5, h1]) (by rw [hA]; exact h8)
      (by rw [hA]; exact h9) (by rw [hT]) (by rw [hT]; norm_num [atTop])]
    rw [hotUpdate_same _ _ (by rw [hL, hA]; exact h5.symm)]
  have hrun := processSamples_playing audio (blockPrelude s ⟨[posEvent 0 0], r, 1, audio⟩)
    (by rw [hpre, hA]; exact h1) (by rw [hpre, hA]; exact h2) (by rw [hpre, hA]; exact h4)
    (by rw [hpre]) (by rw [hpre, hA]; exact h3)
    (by rw [hpre, hA]; simp only [h5]; decide)
    (by rw [hpre, hA]; simp only [h5, h6]; decide) (by rw [hpre, hA]; exact h6)
  refine ⟨_, _, by unfold run; rw [hrun], ?_, ?_, ?_, ?_, ?_, ?_, ?_, ?_, ?_, ?_, ?_⟩
  · simp only [hpre]
  · simp only [hpre, hA, h1]
  · simp only [hpre, hA, h2]
  · simp only [hpre, hA, h3]
  · simp only [hpre, hA, h4]
  · simp only [hpre, hA, h5]
  · simp only [hpre, hA, h6]
  · simp only [hpre, hA, h7]
  · simp only [hpre, hA]
  · simp only [hpre, hA, h10]
  · simp only [hT]

theorem runBlocks_cons (s s1 s2 : Remus) (b : Block) (bs : List Block) (o1 o2 : List ℚ)
    (h1 : run s b = some (s1, o1)) (h2 : runBlocks s1 bs = some (s2, o2)) :
    runBlocks s (b :: bs) = some (s2, o1 ++ o2) := by
  unfold runBlocks
  rw [h1]
  simp only
  rw [h2]

theorem runBlocks_snoc :
    ∀ (bs : List Block) (s s1 s2 : Remus) (b : Block) (o1 o2 : List ℚ),
      runBlocks s bs = some (s1, o1) → run s1 b = some (s2, o2) →
      runBlocks s (bs ++ [b]) = some (s2, o1 ++ o2) := by
  intro bs
  induction bs with
  | nil =>
    intro s s1 s2 b o1 o2 h1 h2
    simp only [runBlocks, Option.some.injEq, Prod.mk.injEq] at h1
    rw [← h1.1] at h2
    rw [← h1.2]
    have := runBlocks_cons s s2 s2 b [] o2 [] h2 rfl
    simpa using this
  | cons a bs ih =>
    intro s s1 s2 b o1 o2 h1 h2
    unfold runBlocks at h1
    split at h1
    · rename_i sa oa ha
      split at h1
      · rename_i sb ob hb
        simp only [Option.some.injEq, Prod.mk.injEq] at h1
        have := ih sa sb s2 b ob o2 hb (by rw [h1.1]; exact h2)
        have h3 := runBlocks_cons s sa s2 a (bs ++ [b]) oa (ob ++ o2) ha this
        rw [List.cons_append, h3, ← h1.2, List.append_assoc]
      · exact absurd h1 (by simp)
    · exact absurd h1 (by simp)

theorem reachable_runBlocks :
    ∀ (bs : List Block) (s s' : Remus) (out : List ℚ), Reachable s →
      runBlocks s bs = some (s', out) → Reachable s' := by
  intro bs
  induction bs with
  | nil =>
    intro s s' out hr h
    simp only [runBlocks, Option.some.injEq, Prod.mk.injEq] at h
    rw [← h.1]
    exact hr
  | cons b bs ih =>
    intro s s' out hr h
    unfold runBlocks at h
    split at h
    · rename_i sa oa ha
      split at h
      · rename_i sb ob hb
        simp only [Option.some.injEq, Prod.mk.injEq] at h
        rw [← h.1]
        exact ih sa sb ob (Reachable.step s b sa oa hr ha) hb
      · exact absurd h (by simp)
    · exact absurd h (by simp)

/-- The session up to the accepted loop: record-enable pressed, then released
at the bar line, 96000 loop samples and 1024 silent tail samples. -/
theorem session_recorded :
    ∃ s out, runBlocks (activate (instantiate 48000)) [sessionPress, sessionRecord] =
        some (s, out) ∧
      s.recording = false ∧ s.recording_tail = false ∧ s.has_recorded = true ∧
      s.stitch_position = 0 ∧ s.tail_pos = 0 ∧ s.loop_samples = 96000 ∧
      s.buffer_size = MAX_BUFFER_SIZE ∧ s.waiting_for_bar = false ∧ s.playing = false ∧
      s.waiting_to_play = false ∧ s.prev_record_enable = 0 ∧ s.sample_rate = 48000 ∧
      s.last_bar = 1 := by
  have h1 := run_idle (activate (instantiate 48000)) sessionPress rfl rfl rfl rfl rfl
    (by norm_num [blockRecStart, rec_start, sessionPress, activate, instantiate])
  have hT := blockTransport_posEvent (activate (instantiate 48000)) 0 0 1 1 [0, 0]
  have hT' : blockTransport (activate (instantiate 48000)) sessionPress =
      { current_bar_beat := 0, current_bar := 0, transport_rolling := true, bpm := 120,
        beats_per_bar := 4 } := hT
  rw [hT'] at h1
  obtain ⟨s1, hrun1, e1, e2, e3, e4, e5, e6, e7, e8⟩ : ∃ s1 : Remus,
      run (activate (instantiate 48000)) sessionPress =
        some (s1, List.replicate sessionPress.audio_in.length 0) ∧
      s1.recording = false ∧ s1.prev_record_enable = 1 ∧ s1.last_bar = 0 ∧
      s1.sample_rate = 48000 ∧ s1.buffer_size = MAX_BUFFER_SIZE ∧ s1.stitch_position = 0 ∧
      s1.playing = false ∧ s1.waiting_to_play = false :=
    ⟨_, h1, rfl, rfl, rfl, rfl, rfl, rfl, rfl, rfl⟩
  obtain ⟨s2, out, h2, q1, q2, q3, q4, q5, q6, q7, q8, q9, q10, q11, q12, q13, _⟩ :=
    run_record_full s1 1 0 0 (List.replicate 96000 0) e1 (by rw [e2]; norm_num) (by norm_num)
      (by rw [e3]) (by decide) (by rw [e3]; decide) e4 e5 e6 (by rw [List.length_replicate])
  exact ⟨s2, _, runBlocks_cons _ _ _ _ _ _ _ hrun1 (runBlocks_cons _ _ _ _ _ _ _ h2 rfl),
    q1, q2, q3, q4, q5, q6, q7, q8, by rw [q9, e7], by rw [q10, e8], q11, q12, q13⟩

/-- The session continued: the transport is relocated to bar 0 with
record-enable held down again, and the loop plays. -/
theorem session_playing :
    ∃ s out, runBlocks (activate (instantiate 48000))
        [sessionPress, sessionRecord, sessionPress] = some (s, out) ∧
      s.playing = true ∧ s.recording = false ∧ s.recording_tail = false ∧
      s.has_recorded = true ∧ s.stitch_position = 0 ∧ s.loop_samples = 96000 ∧
      s.buffer_size = MAX_BUFFER_SIZE ∧ s.waiting_for_bar = false ∧
      s.prev_record_enable = 1 ∧ s.sample_rate = 48000 ∧ s.last_bar = 0 := by
  obtain ⟨s2, o2, h2, q1, q2, q3, q4, _, q6, q7, q8, q9, q10, q11, q12, _⟩ := session_recorded
  obtain ⟨s3, o3, h3, r⟩ := run_start_top s2 1 [0, 0] q1 q2 q3 q4 q6 q7 q8 q9 q10 q12
    (by rw [q11]; norm_num [rec_start])
  exact ⟨s3, _, runBlocks_snoc [sessionPress, sessionRecord] _ _ _ sessionPress _ _ h2 h3, r⟩

/-- The session continued: record-enable is released at the next bar line
while the loop plays; a new take starts and `playing` stays set. -/
theorem session_rerecording :
    ∃ s out, runBlocks (activate (instantiate 48000))
        [sessionPress, sessionRecord, sessionPress, sessionRerecord] = some (s, out) ∧
      RecPhase 96000 (fun k => ([0, 0] : List ℚ).getD k 0) 2 s ∧ s.playing = true ∧
      s.prev_record_enable = 0 ∧ s.sample_rate = 48000 ∧ s.buffer_size = MAX_BUFFER_SIZE := by
  obtain ⟨s3, o3, h3, q1, q2, _, _, q5, _, q7, _, q9, q10, q11⟩ := session_playing
  obtain ⟨s4, s4', h4, _, hs4, hph, e1, e2, _, e4, e5, _⟩ := run_trigger_crossing s3 1 0 0 [0, 0]
    q2 (by rw [q9]; norm_num) (by norm_num) (by rw [q11]) (by decide) (by rw [q11]; decide)
    q10 q7 q5 (by decide)
  refine ⟨s4, _, runBlocks_snoc [sessionPress, sessionRecord, sessionPress] _ _ _
    sessionRerecord _ _ h3 h4, ?_, ?_, ?_, ?_, ?_⟩
  · rw [hs4]
    exact hph
  · rw [hs4]
    simp only [e2, q1]
  · rw [hs4]
    exact e1
  · rw [hs4]
    exact e4
  · rw [hs4]
    exact e5

/-- The session continued: the transport stops during the new take; the
block without position event leaves `playing` set. -/
theorem session_stopped :
    ∃ s4 o4 s out, runBlocks (activate (instantiate 48000))
        [sessionPress, sessionRecord, sessionPress, sessionRerecord] = some (s4, o4) ∧
      run s4 sessionStop = some (s, out) ∧ s.playing = true ∧ s.recording = true ∧
      s.has_recorded = false := by
  obtain ⟨s4, o4, h4, hph, q1, q2, _, _⟩ := session_rerecording
  obtain ⟨s5, h5, hph5, _, e1, _⟩ := run_recPhase_flags 96000 _ 2 s4 sessionStop hph
    (by rw [q2]; norm_num [rec_start, sessionStop]) (by decide) (by
      intro i hi
      have hi2 : i < 2 := hi
      interval_cases i <;> rfl)
  refine ⟨s4, o4, s5, _, h4, h5, by rw [e1, q1], ?_, hph5.2.2.1⟩
  exact (hph5.2.2.2.2.2.1 (by decide)).1

theorem afterTrigger_trigger (s : Remus) (bar : Int) (beat r : ℚ) (audio : List ℚ)
    (hrec : s.recording = false) (hprev : s.prev_record_enable > 1/2) (hr : r ≤ 1/2)
    (hsr : s.sample_rate = 48000) (hB : s.buffer_size = MAX_BUFFER_SIZE) :
    afterTrigger s ⟨[posEvent bar beat], r, 1, audio⟩ = { s with
      debug_logged := if s.debug_logged = false ∧ s.has_recorded = true then true
        else s.debug_logged
      transport_bpm := 120
      transport_beats_per_bar := 4
      prev_record_enable := r
      waiting_for_bar := true
      loop_samples := 96000 } := by
  have hstart : blockRecStart s ⟨[posEvent bar beat], r, 1, audio⟩ = true := by
    simp only [blockRecStart, rec_start, decide_eq_true hr, decide_eq_true hprev, Bool.and_self]
  have hL := blockLoopSamples_posEvent s bar beat r audio hsr
  have hT := blockTransport_posEvent s bar beat r 1 audio
  unfold afterTrigger
  rw [hL, hT, hstart]
  simp only [stopOnRestart, armOnTrigger, if_true]
  split <;> simp [hrec, hB, MAX_BUFFER_SIZE]

theorem zeros_no_crossing (L : Nat) (B : Nat → ℚ) (p n : Nat) :
    ∀ t, p ≤ t → t < p + n → ∀ d, 1 ≤ t →
      crossing ((fun _ : Nat => (0 : ℚ)) (t - 1)) ((fun _ : Nat => (0 : ℚ)) t) = some d →
      ∀ k, max 1 (t - 8) ≤ k → k ≤ min (t + 8) (L - 1) → ¬ loopMatch B t d k := by
  intro t _ _ d _ hc
  simp [crossing] at hc

/-- A block without trigger that completes the take and goes on into the
tail capture with silent input. -/
theorem run_finish_into_tail (L : Nat) (x : Nat → ℚ) (n : Nat) (s : Remus) (b : Block)
    (xs zs : List ℚ) (h : RecPhase L x n s) (hB : s.buffer_size = MAX_BUFFER_SIZE)
    (hrp : s.read_pos < s.buffer_size) (hn : n < L)
    (ht : rec_start s.prev_record_enable b.rec_enable = false)
    (haudio : b.audio_in = xs ++ zs) (hlen : n + xs.length = L)
    (hx : ∀ i, i < xs.length → x (n + i) = xs.getD i 0)
    (hz : ∀ i, zs.getD i 0 = 0) (hzl : zs.length < 1024) :
    ∃ s' out, run s b = some (s', out) ∧
      TailPhase s'.buffer L (fun _ => 0) 0 zs.length s' ∧ s'.waiting_for_bar = false ∧
      s'.prev_record_enable = b.rec_enable ∧ s'.sample_rate = s.sample_rate ∧
      s'.last_bar = (blockTransport s b).current_bar ∧
      s'.last_bar_beat = (blockTransport s b).current_bar_beat := by
  have hpre := blockPrelude_idle s b h.2.2.1 h.2.2.2.1 ht
  have hph : RecPhase L x n (blockPrelude s b) := by
    rw [hpre]
    exact h
  obtain ⟨s1, hrun1, hph1, _, hrp1⟩ := processSamples_recPhase L x xs n _ hph (by omega) hx
  obtain ⟨f1, f2, f3, _, _, f6, f7, _⟩ := processSamples_frame _ _ _ _ hrun1
  rw [hlen] at hph1
  obtain ⟨p1, p2, p3, _, _, _, pend⟩ := hph1
  obtain ⟨e1, e2, e3, e4, _, _⟩ := pend rfl
  have hB1 : s1.buffer_size = MAX_BUFFER_SIZE := by rw [f1, hpre]; exact hB
  have hrp' : s1.read_pos < s1.buffer_size := by
    rw [hrp1, hpre, f1, hpre]
    exact hrp
  have hT1 : TailPhase s1.buffer L (fun _ => 0) 0 0 s1 :=
    ⟨e1, e2, p3, e4, e3, rfl, p1, by omega, p2, hB1, hrp', fun k hk => absurd hk (by omega)⟩
  obtain ⟨s2, hrun2, hph2⟩ := tail_run s1.buffer L (fun _ => 0) 0 zs 0 s1 hT1
    (by intro i _; exact (hz i).symm)
    (Or.inl ⟨rfl, by omega, zeros_no_crossing L s1.buffer 0 zs.length⟩)
  obtain ⟨g1, g2, g3, _, _, g6, g7, _⟩ := processSamples_frame _ _ _ _ hrun2
  rw [Nat.zero_add] at hph2
  have happ := processSamples_append _ _ _ _ _ _ _ hrun1 hrun2
  rw [← haudio] at happ
  obtain ⟨t1, t2, t3, t4, t5, t6, t7, t8, t9, t10, t11, t12⟩ := hph2
  refine ⟨{ s2 with last_bar_beat := (blockTransport s b).current_bar_beat,
                    last_bar := (blockTransport s b).current_bar },
    List.replicate xs.length 0 ++ List.replicate zs.length 0, ?_, ?_, ?_, ?_, ?_, rfl, rfl⟩
  · unfold run
    rw [happ]
  · exact ⟨t1, t2, t3, t4, t5, rfl, t7, t8, t9, t10, t11, t12⟩
  · simp only [g3, f3, hpre]
    exact h.2.2.2.1
  · simp only [g6, f6, hpre]
  · simp only [g7, f7, hpre]

/-- A trigger during a silent tail capture, in a rolling block that stays in
the bar: the capture goes on and the engine is armed. -/
theorem run_trigger_in_tail (B : Nat → ℚ) (L p : Nat) (s : Remus) (bar : Int) (beat r : ℚ)
    (zs : List ℚ) (h : TailPhase B L (fun _ => 0) 0 p s)
    (hprev : s.prev_record_enable > 1/2) (hr : r ≤ 1/2) (hsr : s.sample_rate = 48000)
    (hbar : s.last_bar = bar) (hbeat : s.last_bar_beat ≤ beat)
    (hz : ∀ i, zs.getD i 0 = 0) (hzl : p + zs.length < 1024) :
    ∃ s' out, run s ⟨[posEvent bar beat], r, 1, zs⟩ = some (s', out) ∧
      s'.recording = false ∧ s'.recording_tail = true ∧ s'.has_recorded = false ∧
      s'.waiting_for_bar = true ∧ s'.tail_pos = p + zs.length := by
  obtain ⟨h1, h2, h3, h4, h5, h6, h7, h8, h9, h10, h11, h12⟩ := h
  have hA := afterTrigger_trigger s bar beat r zs h1 hprev hr hsr h10
  have hT := blockTransport_posEvent s bar beat r 1 zs
  have hpre : blockPrelude s ⟨[posEvent bar beat], r, 1, zs⟩ =
      afterTrigger s ⟨[posEvent bar beat], r, 1, zs⟩ := by
    unfold blockPrelude afterBarCheck
    rw [checkBarBoundary_stay _ _ (by
      rw [hA, hT]
      simp only [barCrossed, hbar]
      intro hc
      rcases hc.2.2 with hc | hc
      · exact hc.2.2 rfl
      · exact absurd hc.2.2 (not_lt.mpr hbeat))]
    rw [playbackAlign_skip _ _ (by rw [hA]; simp [h3]), hotUpdate_skip _ _ (by rw [hA]; simp)]
  have hT1 : TailPhase B 96000 (fun _ => 0) 0 p
      (blockPrelude s ⟨[posEvent bar beat], r, 1, zs⟩) := by
    rw [hpre, hA]
    exact ⟨h1, h2, h3, h4, h5, h6, rfl, by decide, by simp only [h10]; decide, h10, h11, h12⟩
  obtain ⟨s2, hrun2, hph2⟩ := tail_run B 96000 (fun _ => 0) 0 zs p _ hT1
    (by intro i _; exact (hz i).symm)
    (Or.inl ⟨rfl, hzl, zeros_no_crossing 96000 B p zs.length⟩)
  obtain ⟨_, _, g3, _⟩ := processSamples_frame _ _ _ _ hrun2
  obtain ⟨t1, t2, t3, _, t5, _⟩ := hph2
  refine ⟨{ s2 with last_bar_beat := beat, last_bar := bar }, List.replicate zs.length 0, ?_,
    t1, t2, t3, ?_, t5⟩
  · unfold run
    rw [hrun2, hT]
  · simp only [g3, hpre, hA]

/-- A session up to a tail capture in progress: record-enable pressed and
released at the bar line, pressed again while the loop fills; two tail
samples are captured. -/
theorem session_in_tail :
    ∃ s out, runBlocks (activate (instantiate 48000))
        [sessionPress, sessionRerecord, takePress] = some (s, out) ∧
      TailPhase s.buffer 96000 (fun _ => 0) 0 2 s ∧ s.waiting_for_bar = false ∧
      s.prev_record_enable = 1 ∧ s.sample_rate = 48000 ∧ s.last_bar = 1 ∧
      s.last_bar_beat = 1 := by
  have h1 := run_idle (activate (instantiate 48000)) sessionPress rfl rfl rfl rfl rfl
    (by norm_num [blockRecStart, rec_start, sessionPress, activate, instantiate])
  have hT' : blockTransport (activate (instantiate 48000)) sessionPress =
      { current_bar_beat := 0, current_bar := 0, transport_rolling := true, bpm := 120,
        beats_per_bar := 4 } := blockTransport_posEvent (activate (instantiate 48000)) 0 0 1 1 [0, 0]
  rw [hT'] at h1
  obtain ⟨s1, hrun1, e1, e2, e3, e4, e5, e6⟩ : ∃ s1 : Remus,
      run (activate (instantiate 48000)) sessionPress =
        some (s1, List.replicate sessionPress.audio_in.length 0) ∧
      s1.recording = false ∧ s1.prev_record_enable = 1 ∧ s1.last_bar = 0 ∧
      s1.sample_rate = 48000 ∧ s1.buffer_size = MAX_BUFFER_SIZE ∧ s1.stitch_position = 0 :=
    ⟨_, h1, rfl, rfl, rfl, rfl, rfl, rfl⟩
  obtain ⟨s2, s2', hrun2, _, hs2, hph, f1, _, _, f4, f5, f6⟩ := run_trigger_crossing s1 1 0 0
    [0, 0] e1 (by rw [e2]; norm_num) (by norm_num) (by rw [e3]) (by decide)
    (by rw [e3]; decide) e4 e5 e6 (by decide)
  have hph2 : RecPhase 96000 (fun k => ([0, 0] : List ℚ).getD k 0) 2 s2 := by
    rw [hs2]
    exact hph
  have hT3 : blockTransport s2 takePress =
      { current_bar_beat := 1, current_bar := 1, transport_rolling := true, bpm := 120,
        beats_per_bar := 4 } :=
    blockTransport_posEvent s2 1 1 1 1 (List.replicate 95998 0 ++ [0, 0])
  obtain ⟨s3, o3, hrun3, hT, g1, g2, g3, g4, g5⟩ := run_finish_into_tail 96000 _ 2 s2 takePress
    (List.replicate 95998 0) [0, 0] hph2 (by rw [hs2]; exact f5)
    (by rw [hs2]; simp only [f6, f5]; decide) (by decide)
    (by rw [hs2]; simp only [f1]; norm_num [rec_start, takePress]) rfl
    (by rw [List.length_replicate])
    (by
      intro i hi
      rw [List.getD_eq_getElem?_getD, List.getD_eq_getElem?_getD, List.getElem?_replicate]
      rw [List.length_replicate] at hi
      rw [if_pos hi, List.getElem?_eq_none (by simp)]
      rfl)
    (by
      intro i
      rw [List.getD_eq_getElem?_getD]
      rcases i with _ | _ | i <;> simp)
    (by decide)
  rw [hT3] at g4 g5
  refine ⟨s3, _, runBlocks_cons _ _ _ _ _ _ _ hrun1 (runBlocks_cons _ _ _ _ _ _ _ hrun2
    (runBlocks_cons _ _ _ _ _ _ _ hrun3 rfl)), hT, g1, g2, ?_, g4, g5⟩
  rw [g3, hs2]
  exact f4

/-! ## More on the block prelude -/

theorem hotUpdate_adopt (u : Remus) (n : Nat) (h1 : u.recording = false)
    (h2 : u.waiting_for_bar = false) (h3 : u.has_recorded = true) (h4 : n ≠ u.loop_samples) :
    (hotUpdate u n).loop_samples = min n u.buffer_size ∧
      (hotUpdate u n).read_pos = (if u.read_pos < min n u.buffer_size then u.read_pos else 0) := by
  unfold hotUpdate
  rw [if_pos ⟨h1, h2, h3⟩, if_pos h4]
  simp only
  by_cases hc : n > u.buffer_size
  · rw [if_pos hc]
    simp only
    rw [Nat.min_eq_right (Nat.le_of_lt hc)]
    by_cases hr : u.read_pos ≥ u.buffer_size
    · rw [if_pos hr, if_neg (by omega)]
      exact ⟨rfl, rfl⟩
    · rw [if_neg hr, if_pos (by omega)]
      exact ⟨rfl, rfl⟩
  · rw [if_neg hc]
    simp only
    rw [Nat.min_eq_left (by omega)]
    by_cases hr : u.read_pos ≥ n
    · rw [if_pos hr, if_neg (by omega)]
      exact ⟨rfl, rfl⟩
    · rw [if_neg hr, if_pos (by omega)]
      exact ⟨rfl, rfl⟩

theorem afterTrigger_prev (s : Remus) (b : Block) :
    (afterTrigger s b).prev_record_enable = b.rec_enable := by
  unfold afterTrigger armOnTrigger stopOnRestart
  simp only
  split_ifs <;> rfl

theorem afterTrigger_arm (s : Remus) (b : Block) (hrec : s.recording = false)
    (ht : blockRecStart s b = true) :
    afterTrigger s b = { s with
      debug_logged := if s.debug_logged = false ∧ s.has_recorded = true then true
        else s.debug_logged
      transport_bpm := (blockTransport s b).bpm
      transport_beats_per_bar := (blockTransport s b).beats_per_bar
      prev_record_enable := b.rec_enable
      waiting_for_bar := true
      loop_samples := min (blockLoopSamples s b) s.buffer_size } := by
  unfold afterTrigger
  rw [ht]
  simp only [stopOnRestart, armOnTrigger, if_true]
  by_cases hc : blockLoopSamples s b > s.buffer_size
  · rw [Nat.min_eq_right (Nat.le_of_lt hc)]
    split <;> simp [hrec, hc]
  · rw [Nat.min_eq_left (by omega)]
    split <;> simp [hrec, hc]

theorem barCrossed_afterTrigger (s : Remus) (b : Block) (t : Transport) :
    barCrossed (afterTrigger s b) t ↔ barCrossed s t := by
  obtain ⟨h1, h2, _, _⟩ := afterTrigger_last s b
  unfold barCrossed
  rw [h1, h2]

theorem playbackAlign_read_pos (s : Remus) (t : Transport) :
    (playbackAlign s t).read_pos = s.read_pos ∨ (playbackAlign s t).read_pos = 0 := by
  unfold playbackAlign
  split_ifs <;> first | exact Or.inl rfl | exact Or.inr rfl

theorem blockPrelude_frame (s : Remus) (b : Block) :
    ∃ pl wp rp L, blockPrelude s b = { afterBarCheck s b with
      playing := pl, waiting_to_play := wp, read_pos := rp, loop_samples := L } := by
  obtain ⟨L, rp, h1, _⟩ := hotUpdate_frame
    (playbackAlign (afterBarCheck s b) (blockTransport s b)) (blockLoopSamples s b)
  obtain ⟨pl, wp, rp2, h2⟩ := playbackAlign_frame (afterBarCheck s b) (blockTransport s b)
  refine ⟨pl, wp, rp, L, ?_⟩
  unfold blockPrelude
  rw [h1, h2]

theorem processSample_idle (s : Remus) (x : ℚ) (h1 : s.recording = false)
    (h2 : s.recording_tail = false) (h3 : ¬ spliceDue s) (h4 : s.read_pos < s.buffer_size)
    (h5 : s.loop_samples ≤ s.buffer_size) :
    ∃ rp o, processSample s x = some ({ s with read_pos := rp }, o) ∧ rp < s.buffer_size := by
  unfold processSample
  rw [captureStage_idle s x h1 h2]
  simp only
  rw [spliceStage_idle s h3]
  simp only
  unfold playbackStage
  by_cases hp : s.playing = true ∧ s.has_recorded = true ∧ s.loop_samples > 0
  · rw [if_pos hp, if_pos h4]
    simp only
    by_cases hw : u32 (s.read_pos + 1) ≥ s.loop_samples
    · rw [if_pos hw]
      exact ⟨0, _, rfl, by omega⟩
    · rw [if_neg hw]
      exact ⟨u32 (s.read_pos + 1), _, rfl, by omega⟩
  · rw [if_neg hp]
    exact ⟨s.read_pos, 0, rfl, h4⟩

theorem processSamples_idle :
    ∀ (xs : List ℚ) (s : Remus), s.recording = false → s.recording_tail = false →
      ¬ spliceDue s → s.read_pos < s.buffer_size → s.loop_samples ≤ s.buffer_size →
      ∃ s' out, processSamples s xs = some (s', out) := by
  intro xs
  induction xs with
  | nil =>
    intro s _ _ _ _ _
    exact ⟨s, [], rfl⟩
  | cons x xs ih =>
    intro s h1 h2 h3 h4 h5
    obtain ⟨rp, o, hstep, hrp⟩ := processSample_idle s x h1 h2 h3 h4 h5
    obtain ⟨s', out, hrest⟩ := ih { s with read_pos := rp } h1 h2 h3 hrp h5
    refine ⟨s', o :: out, ?_⟩
    unfold processSamples
    rw [hstep]
    simp only
    rw [hrest]

theorem run_of_processSamples (s s1 : Remus) (b : Block) (out : List ℚ)
    (h : processSamples (blockPrelude s b) b.audio_in = some (s1, out)) :
    run s b = some ({ s1 with last_bar_beat := (blockTransport s b).current_bar_beat,
                              last_bar := (blockTransport s b).current_bar }, out) := by
  unfold run
  rw [h]

theorem toU32_of_range (x : ℚ) (h0 : 0 ≤ x) (h1 : x < 4294967296) :
    ((toU32 x : ℕ) : ℤ) = ⌊x⌋ ∧ ((toU32 x : ℕ) : ℚ) = ((⌊x⌋ : ℤ) : ℚ) := by
  have hf0 : 0 ≤ ⌊x⌋ := Int.floor_nonneg.2 h0
  have hf1 : ⌊x⌋ < 4294967296 := by
    apply Int.floor_lt.2
    exact_mod_cast h1
  have hn : Int.toNat ⌊x⌋ < 4294967296 := by omega
  have hu : toU32 x = Int.toNat ⌊x⌋ := by
    unfold toU32 u32
    exact Nat.mod_eq_of_lt hn
  have hz : ((toU32 x : ℕ) : ℤ) = ⌊x⌋ := by
    rw [hu]
    exact Int.toNat_of_nonneg hf0
  refine ⟨hz, ?_⟩
  rw [← hz]
  simp

theorem afterTrigger_latch (s : Remus) (b : Block) (ht : blockRecStart s b = true) :
    (afterTrigger s b).loop_samples = min (blockLoopSamples s b) s.buffer_size := by
  unfold afterTrigger
  rw [ht]
  simp only [stopOnRestart, armOnTrigger, if_true]
  by_cases hc : blockLoopSamples s b > s.buffer_size
  · rw [Nat.min_eq_right (Nat.le_of_lt hc)]
    split_ifs <;> simp_all
  · rw [Nat.min_eq_left (by omega)]
    split_ifs <;> simp_all

theorem afterScheduler_buffer_size (s : Remus) (b : Block) :
    (afterScheduler s b).buffer_size = s.buffer_size := by
  obtain ⟨pl, wp, rp, h⟩ := playbackAlign_frame (afterBarCheck s b) (blockTransport s b)
  unfold afterScheduler
  rw [h]
  simp only
  unfold afterBarCheck
  rw [(checkBarBoundary_buffer _ _).2, (afterTrigger_last s b).2.2.2]

/-! ## State persistence -/

theorem getD_map_range (f : Nat → ℚ) (K k : Nat) (hk : k < K) :
    ((List.range K).map f).getD k 0 = f k := by
  rw [List.getD_eq_getElem?_getD, List.getElem?_map, List.getElem?_range hk]
  rfl

theorem restore_saved (r : Remus) (data : List ℚ) (ty : AtomType) (K : Nat)
    (hK0 : 0 < K) (hK1 : K ≤ r.buffer_size) (hK2 : K < 4294967296) (hlen : data.length = K) :
    restore r { remus_buffer := some (data, ty)
                remus_loop_samples := some (K, AtomType.atom_Long)
                remus_has_recorded := some (1, AtomType.atom_Long) } =
      { r with
        loop_samples := K
        has_recorded := true
        buffer := fun k => if k < K then data.getD k 0 else r.buffer k
        read_pos := 0
        recording := false
        waiting_for_bar := false } := by
  have hu : u32 K = K := Nat.mod_eq_of_lt hK2
  have h1 : u32 1 = 1 := rfl
  have hgt : ¬ K > r.buffer_size := by omega
  unfold restore
  simp only [if_true, hu, h1, hgt, if_false, hK0, hlen, Nat.min_self]
  rfl

theorem restore_threeSample :
    restore (instantiate 48000) threeSampleStorage =
      { instantiate 48000 with
        loop_samples := 3
        has_recorded := true
        buffer := fun k => if k < 3 then ([1, 2, 3] : List ℚ).getD k 0 else 0 } :=
  restore_saved (instantiate 48000) [1, 2, 3] AtomType.atom_Float 3 (by decide) (by decide)
    (by decide) rfl

/-! ## Blocks without position event -/

theorem blockTransport_nil (s : Remus) (b : Block) (hev : b.events = []) :
    blockTransport s b =
      { current_bar_beat := s.last_bar_beat, current_bar := s.last_bar,
        transport_rolling := false, bpm := s.transport_bpm,
        beats_per_bar := s.transport_beats_per_bar } := by
  unfold blockTransport processEvents
  rw [hev]
  rfl

theorem afterBarCheck_noEvent (s : Remus) (b : Block) (hev : b.events = [])
    (ht : blockRecStart s b = false) :
    afterBarCheck s b = { s with
      debug_logged := if s.debug_logged = false ∧ s.has_recorded = true then true
        else s.debug_logged
      transport_bpm := (blockTransport s b).bpm
      transport_beats_per_bar := (blockTransport s b).beats_per_bar
      prev_record_enable := b.rec_enable } := by
  unfold afterBarCheck
  rw [checkBarBoundary_stay _ _ (by rw [blockTransport_nil s b hev]; simp)]
  exact afterTrigger_noTrigger s b ht

theorem blockPrelude_noEvent_wait (s : Remus) (b : Block) (hev : b.events = [])
    (ht : blockRecStart s b = false) :
    (blockPrelude s b).waiting_for_bar = s.waiting_for_bar := by
  obtain ⟨pl, wp, rp, L, h⟩ := blockPrelude_frame s b
  rw [h, afterBarCheck_noEvent s b hev ht]

theorem blockPrelude_noEvent_loop (s : Remus) (b : Block) (hev : b.events = [])
    (ht : blockRecStart s b = false)
    (hg : s.has_recorded = true ∧ s.loop_samples > 0 ∧ s.recording = false) :
    (blockPrelude s b).waiting_to_play = false ∧ (blockPrelude s b).playing = false := by
  obtain ⟨f1, f2, _⟩ := hotUpdate_flags
    (playbackAlign (afterBarCheck s b) (blockTransport s b)) (blockLoopSamples s b)
  have he := playbackAlign_stop (afterBarCheck s b) (blockTransport s b)
    (by rw [afterBarCheck_noEvent s b hev ht]; exact hg)
    (by rw [blockTransport_nil s b hev])
  unfold blockPrelude
  rw [f1, f2, he]
  exact ⟨rfl, rfl⟩

theorem blockPrelude_noEvent_noloop (s : Remus) (b : Block) (hev : b.events = [])
    (ht : blockRecStart s b = false)
    (hg : ¬ (s.has_recorded = true ∧ s.loop_samples > 0 ∧ s.recording = false)) :
    (blockPrelude s b).waiting_to_play = s.waiting_to_play ∧
      (blockPrelude s b).playing = s.playing := by
  obtain ⟨f1, f2, _⟩ := hotUpdate_flags
    (playbackAlign (afterBarCheck s b) (blockTransport s b)) (blockLoopSamples s b)
  have he := playbackAlign_skip (afterBarCheck s b) (blockTransport s b)
    (by rw [afterBarCheck_noEvent s b hev ht]; exact hg)
  unfold blockPrelude
  rw [f1, f2, he, afterBarCheck_noEvent s b hev ht]
  exact ⟨rfl, rfl⟩

theorem run_flags (s s' : Remus) (b : Block) (out : List ℚ) (h : run s b = some (s', out)) :
    s'.waiting_for_bar = (blockPrelude s b).waiting_for_bar ∧
      s'.waiting_to_play = (blockPrelude s b).waiting_to_play ∧
      s'.playing = (blockPrelude s b).playing ∧
      s'.prev_record_enable = b.rec_enable := by
  obtain ⟨s1, _, hf, hs'⟩ := run_frame s s' b out h
  obtain ⟨_, _, f3, f4, f5, f6, _⟩ := hf
  have hprev : (blockPrelude s b).prev_record_enable = b.rec_enable := by
    obtain ⟨pl, wp, rp, L, h⟩ := blockPrelude_frame s b
    rw [h]
    simp only
    unfold afterBarCheck checkBarBoundary
    split_ifs <;> exact afterTrigger_prev s b
  rw [hs']
  exact ⟨f3, f5, f4, by simp only [f6, hprev]⟩

theorem runBlocks_noEvent_wait :
    ∀ (bs : List Block) (s s' : Remus) (out : List ℚ), (∀ b, b ∈ bs → b.events = []) →
      noTrigger s.prev_record_enable bs → runBlocks s bs = some (s', out) →
      s'.waiting_for_bar = s.waiting_for_bar := by
  intro bs
  induction bs with
  | nil =>
    intro s s' out _ _ h
    simp only [runBlocks, Option.some.injEq, Prod.mk.injEq] at h
    rw [← h.1]
  | cons b bs ih =>
    intro s s' out hev ht h
    unfold runBlocks at h
    split at h
    · rename_i sa oa ha
      split at h
      · rename_i sb ob hb
        simp only [Option.some.injEq, Prod.mk.injEq] at h
        obtain ⟨g1, _, _, g4⟩ := run_flags s sa b oa ha
        have hb0 : b.events = [] := hev b (List.mem_cons_self _ _)
        have := ih sa sb ob (fun c hc => hev c (List.mem_cons_of_mem _ hc))
          (by rw [g4]; exact ht.2) hb
        rw [← h.1, this, g1]
        exact blockPrelude_noEvent_wait s b hb0 ht.1
      · exact absurd h (by simp)
    · exact absurd h (by simp)


/-! ## Tail capture on arbitrary input -/

/-- The stitch position after one more tail sample, whatever the input: it is
kept once set; while unset it stays unset or is set to a position whose
crossfade window still needs samples and fits the tail buffer. -/
theorem captureStage_tail_any (s : Remus) (y : ℚ) (hr : s.recording = false)
    (ht : s.recording_tail = true) (hp : s.tail_pos < 1024)
    (hL : 1 ≤ s.loop_samples) (hLB : s.loop_samples ≤ s.buffer_size)
    (hB : s.buffer_size = MAX_BUFFER_SIZE) :
    ∃ zc md sp, captureStage s y = some (checkFull (checkEnough { s with
        tail_buffer := store s.tail_buffer s.tail_pos y
        tail_pos := s.tail_pos + 1
        tail_zero_crossings := zc
        tail_min_distance := md
        stitch_position := sp })) ∧
      (s.stitch_position ≠ 0 → sp = s.stitch_position) ∧
      (s.stitch_position = 0 →
        sp = 0 ∨ (32 ≤ sp ∧ sp + 32 < 1024 ∧ s.tail_pos + 1 < sp + 32)) := by
  obtain ⟨zc, md, sp, hcap, hA, hN, hM⟩ := captureStage_tail s y hr ht hp hL hLB hB
  refine ⟨zc, md, sp, hcap, hA, ?_⟩
  intro hz
  by_cases hex : ∃ d, 1 ≤ s.tail_pos ∧
      crossing (s.tail_buffer (s.tail_pos - 1)) y = some d ∧
      ∃ k, max 1 (s.tail_pos - 8) ≤ k ∧ k ≤ min (s.tail_pos + 8) (s.loop_samples - 1) ∧
        loopMatch s.buffer s.tail_pos d k
  · obtain ⟨d, h1, hc, hk⟩ := hex
    classical
    have hm := Nat.find_spec hk
    have hmin := fun k (hlt : k < Nat.find hk) => Nat.find_min hk hlt
    obtain ⟨m1, m2, m3⟩ := hm
    have hsp := hM hz d (Nat.find hk) h1 hc m1 m2
      (fun k hk1 hk2 hmt => hmin k hk2 ⟨hk1, by omega, hmt⟩) m3
    right
    obtain ⟨_, b1, b2⟩ := m3
    rw [hsp]
    have : s.tail_pos - 8 ≤ Nat.find hk := le_trans (le_max_right _ _) m1
    omega
  · left
    apply hN hz
    intro d h1 hc k hk1 hk2 hmt
    exact hex ⟨d, h1, hc, k, hk1, hk2, hmt⟩

theorem checkTail_fields (s : Remus) :
    (checkFull (checkEnough s)).read_pos = s.read_pos ∧
      (checkFull (checkEnough s)).playing = s.playing ∧
      (checkFull (checkEnough s)).loop_samples = s.loop_samples ∧
      (checkFull (checkEnough s)).buffer_size = s.buffer_size := by
  unfold checkFull checkEnough
  simp only
  split_ifs <;> exact ⟨rfl, rfl, rfl, rfl⟩

theorem playbackStage_full (c : Remus) (h : c.read_pos < c.buffer_size)
    (hL : c.loop_samples ≤ c.buffer_size) :
    ∃ s' out, playbackStage c = some (s', out) ∧ s'.read_pos < c.buffer_size ∧
      s'.buffer_size = c.buffer_size ∧ s'.loop_samples = c.loop_samples ∧
      s'.playing = c.playing ∧
      out = (if c.playing = true ∧ c.has_recorded = true ∧ c.loop_samples > 0
        then c.buffer c.read_pos else 0) := by
  unfold playbackStage
  by_cases hp : c.playing = true ∧ c.has_recorded = true ∧ c.loop_samples > 0
  · rw [if_pos hp, if_pos h, if_pos hp]
    simp only
    by_cases hw : u32 (c.read_pos + 1) ≥ c.loop_samples
    · rw [if_pos hw]
      exact ⟨_, _, rfl, by simp only; omega, rfl, rfl, rfl, rfl⟩
    · rw [if_neg hw]
      exact ⟨_, _, rfl, by simp only; omega, rfl, rfl, rfl, rfl⟩
  · rw [if_neg hp, if_neg hp]
    exact ⟨_, _, rfl, h, rfl, rfl, rfl, rfl⟩

/-- The sample that completes a tail capture, with the output it produces:
the spliced loop at `read_pos` when `playing` is set. -/
theorem tail_complete_out (B : Nat → ℚ) (L : Nat) (x : Nat → ℚ) (sp p : Nat) (s s2 : Remus)
    (y : ℚ) (zc : Nat) (md : Int) (sp2 : Nat) (h : TailPhase B L x sp p s)
    (hcap : captureStage s y = some (checkFull (checkEnough s2)))
    (hs2 : s2 = { s with
        tail_buffer := store s.tail_buffer s.tail_pos y
        tail_pos := s.tail_pos + 1
        tail_zero_crossings := zc
        tail_min_distance := md
        stitch_position := sp2 })
    (hend : (sp2 = 0 ∧ p + 1 = 1024) ∨ (sp2 ≠ 0 ∧ 32 ≤ sp2 ∧ sp2 + 32 ≤ p + 1 ∧ p + 1 ≤ 1024)) :
    ∃ s' out, processSample s y = some (s', out) ∧
      s'.recording = false ∧ s'.recording_tail = false ∧ s'.has_recorded = true ∧
      s'.tail_pos = 0 ∧ s'.stitch_position = 0 ∧
      s'.buffer = splicedBuffer (store s.tail_buffer p y) B ((if sp2 = 0 then 32 else sp2) - 32) ∧
      s'.read_pos < s.buffer_size ∧ s'.buffer_size = s.buffer_size ∧
      s'.loop_samples = s.loop_samples ∧ s'.playing = s.playing ∧
      out = (if s.playing = true then
        splicedBuffer (store s.tail_buffer p y) B ((if sp2 = 0 then 32 else sp2) - 32) s.read_pos
        else 0) := by
  obtain ⟨c, s', out, hc1, hstep, c1, c2, c3, c4, c5, hspl, q1, q2, q3, q4, q5, q6⟩ :=
    tail_complete B L x sp p s s2 y zc md sp2 h hcap hs2 hend
  obtain ⟨h1, h2, h3, h4, h5, h6, h7, h8, h9, h10, h11, h12⟩ := h
  have hceq : c = checkFull (checkEnough s2) := by
    rw [hcap] at hc1
    exact (Option.some.inj hc1).symm
  obtain ⟨f1, f2, f3, f4⟩ := checkTail_fields s2
  have g1 : c.read_pos = s.read_pos := by rw [hceq, f1, hs2]
  have g2 : c.playing = s.playing := by rw [hceq, f2, hs2]
  have g3 : c.loop_samples = s.loop_samples := by rw [hceq, f3, hs2]
  have g4 : c.buffer_size = s.buffer_size := by rw [hceq, f4, hs2]
  have hpb : playbackStage { c with
      buffer := splicedBuffer c.tail_buffer c.buffer (c.stitch_position - 32)
      tail_pos := 0
      stitch_position := 0 } = some (s', out) := by
    have h0 := hstep
    unfold processSample at h0
    rw [hc1] at h0
    simp only at h0
    rw [hspl] at h0
    exact h0
  obtain ⟨s'', out'', hpb2, r1, r2, r3, r4, r5⟩ := playbackStage_full { c with
      buffer := splicedBuffer c.tail_buffer c.buffer (c.stitch_position - 32)
      tail_pos := 0
      stitch_position := 0 } (by simp only [g1, g4]; exact h11)
    (by simp only [g3, g4]; omega)
  rw [hpb] at hpb2
  simp only [Option.some.injEq, Prod.mk.injEq] at hpb2
  obtain ⟨e1, e2⟩ := hpb2
  rw [← e1] at r1 r2 r3 r4
  rw [← e2] at r5
  simp only [g1, g2, g3, g4, c3, c4, c5, c1] at r1 r2 r3 r4 r5
  refine ⟨s', out, hstep, q1, q2, q3, q4, q5, q6, r1, r2, r3, r4, ?_⟩
  rw [r5]
  by_cases hpl : s.playing = true
  · rw [if_pos ⟨hpl, trivial, by omega⟩, if_pos hpl]
  · rw [if_neg (fun hx => hpl hx.1), if_neg hpl]

/-- A tail capture ends within the tail buffer on every input: from `tail_pos
= p` with the stitch position unset, or set with its crossfade window still
incomplete, the capture ends after `j` more samples, `p + j ≤ 1024`, and is
in progress with silent output before. -/
theorem tail_terminates (B : Nat → ℚ) (L : Nat) :
    ∀ (ys : List ℚ) (p sp : Nat) (s : Remus) (x : Nat → ℚ), TailPhase B L x sp p s →
      (sp = 0 ∨ (32 ≤ sp ∧ sp + 32 < 1024 ∧ p < sp + 32)) → p < 1024 →
      p + ys.length = 1024 →
      ∃ j s' out, 1 ≤ j ∧ j ≤ ys.length ∧ processSamples s (ys.take j) = some (s', out) ∧
        s'.recording = false ∧ s'.recording_tail = false ∧ s'.has_recorded = true ∧
        s'.tail_pos = 0 ∧ s'.stitch_position = 0 ∧ s'.read_pos < s.buffer_size ∧
        s'.buffer_size = s.buffer_size ∧ s'.loop_samples = s.loop_samples ∧
        ∀ i, i < j → ∃ si, processSamples s (ys.take i) = some (si, List.replicate i 0) ∧
          si.recording_tail = true ∧ si.has_recorded = false ∧ si.tail_pos = p + i ∧
          (si.stitch_position ≠ 0 →
            p + i < si.stitch_position + 32 ∧ si.stitch_position + 32 < 1024) := by
  intro ys
  induction ys with
  | nil =>
    intro p sp s x _ _ hp hlen
    simp at hlen
    omega
  | cons y ys ih =>
    intro p sp s x h hinv hp hlen
    have hlen2 : p + 1 + ys.length = 1024 := by
      simp only [List.length_cons] at hlen
      omega
    have hh := h
    obtain ⟨h1, h2, h3, h4, h5, h6, h7, h8, h9, h10, h11, h12⟩ := h
    obtain ⟨zc, md, sp2, hcap, hA, hZ⟩ := captureStage_tail_any s y h1 h2
      (by rw [h5]; exact hp) (by rw [h7]; exact h8) (by rw [h7]; exact h9) h10
    rw [h4] at hA
    rw [h4, h5] at hZ
    have hzero : ∀ i, i < 1 → ∃ si, processSamples s ((y :: ys).take i) =
        some (si, List.replicate i 0) ∧
        si.recording_tail = true ∧ si.has_recorded = false ∧ si.tail_pos = p + i ∧
        (si.stitch_position ≠ 0 →
          p + i < si.stitch_position + 32 ∧ si.stitch_position + 32 < 1024) := by
      intro i hi
      have hi0 : i = 0 := by omega
      rw [hi0]
      refine ⟨s, rfl, h2, h3, by rw [h5]; rfl, ?_⟩
      intro hne
      rw [h4] at hne ⊢
      rcases hinv with hz | ⟨_, a2, a3⟩
      · exact absurd hz hne
      · exact ⟨by omega, a2⟩
    have hinv2 : sp2 = 0 ∨ (32 ≤ sp2 ∧ sp2 + 32 < 1024 ∧ (sp ≠ 0 → sp2 = sp) ∧
        (sp = 0 → p + 1 < sp2 + 32)) := by
      by_cases hz : sp = 0
      · rcases hZ hz with h0 | ⟨a1, a2, a3⟩
        · exact Or.inl h0
        · exact Or.inr ⟨a1, a2, fun hne => absurd hz hne, fun _ => a3⟩
      · rcases hinv with h0 | ⟨a1, a2, _⟩
        · exact absurd h0 hz
        · right
          rw [hA hz]
          exact ⟨a1, a2, fun _ => rfl, fun h0 => absurd h0 hz⟩
    by_cases hdone : (sp2 = 0 ∧ p + 1 = 1024) ∨ (sp2 ≠ 0 ∧ sp2 + 32 ≤ p + 1)
    · have hend : (sp2 = 0 ∧ p + 1 = 1024) ∨
          (sp2 ≠ 0 ∧ 32 ≤ sp2 ∧ sp2 + 32 ≤ p + 1 ∧ p + 1 ≤ 1024) := by
        rcases hdone with hd | ⟨d1, d2⟩
        · exact Or.inl hd
        · right
          rcases hinv2 with h0 | ⟨a1, _, _, _⟩
          · exact absurd h0 d1
          · exact ⟨d1, a1, d2, by omega⟩
      obtain ⟨s', out, hstep, q1, q2, q3, q4, q5, _, q7, q8, q9, _⟩ :=
        tail_complete_out B L x sp p s _ y zc md sp2 hh hcap rfl hend
      refine ⟨1, s', [out], le_refl 1, by simp, ?_, q1, q2, q3, q4, q5, q7, q8, q9, hzero⟩
      exact processSamples_single s s' y out hstep
    · have hgo : (sp2 = 0 ∧ p + 1 < 1024) ∨ (sp2 ≠ 0 ∧ p + 1 < sp2 + 32 ∧ sp2 + 32 ≤ 1024) := by
        rcases hinv2 with h0 | ⟨_, a2, _, _⟩
        · left
          refine ⟨h0, ?_⟩
          by_contra hc
          exact hdone (Or.inl ⟨h0, by omega⟩)
        · right
          have hne : sp2 ≠ 0 := by omega
          refine ⟨hne, ?_, by omega⟩
          by_contra hc
          exact hdone (Or.inr ⟨hne, by omega⟩)
      have hx := TailPhase.congr hh (fun k => if k = p then y else x k) (by
        intro k hk
        simp [Nat.ne_of_lt hk])
      obtain ⟨hstep, hph⟩ := tail_continue B L _ sp p s { s with
          tail_buffer := store s.tail_buffer s.tail_pos y
          tail_pos := s.tail_pos + 1
          tail_zero_crossings := zc
          tail_min_distance := md
          stitch_position := sp2 } y zc md sp2 hx (by simp) hcap rfl hgo
      have hp2 : p + 1 < 1024 := by
        rcases hgo with ⟨_, g⟩ | ⟨_, g1, g2⟩
        · exact g
        · rcases hinv2 with h0 | ⟨_, a2, _, _⟩ <;> omega
      obtain ⟨j, s', out, j1, j2, hrun, q1, q2, q3, q4, q5, q6, q7, q8, hpre⟩ :=
        ih (p + 1) sp2 _ _ hph (by
          rcases hgo with ⟨g0, _⟩ | ⟨g0, g1, g2⟩
          · exact Or.inl g0
          · right
            rcases hinv2 with h0 | ⟨a1, a2, _, _⟩
            · exact absurd h0 g0
            · exact ⟨a1, a2, g1⟩) hp2 hlen2
      refine ⟨j + 1, s', 0 :: out, by omega, by simp only [List.length_cons]; omega, ?_,
        q1, q2, q3, q4, q5, q6, q7, q8, ?_⟩
      · rw [List.take_succ_cons]
        unfold processSamples
        rw [hstep]
        simp only
        rw [hrun]
      · intro i hi
        rcases i with _ | i
        · exact hzero 0 (by omega)
        · obtain ⟨si, r1, r2, r3, r4, r5⟩ := hpre i (by omega)
          refine ⟨si, ?_, r2, r3, by omega, ?_⟩
          · rw [List.take_succ_cons]
            unfold processSamples
            rw [hstep]
            simp only
            rw [r1]
            rfl
          · intro hne
            have := r5 hne
            omega

theorem processSamples_idle_fields :
    ∀ (xs : List ℚ) (s : Remus), s.recording = false → s.recording_tail = false →
      ¬ spliceDue s → s.read_pos < s.buffer_size → s.loop_samples ≤ s.buffer_size →
      ∃ s' out, processSamples s xs = some (s', out) ∧ s'.recording = false ∧
        s'.recording_tail = false ∧ s'.has_recorded = s.has_recorded := by
  intro xs
  induction xs with
  | nil =>
    intro s h1 h2 _ _ _
    exact ⟨s, [], rfl, h1, h2, rfl⟩
  | cons x xs ih =>
    intro s h1 h2 h3 h4 h5
    obtain ⟨rp, o, hstep, hrp⟩ := processSample_idle s x h1 h2 h3 h4 h5
    obtain ⟨s', out, hrest, r1, r2, r3⟩ := ih { s with read_pos := rp } h1 h2 h3 hrp h5
    refine ⟨s', o :: out, ?_, r1, r2, r3⟩
    unfold processSamples
    rw [hstep]
    simp only
    rw [hrest]

/-! ## Capture is silent until a loop is accepted -/

theorem scanLoop_read_pos (t : Nat) (d : Bool) :
    ∀ (n l : Nat) (s s' : Remus), scanLoop t d n l s = some s' →
      s'.read_pos = s.read_pos ∧ s'.has_recorded = s.has_recorded := by
  intro n
  induction n with
  | zero =>
    intro l s s' h
    simp only [scanLoop, Option.some.injEq] at h
    rw [← h]
    exact ⟨rfl, rfl⟩
  | succ n ih =>
    intro l s s' h
    obtain ⟨md, sp, hbody⟩ := scanBody_frame t d l s
    unfold scanLoop at h
    split at h
    · split at h
      · simp only [Option.some.injEq] at h
        rw [← h, hbody]
        exact ⟨rfl, rfl⟩
      · obtain ⟨a, b⟩ := ih _ _ _ h
        rw [a, b, hbody]
        exact ⟨rfl, rfl⟩
    · exact absurd h (by simp)

theorem searchCrossing_read_pos (s s' : Remus) (h : searchCrossing s = some s') :
    s'.read_pos = s.read_pos ∧ s'.has_recorded = s.has_recorded := by
  unfold searchCrossing at h
  split at h
  · simp only at h
    cases hc : crossing (s.tail_buffer (s.tail_pos - 1 - 1)) (s.tail_buffer (s.tail_pos - 1)) with
    | none =>
      rw [hc] at h
      simp only [Option.some.injEq] at h
      rw [← h]
      exact ⟨rfl, rfl⟩
    | some d =>
      rw [hc] at h
      simp only at h
      obtain ⟨a, b⟩ := scanLoop_read_pos _ _ _ _ _ _ h
      rw [a, b]
      exact ⟨rfl, rfl⟩
  · simp only [Option.some.injEq] at h
    rw [← h]
    exact ⟨rfl, rfl⟩

theorem checkTail_read_pos (s : Remus) :
    (checkFull (checkEnough s)).read_pos = s.read_pos ∧
      (s.has_recorded = true → (checkFull (checkEnough s)).has_recorded = true) := by
  unfold checkFull checkEnough
  simp only
  split_ifs <;> exact ⟨rfl, fun h => by first | rfl | exact h⟩

theorem captureStage_read_pos (s s' : Remus) (x : ℚ) (h : captureStage s x = some s') :
    s'.read_pos = s.read_pos ∧ (s.has_recorded = true → s'.has_recorded = true) := by
  unfold captureStage at h
  split at h
  · split at h
    · split at h
      · simp only at h
        split at h
        · simp only [Option.some.injEq] at h
          rw [← h]
          exact ⟨rfl, fun h => h⟩
        · simp only [Option.some.injEq] at h
          rw [← h]
          exact ⟨rfl, fun h => h⟩
      · exact absurd h (by simp)
    · simp only [Option.some.injEq] at h
      rw [← h]
      exact ⟨rfl, fun h => h⟩
  · split at h
    · split at h
      · simp only at h
        split at h
        · rename_i s2 hs2
          simp only [Option.some.injEq] at h
          rw [← h]
          obtain ⟨a, b⟩ := searchCrossing_read_pos _ _ hs2
          obtain ⟨c, d⟩ := checkTail_read_pos s2
          rw [c, a]
          exact ⟨rfl, fun hh => d (by rw [b]; exact hh)⟩
        · exact absurd h (by simp)
      · simp only [Option.some.injEq] at h
        rw [← h]
        exact ⟨rfl, fun h => h⟩
    · simp only [Option.some.injEq] at h
      rw [← h]
      exact ⟨rfl, fun h => h⟩

theorem spliceStage_read_pos (s s' : Remus) (h : spliceStage s = some s') :
    s'.read_pos = s.read_pos ∧ s'.has_recorded = s.has_recorded := by
  unfold spliceStage at h
  split at h
  · simp only at h
    split at h
    · split at h
      · simp only [Option.some.injEq] at h
        rw [← h]
        exact ⟨rfl, rfl⟩
      · exact absurd h (by simp)
    · exact absurd h (by simp)
  · simp only [Option.some.injEq] at h
    rw [← h]
    exact ⟨rfl, rfl⟩

theorem playbackStage_quiet (c s' : Remus) (o : ℚ) (h : playbackStage c = some (s', o)) :
    s'.has_recorded = c.has_recorded ∧ (c.has_recorded = false → s' = c ∧ o = 0) := by
  unfold playbackStage at h
  split at h
  · rename_i hp
    split at h
    · simp only [Option.some.injEq, Prod.mk.injEq] at h
      rw [← h.1]
      refine ⟨by split <;> rfl, ?_⟩
      intro hf
      rw [hf] at hp
      exact absurd hp.2.1 (by simp)
    · exact absurd h (by simp)
  · simp only [Option.some.injEq, Prod.mk.injEq] at h
    rw [← h.1, ← h.2]
    exact ⟨rfl, fun _ => ⟨rfl, rfl⟩⟩

/-- A sample after which no loop is accepted leaves `read_pos` alone and
produces silence. -/
theorem processSample_quiet (s s' : Remus) (x o : ℚ) (h : processSample s x = some (s', o))
    (hq : s'.has_recorded = false) :
    s'.read_pos = s.read_pos ∧ s.has_recorded = false ∧ o = 0 := by
  unfold processSample at h
  split at h
  · rename_i s1 h1
    split at h
    · rename_i s2 h2
      obtain ⟨a1, a2⟩ := captureStage_read_pos _ _ _ h1
      obtain ⟨b1, b2⟩ := spliceStage_read_pos _ _ h2
      obtain ⟨c1, c2⟩ := playbackStage_quiet _ _ _ h
      have hs2 : s2.has_recorded = false := by rw [← c1]; exact hq
      obtain ⟨d1, d2⟩ := c2 hs2
      have hs : s.has_recorded = false := by
        cases hh : s.has_recorded with
        | false => rfl
        | true =>
          have := a2 hh
          rw [← b2, hs2] at this
          exact absurd this (by simp)
      exact ⟨by rw [d1, b1, a1], hs, d2⟩
    · exact absurd h (by simp)
  · exact absurd h (by simp)

theorem processSamples_quiet :
    ∀ (xs : List ℚ) (s s' : Remus) (out : List ℚ), processSamples s xs = some (s', out) →
      s'.has_recorded = false →
      s'.read_pos = s.read_pos ∧ s.has_recorded = false ∧ out = List.replicate xs.length 0 := by
  intro xs
  induction xs with
  | nil =>
    intro s s' out h hq
    simp only [processSamples, Option.some.injEq, Prod.mk.injEq] at h
    rw [← h.1] at hq ⊢
    exact ⟨rfl, hq, h.2.symm⟩
  | cons x xs ih =>
    intro s s' out h hq
    unfold processSamples at h
    split at h
    · rename_i s1 y h1
      split at h
      · rename_i s2 ys2 h2
        simp only [Option.some.injEq, Prod.mk.injEq] at h
        rw [← h.1] at hq ⊢
        obtain ⟨a1, a2, a3⟩ := ih _ _ _ h2 hq
        obtain ⟨b1, b2, b3⟩ := processSample_quiet _ _ _ _ h1 a2
        refine ⟨by rw [a1, b1], b2, ?_⟩
        rw [← h.2, a3, b3]
        rfl
      · exact absurd h (by simp)
    · exact absurd h (by simp)


/-! ## More session traces -/

/-- An idle engine with a loop meets a block without position event and
without trigger: the block passes in silence with `playing` and
`waiting_to_play` cleared. -/
theorem run_noEvent_loop (s : Remus) (b : Block) (hev : b.events = [])
    (ht : blockRecStart s b = false) (h1 : s.recording = false)
    (h2 : s.recording_tail = false) (h3 : s.stitch_position = 0)
    (hg : s.has_recorded = true ∧ s.loop_samples > 0) :
    ∃ s', run s b = some (s', List.replicate b.audio_in.length 0) ∧
      s'.waiting_to_play = false ∧ s'.playing = false := by
  obtain ⟨e1, e2⟩ := blockPrelude_noEvent_loop s b hev ht ⟨hg.1, hg.2, h1⟩
  obtain ⟨pl, wp, rp, L, hfr⟩ := blockPrelude_frame s b
  have ha := afterBarCheck_noEvent s b hev ht
  have hps := processSamples_silent b.audio_in (blockPrelude s b)
    (by rw [hfr, ha]; exact h1) (by rw [hfr, ha]; exact h2) (by rw [hfr, ha]; exact h3)
    (by simp [e2])
  have hrun := run_of_processSamples s _ b _ hps
  exact ⟨_, hrun, e1, e2⟩

/-- A stopped engine with a loop of 96000 samples meets a rolling block away
from bar 0 without trigger: it waits for the next bar. -/
theorem run_start_wait (s : Remus) (bar : Int) (beat r : ℚ) (audio : List ℚ)
    (h1 : s.recording = false) (h2 : s.recording_tail = false) (h3 : s.has_recorded = true)
    (h4 : s.stitch_position = 0) (h5 : s.loop_samples = 96000)
    (h7 : s.waiting_for_bar = false)
    (h8 : s.playing = false) (h9 : s.waiting_to_play = false) (h10 : s.sample_rate = 48000)
    (ht : rec_start s.prev_record_enable r = false) (hbar : bar ≠ 0) :
    ∃ s', run s ⟨[posEvent bar beat], r, 1, audio⟩ =
        some (s', List.replicate audio.length 0) ∧
      s'.waiting_to_play = true ∧ s'.playing = false ∧ s'.recording = false ∧
      s'.recording_tail = false ∧ s'.has_recorded = true ∧ s'.stitch_position = 0 ∧
      s'.loop_samples = 96000 ∧ s'.prev_record_enable = r := by
  have hT := blockTransport_posEvent s bar beat r 1 audio
  have hL := blockLoopSamples_posEvent s bar beat r audio h10
  have hA := afterTrigger_noTrigger s ⟨[posEvent bar beat], r, 1, audio⟩ ht
  have hpre : blockPrelude s ⟨[posEvent bar beat], r, 1, audio⟩ =
      { afterTrigger s ⟨[posEvent bar beat], r, 1, audio⟩ with waiting_to_play := true } := by
    unfold blockPrelude afterBarCheck
    rw [checkBarBoundary_stay _ _ (by rw [hA]; simp [h7])]
    rw [playbackAlign_stopped_wait _ _ (by rw [hA]; simp [h3, h5, h1]) (by rw [hA]; exact h8)
      (by rw [hA]; exact h9) (by rw [hT]) (by rw [hT]; simp [atTop, hbar])]
    rw [hotUpdate_same _ _ (by rw [hL, hA]; exact h5.symm)]
  have hps := processSamples_silent audio (blockPrelude s ⟨[posEvent bar beat], r, 1, audio⟩)
    (by rw [hpre, hA]; exact h1) (by rw [hpre, hA]; exact h2) (by rw [hpre, hA]; exact h4)
    (by rw [hpre, hA]; simp [h8])
  have hrun := run_of_processSamples s _ ⟨[posEvent bar beat], r, 1, audio⟩ _ hps
  refine ⟨_, hrun, ?_, ?_, ?_, ?_, ?_, ?_, ?_, ?_⟩
  · simp only [hpre]
  · simp only [hpre, hA, h8]
  · simp only [hpre, hA, h1]
  · simp only [hpre, hA, h2]
  · simp only [hpre, hA, h3]
  · simp only [hpre, hA, h4]
  · simp only [hpre, hA, h5]
  · simp only [hpre, hA]

/-- The session after the accepted loop, continued by a rolling block in the
middle of bar 1: the engine waits to play. -/
theorem session_waiting :
    ∃ s out, runBlocks (activate (instantiate 48000))
        [sessionPress, sessionRecord, takeRelease] = some (s, out) ∧
      s.waiting_to_play = true ∧ s.playing = false ∧ s.recording = false ∧
      s.recording_tail = false ∧ s.has_recorded = true ∧ s.stitch_position = 0 ∧
      s.loop_samples = 96000 ∧ s.prev_record_enable = 0 := by
  obtain ⟨s2, o2, h2, q1, q2, q3, q4, _, q6, _, q8, q9, q10, q11, q12, _⟩ := session_recorded
  obtain ⟨s3, h3, r⟩ := run_start_wait s2 1 2 0 [0, 0] q1 q2 q3 q4 q6 q8 q9 q10 q12
    (by rw [q11]; norm_num [rec_start]) (by decide)
  exact ⟨s3, _, runBlocks_snoc [sessionPress, sessionRecord] _ _ _ takeRelease _ _ h2 h3, r⟩

/-- Recording with `recording_tail` still set: the recording branch runs and
leaves `recording_tail` alone. -/
theorem processSamples_both :
    ∀ (xs : List ℚ) (s : Remus), s.recording = true → s.recording_tail = true →
      s.has_recorded = false → s.write_pos + xs.length < s.loop_samples →
      s.loop_samples ≤ s.buffer_size →
      ∃ s', processSamples s xs = some (s', List.replicate xs.length 0) ∧
        s'.recording = true ∧ s'.recording_tail = true := by
  intro xs
  induction xs with
  | nil =>
    intro s h1 h2 _ _ _
    exact ⟨s, rfl, h1, h2⟩
  | cons x xs ih =>
    intro s h1 h2 h3 h4 h5
    simp only [List.length_cons] at h4
    have hstep := processSample_recording s x h1 h3 (by simp [spliceDue, h2]) (by omega) h5
    rw [if_neg (by omega)] at hstep
    obtain ⟨s', hrun, r1, r2⟩ := ih
      { s with buffer := store s.buffer s.write_pos x, write_pos := s.write_pos + 1 }
      h1 h2 h3 (by simp only; omega) h5
    refine ⟨s', ?_, r1, r2⟩
    unfold processSamples
    rw [hstep]
    simp only
    rw [hrun]
    simp [List.replicate_succ]

/-- The session with the trigger during the tail capture, continued by a
block that crosses into bar 2: recording starts over while the tail capture
is still flagged. -/
theorem session_both :
    ∃ s out, runBlocks (activate (instantiate 48000))
        [sessionPress, sessionRerecord, takePress, tailRestart] = some (s, out) ∧
      s.recording = true ∧ s.recording_tail = true := by
  obtain ⟨s3, o3, h3, hT, _, q2, q3, q4, _⟩ := session_in_tail
  obtain ⟨t1, t2, t3, t4, t5, t6, t7, t8, t9, t10, t11, t12⟩ := hT
  obtain ⟨dl, hpre⟩ := blockPrelude_trigger_crossing s3 2 0 0 [0, 0] t1 (by rw [q2]; norm_num)
    (by norm_num) (by rw [q4]; decide) (by decide) (by rw [q4]; decide) q3 t10
  obtain ⟨s4, hrun, r1, r2⟩ := processSamples_both [0, 0]
    (blockPrelude s3 ⟨[posEvent 2 0], 0, 1, [0, 0]⟩)
    (by rw [hpre]) (by rw [hpre]; exact t2) (by rw [hpre])
    (by rw [hpre]; simp only [List.length_cons, List.length_nil]; omega)
    (by rw [hpre]; simp only [t10]; decide)
  have hrun4 := run_of_processSamples s3 s4 ⟨[posEvent 2 0], 0, 1, [0, 0]⟩ _ hrun
  exact ⟨_, _, runBlocks_snoc [sessionPress, sessionRerecord, takePress] _ _ _ tailRestart _ _
    h3 hrun4, r1, r2⟩

/-! ## The scan with `loop_samples = 0` -/

/-- For a tail crossing at a position below 28 no loop position qualifies:
within distance 8 the midpoint is below 32.  The scan never leaves with
`break`. -/
theorem scanBody_no_break (t : Nat) (d : Bool) (l : Nat) (s : Remus) (ht : t < 28) :
    (scanBody t d l s).2 = false := by
  unfold scanBody
  cases crossing (s.buffer (l - 1)) (s.buffer l) with
  | none => rfl
  | some lp =>
    simp only
    split
    · rw [if_neg]
      simp only [ZERO_CROSSING_DISTANCE, CROSSFADE_SAMPLES]
      rintro ⟨h1, h2, _⟩
      have h3 := abs_le.1 h1
      omega
    · rfl

/-- The scan runs out of the loop buffer when its end lies beyond the
buffer. -/
theorem scanLoop_overrun (t : Nat) (d : Bool) (ht : t < 28) :
    ∀ (k n l : Nat) (s : Remus), l + k = s.buffer_size → k < n →
      scanLoop t d n l s = none := by
  intro k
  induction k with
  | zero =>
    intro n l s hl hn
    obtain ⟨m, rfl⟩ : ∃ m, n = m + 1 := ⟨n - 1, by omega⟩
    unfold scanLoop
    rw [if_neg (by omega)]
  | succ k ih =>
    intro n l s hl hn
    obtain ⟨m, rfl⟩ : ∃ m, n = m + 1 := ⟨n - 1, by omega⟩
    obtain ⟨md, sp, hbody⟩ := scanBody_frame t d l s
    unfold scanLoop
    rw [if_pos (by omega), if_neg (by rw [scanBody_no_break t d l s ht]; simp)]
    exact ih m (l + 1) _ (by rw [hbody]; simp only; omega) (by omega)

/-- A tail sample that forms no zero crossing, whatever the loop length. -/
theorem processSample_tail_nocross (s : Remus) (y : ℚ) (p : Nat) (hr : s.recording = false)
    (ht : s.recording_tail = true) (hh : s.has_recorded = false) (hp : s.tail_pos = p)
    (hp1 : 1 ≤ p) (hp2 : p + 1 < 1024) (hst : s.stitch_position = 0)
    (hc : crossing (s.tail_buffer (p - 1)) y = none) :
    processSample s y = some ({ s with
      tail_buffer := store s.tail_buffer p y
      tail_pos := p + 1 }, 0) := by
  have hprev : store s.tail_buffer p y (p + 1 - 1 - 1) = s.tail_buffer (p - 1) := by
    unfold store
    rw [if_neg (by omega)]
    rfl
  have hcur : store s.tail_buffer p y (p + 1 - 1) = y := by
    unfold store
    rw [if_pos (by omega)]
  have hsearch : searchCrossing { s with
      tail_buffer := store s.tail_buffer p y
      tail_pos := p + 1 } = some { s with
      tail_buffer := store s.tail_buffer p y
      tail_pos := p + 1 } := by
    unfold searchCrossing
    rw [if_pos (by simp only; omega)]
    simp only [hprev, hcur, hc]
  have hE : checkEnough { s with
      tail_buffer := store s.tail_buffer p y
      tail_pos := p + 1 } = { s with
      tail_buffer := store s.tail_buffer p y
      tail_pos := p + 1 } := by
    unfold checkEnough
    rw [if_neg (by simp [hst])]
  have hF : checkFull { s with
      tail_buffer := store s.tail_buffer p y
      tail_pos := p + 1 } = { s with
      tail_buffer := store s.tail_buffer p y
      tail_pos := p + 1 } := by
    unfold checkFull
    rw [if_neg (by simp only [TAIL_BUFFER_SIZE]; omega)]
  have hcap : captureStage s y = some { s with
      tail_buffer := store s.tail_buffer p y
      tail_pos := p + 1 } := by
    unfold captureStage
    rw [if_neg (by simp [hr]), if_pos ht, if_pos (by simp only [TAIL_BUFFER_SIZE]; omega)]
    simp only [hp, hsearch, hE, hF]
  unfold processSample
  rw [hcap]
  simp only
  rw [spliceStage_idle _ (by simp [spliceDue, ht])]
  simp only
  rw [playbackStage_silent _ (by simp [hh])]

/-- A tail sample that forms a zero crossing while `loop_samples` is 0: the
end of the scan wraps to `2^32 - 1` and the scan leaves the loop buffer. -/
theorem processSample_tail_overrun (s : Remus) (y : ℚ) (p : Nat) (d : Bool)
    (hr : s.recording = false) (ht : s.recording_tail = true) (hp : s.tail_pos = p)
    (hp1 : 1 ≤ p) (hp2 : p < 28) (hL : s.loop_samples = 0)
    (hB : s.buffer_size = MAX_BUFFER_SIZE)
    (hc : crossing (s.tail_buffer (p - 1)) y = some d) :
    processSample s y = none := by
  have hprev : store s.tail_buffer p y (p + 1 - 1 - 1) = s.tail_buffer (p - 1) := by
    unfold store
    rw [if_neg (by omega)]
    rfl
  have hcur : store s.tail_buffer p y (p + 1 - 1) = y := by
    unfold store
    rw [if_pos (by omega)]
  have hmax : MAX_BUFFER_SIZE = 14400000 := by decide
  have hsearch : searchCrossing { s with
      tail_buffer := store s.tail_buffer p y
      tail_pos := p + 1 } = none := by
    unfold searchCrossing
    rw [if_pos (by simp only; omega)]
    have hp3 : p + 1 - 1 = p := by omega
    have hus : usub 0 1 = 4294967295 := rfl
    simp only [hprev, hcur, hc, hL]
    simp only [hp3, Nat.not_lt_zero, if_false, hus]
    apply scanLoop_overrun p d hp2
      (MAX_BUFFER_SIZE - (if p > ZERO_CROSSING_DISTANCE then p - ZERO_CROSSING_DISTANCE else 1))
    · simp only [hB, hmax, ZERO_CROSSING_DISTANCE]
      split <;> omega
    · simp only [hmax, ZERO_CROSSING_DISTANCE]
      split <;> omega
  have hcap : captureStage s y = none := by
    unfold captureStage
    rw [if_neg (by simp [hr]), if_pos ht, if_pos (by simp only [TAIL_BUFFER_SIZE]; omega)]
    simp only [hp, hsearch]
  unfold processSample
  rw [hcap]

/-- A trigger during a tail capture with the loop length set to half a beat:
the latched loop length is 0, and the zero crossing in the block sends the
scan beyond the loop buffer. -/
theorem run_relatch_overrun (s : Remus) (h : TailPhase s.buffer 96000 (fun _ => 0) 0 2 s)
    (hprev : s.prev_record_enable = 1) (hsr : s.sample_rate = 48000) (hbar : s.last_bar = 1)
    (hbeat : s.last_bar_beat = 1) :
    blockRecStart s tailRelatch = true ∧ blockLoopSamples s tailRelatch = 0 ∧
      (blockPrelude s tailRelatch).loop_samples = 0 ∧
      (blockPrelude s tailRelatch).recording_tail = true ∧
      run s tailRelatch = none := by
  obtain ⟨h1, h2, h3, h4, h5, h6, h7, h8, h9, h10, h11, h12⟩ := h
  have hT : blockTransport s tailRelatch =
      { current_bar_beat := 2, current_bar := 1, transport_rolling := true, bpm := 120,
        beats_per_bar := 4 } := blockTransport_posEvent s 1 2 0 (1/8) [-1, 1]
  have hL : blockLoopSamples s tailRelatch = 0 := by
    unfold blockLoopSamples
    rw [hT, hsr]
    norm_num [new_loop_samples, toU32, u32, toNat_numeral, tailRelatch]
  have hstart : blockRecStart s tailRelatch = true := by
    unfold blockRecStart
    rw [hprev]
    norm_num [rec_start, tailRelatch]
  have hA := afterTrigger_arm s tailRelatch h1 hstart
  rw [hL, Nat.zero_min] at hA
  have hpre : blockPrelude s tailRelatch = afterTrigger s tailRelatch := by
    unfold blockPrelude afterBarCheck
    rw [checkBarBoundary_stay _ _ (by
      rw [hA, hT]
      simp only [barCrossed, hbar, hbeat]
      intro hc
      rcases hc.2.2 with hc | hc
      · exact hc.2.2 rfl
      · exact absurd hc.2.2 (by norm_num))]
    rw [playbackAlign_skip _ _ (by rw [hA]; simp [h3]), hotUpdate_skip _ _ (by rw [hA]; simp)]
  have htb : s.tail_buffer 1 = 0 := h12 1 (by omega)
  have hstep1 := processSample_tail_nocross (blockPrelude s tailRelatch) (-1) 2
    (by rw [hpre, hA]; exact h1) (by rw [hpre, hA]; exact h2) (by rw [hpre, hA]; exact h3)
    (by rw [hpre, hA]; exact h5) (by omega) (by omega) (by rw [hpre, hA]; exact h4)
    (by
      rw [hpre, hA]
      simp only [Nat.add_one_sub_one, htb]
      norm_num [crossing])
  have hstep2 := processSample_tail_overrun { blockPrelude s tailRelatch with
      tail_buffer := store (blockPrelude s tailRelatch).tail_buffer 2 (-1)
      tail_pos := 2 + 1 } 1 3 true
    (by rw [hpre, hA]; exact h1) (by rw [hpre, hA]; exact h2) rfl (by omega) (by omega)
    (by rw [hpre, hA]) (by rw [hpre, hA]; exact h10)
    (by norm_num [store, crossing])
  refine ⟨hstart, hL, by rw [hpre, hA], by rw [hpre, hA]; exact h2, ?_⟩
  have hps : processSamples (blockPrelude s tailRelatch) [-1, 1] = none := by
    unfold processSamples
    rw [hstep1]
    simp only
    unfold processSamples
    rw [hstep2]
  unfold run
  have haudio : tailRelatch.audio_in = [-1, 1] := rfl
  rw [haudio, hps]

/-! ## Output of the sample that completes a tail capture -/

/-- A tail capture without any qualifying match, in an engine whose `playing`
flag is set and whose `read_pos` is 0: the 1024th sample completes the
capture and its output is the spliced loop at position 0, the first tail
sample. -/
theorem tail_fallback_out (s : Remus) (xs : List ℚ) (y : ℚ)
    (hph : TailPhase s.buffer s.loop_samples (fun k => (xs ++ [y]).getD k 0) 0 0 s)
    (hlen : xs.length = 1023)
    (hno : ∀ t, 1 ≤ t → t < 1024 → ∀ d,
      crossing ((xs ++ [y]).getD (t - 1) 0) ((xs ++ [y]).getD t 0) = some d →
      ∀ k, max 1 (t - 8) ≤ k → k ≤ min (t + 8) (s.loop_samples - 1) →
        ¬ loopMatch s.buffer t d k)
    (hpl : s.playing = true) (hrp : s.read_pos = 0) :
    ∃ s', processSamples s (xs ++ [y]) =
        some (s', List.replicate 1023 0 ++ [(xs ++ [y]).getD 0 0]) ∧
      s'.recording_tail = false ∧ s'.has_recorded = true := by
  obtain ⟨s1, hrun1, hp1⟩ := tail_unset_run s xs y hph hlen hno 1023 (le_refl _)
  have htake : xs.take 1023 = xs := by rw [← hlen, List.take_length]
  rw [htake] at hrun1
  have hT1 := hp1
  obtain ⟨h1, h2, h3, h4, h5, h6, h7, h8, h9, h10, h11, h12⟩ := hp1
  obtain ⟨a1, _, _⟩ := processSamples_quiet _ _ _ _ hrun1 h3
  obtain ⟨_, _, _, f4, _⟩ := processSamples_frame _ _ _ _ hrun1
  obtain ⟨zc, md, sp2, hcap, _, hN, _⟩ := captureStage_tail s1 y h1 h2
    (by rw [h5]; omega) (by rw [h7]; exact h8) (by rw [h7]; exact h9) h10
  have hy : (xs ++ [y]).getD 1023 0 = y := by
    simp only [List.getD_eq_getElem?_getD]
    rw [List.getElem?_append_right (by omega), hlen]
    simp
  have hsp2 : sp2 = 0 := by
    apply hN h4
    intro d hd hc k hk1 hk2
    rw [h5] at hd hc hk1 hk2
    rw [h12 (1023 - 1) (by omega)] at hc
    rw [h6, h5]
    rw [h7] at hk2
    exact hno 1023 (by omega) (by omega) d (by rw [hy]; exact hc) k hk1 hk2
  rw [hsp2] at hcap
  obtain ⟨s', out, hstep, _, q2, q3, _, _, _, _, _, _, _, q11⟩ :=
    tail_complete_out _ _ _ 0 1023 s1 _ y zc md 0 hT1 hcap rfl (Or.inl ⟨rfl, rfl⟩)
  have hout : out = (xs ++ [y]).getD 0 0 := by
    rw [q11, f4, hpl, a1, hrp]
    simp only [if_true, splicedBuffer, store]
    rw [h12 0 (by omega)]
    simp
  refine ⟨s', ?_, q2, q3⟩
  rw [← hout]
  exact processSamples_append _ _ _ _ _ _ _ hrun1 (processSamples_single _ _ _ _ hstep)

/-- A trigger in a rolling block that crosses into a new bar while the
`playing` flag is set, followed in the same block by the 96000 samples of the
loop and by 1024 tail samples of value 1: the output of the last tail sample
is 1. -/
theorem run_record_ones (s : Remus) (bar : Int) (beat r : ℚ) (xs : List ℚ)
    (hrec : s.recording = false) (hprev : s.prev_record_enable > 1/2) (hr : r ≤ 1/2)
    (hlast : s.last_bar ≥ 0) (hbar : bar ≥ 0) (hne : bar ≠ s.last_bar)
    (hsr : s.sample_rate = 48000) (hB : s.buffer_size = MAX_BUFFER_SIZE)
    (hst : s.stitch_position = 0) (hlen : xs.length = 96000) (hpl : s.playing = true) :
    ∃ s', run s ⟨[posEvent bar beat], r, 1, xs ++ (List.replicate 1023 1 ++ [1])⟩ =
        some (s', List.replicate 96000 0 ++ (List.replicate 1023 0 ++ [1])) ∧
      s'.recording_tail = false ∧ s'.has_recorded = true := by
  obtain ⟨dl, hpre⟩ := blockPrelude_trigger_crossing s bar beat r
    (xs ++ (List.replicate 1023 1 ++ [1])) hrec hprev hr hlast hbar hne hsr hB
  have hph : RecPhase 96000 (fun k => xs.getD k 0) 0
      (blockPrelude s ⟨[posEvent bar beat], r, 1, xs ++ (List.replicate 1023 1 ++ [1])⟩) := by
    rw [hpre]
    refine ⟨rfl, by simp only [hB]; decide, rfl, rfl, fun k hk => absurd hk (by omega),
      fun _ => ⟨rfl, rfl, ?_⟩, fun h => absurd h (by decide)⟩
    simp [spliceDue, hst]
  obtain ⟨s1, hrun1, hph1, _, hrp1⟩ := processSamples_recPhase 96000 _ xs 0 _ hph
    (by omega) (by intro i _; simp)
  obtain ⟨f1, _, _, f4, _⟩ := processSamples_frame _ _ _ _ hrun1
  rw [Nat.zero_add, hlen] at hph1
  rw [hlen] at hrun1
  obtain ⟨p1, p2, p3, _, _, _, pend⟩ := hph1
  obtain ⟨e1, e2, e3, e4, _, _⟩ := pend rfl
  have hB1 : s1.buffer_size = MAX_BUFFER_SIZE := by rw [f1, hpre]; exact hB
  have hone : ∀ i, i < 1024 → (List.replicate 1023 (1 : ℚ) ++ [1]).getD i 0 = 1 := by
    intro i hi
    have hrep : List.replicate 1023 (1 : ℚ) ++ [1] = List.replicate 1024 1 := by
      rw [← List.replicate_succ']
    rw [hrep, List.getD_eq_getElem?_getD, List.getElem?_replicate, if_pos hi]
    rfl
  have hrp0 : s1.read_pos = 0 := by rw [hrp1, hpre]
  have hrp : s1.read_pos < s1.buffer_size := by
    rw [hrp0, hB1]
    decide
  obtain ⟨s3, hrun3, q2, q3⟩ := tail_fallback_out s1 (List.replicate 1023 1) 1
    ⟨e1, e2, p3, e4, e3, rfl, rfl, by rw [p1]; decide, by rw [p1, hB1]; decide, hB1,
      hrp, fun k hk => absurd hk (by omega)⟩
    (by rw [List.length_replicate])
    (by
      intro t ht1 ht2 d hc
      rw [hone (t - 1) (by omega), hone t ht2] at hc
      have hnone : crossing (1 : ℚ) 1 = none := by
        unfold crossing
        norm_num
      rw [hnone] at hc
      exact absurd hc (by simp))
    (by rw [f4, hpre]; exact hpl) hrp0
  rw [hone 0 (by omega)] at hrun3
  have happ := processSamples_append _ _ _ _ _ _ _ hrun1 hrun3
  exact ⟨_, run_of_processSamples s s3 ⟨[posEvent bar beat], r, 1,
    xs ++ (List.replicate 1023 1 ++ [1])⟩ _ happ, q2, q3⟩

/-- The session with the loop playing, continued by a new take whose tail is a
constant signal: the output of the sample that completes the tail capture is
not silent. -/
theorem session_output_in_tail :
    ∃ s o s', runBlocks (activate (instantiate 48000))
        [sessionPress, sessionRecord, sessionPress] = some (s, o) ∧
      s.playing = true ∧
      run s sessionRecordOnes =
        some (s', List.replicate 96000 0 ++ (List.replicate 1023 0 ++ [1])) ∧
      s'.recording_tail = false ∧ s'.has_recorded = true := by
  obtain ⟨s3, o3, h3, q1, q2, _, _, q5, _, q7, _, q9, q10, q11⟩ := session_playing
  obtain ⟨s4, h4, r1, r2⟩ := run_record_ones s3 1 0 0 (List.replicate 96000 0)
    q2 (by rw [q9]; norm_num) (by norm_num) (by rw [q11]) (by decide) (by rw [q11]; decide)
    q10 q7 q5 (List.length_replicate 96000 0) q1
  exact ⟨s3, o3, s4, h3, q1, h4, r1, r2⟩


/-! ## The shape of the steps of the sample loop -/

theorem scanBody_form (t : Nat) (d : Bool) (l : Nat) (s : Remus) :
    ∃ md sp, (scanBody t d l s).1 = { s with tail_min_distance := md, stitch_position := sp } ∧
      (sp = s.stitch_position ∨ (s.stitch_position = 0 ∧ 33 ≤ sp ∧ sp ≤ 991)) := by
  unfold scanBody
  cases crossing (s.buffer (l - 1)) (s.buffer l) with
  | none => exact ⟨s.tail_min_distance, s.stitch_position, rfl, Or.inl rfl⟩
  | some lp =>
    simp only
    split
    · split
      · split
        · rename_i hc
          simp only [CROSSFADE_SAMPLES, TAIL_BUFFER_SIZE] at hc
          exact ⟨_, _, rfl, Or.inr ⟨hc.2.2.2, by omega, by omega⟩⟩
        · exact ⟨_, _, rfl, Or.inl rfl⟩
      · split
        · rename_i hc
          simp only [CROSSFADE_SAMPLES, TAIL_BUFFER_SIZE] at hc
          exact ⟨_, _, rfl, Or.inr ⟨hc.2.2.2, by omega, by omega⟩⟩
        · exact ⟨_, _, rfl, Or.inl rfl⟩
    · exact ⟨s.tail_min_distance, s.stitch_position, rfl, Or.inl rfl⟩

theorem scanLoop_form (t : Nat) (d : Bool) :
    ∀ (n l : Nat) (s s' : Remus), scanLoop t d n l s = some s' →
      ∃ md sp, s' = { s with tail_min_distance := md, stitch_position := sp } ∧
        (sp = s.stitch_position ∨ (s.stitch_position = 0 ∧ 33 ≤ sp ∧ sp ≤ 991)) := by
  intro n
  induction n with
  | zero =>
    intro l s s' h
    simp only [scanLoop, Option.some.injEq] at h
    rw [← h]
    exact ⟨s.tail_min_distance, s.stitch_position, rfl, Or.inl rfl⟩
  | succ n ih =>
    intro l s s' h
    obtain ⟨md, sp, hbody, hsp⟩ := scanBody_form t d l s
    unfold scanLoop at h
    split at h
    · split at h
      · simp only [Option.some.injEq] at h
        rw [← h, hbody]
        exact ⟨md, sp, rfl, hsp⟩
      · obtain ⟨md2, sp2, h2, hsp2⟩ := ih _ _ _ h
        rw [hbody] at h2 hsp2
        refine ⟨md2, sp2, h2, ?_⟩
        simp only at hsp2
        rcases hsp2 with e | ⟨e0, e1, e2⟩
        · rw [e]
          exact hsp
        · rcases hsp with f | ⟨f0, _, _⟩
          · exact Or.inr ⟨by rw [← f]; exact e0, e1, e2⟩
          · exact Or.inr ⟨f0, e1, e2⟩
    · exact absurd h (by simp)

theorem searchCrossing_form (s s' : Remus) (h : searchCrossing s = some s') :
    ∃ zc md sp, s' = { s with tail_zero_crossings := zc, tail_min_distance := md,
                              stitch_position := sp } ∧
      (sp = s.stitch_position ∨ (s.stitch_position = 0 ∧ 33 ≤ sp ∧ sp ≤ 991)) := by
  unfold searchCrossing at h
  split at h
  · simp only at h
    cases hc : crossing (s.tail_buffer (s.tail_pos - 1 - 1)) (s.tail_buffer (s.tail_pos - 1)) with
    | none =>
      rw [hc] at h
      simp only [Option.some.injEq] at h
      rw [← h]
      exact ⟨s.tail_zero_crossings, s.tail_min_distance, s.stitch_position, rfl, Or.inl rfl⟩
    | some d =>
      rw [hc] at h
      simp only at h
      obtain ⟨md, sp, h2, hsp⟩ := scanLoop_form _ _ _ _ _ _ h
      exact ⟨_, md, sp, h2, hsp⟩
  · simp only [Option.some.injEq] at h
    rw [← h]
    exact ⟨s.tail_zero_crossings, s.tail_min_distance, s.stitch_position, rfl, Or.inl rfl⟩

/-- The four ways the capture branch of one sample can end: nothing changes,
a loop sample is written, the last loop sample is written and the tail
capture starts, or a tail sample is appended. -/
theorem captureStage_cases (s c : Remus) (x : ℚ) (h : captureStage s x = some c) :
    c = s ∨
    (s.recording = true ∧ s.write_pos + 1 < s.loop_samples ∧
      c = { s with buffer := store s.buffer s.write_pos x, write_pos := s.write_pos + 1 }) ∨
    (s.recording = true ∧ s.write_pos < s.loop_samples ∧ s.write_pos + 1 ≥ s.loop_samples ∧
      c = { s with buffer := store s.buffer s.write_pos x, write_pos := s.write_pos + 1,
                   recording := false, recording_tail := true, tail_pos := 0,
                   tail_zero_crossings := 0, tail_min_distance := 1024,
                   stitch_position := 0 }) ∨
    (s.recording = false ∧ s.recording_tail = true ∧ s.tail_pos < 1024 ∧
      ∃ zc md sp, c = checkFull (checkEnough { s with
          tail_buffer := store s.tail_buffer s.tail_pos x
          tail_pos := s.tail_pos + 1
          tail_zero_crossings := zc
          tail_min_distance := md
          stitch_position := sp }) ∧
        (sp = s.stitch_position ∨ (s.stitch_position = 0 ∧ 33 ≤ sp ∧ sp ≤ 991))) := by
  unfold captureStage at h
  split at h
  · rename_i hr
    split at h
    · rename_i hw
      split at h
      · simp only at h
        split at h
        · rename_i hfill
          simp only [Option.some.injEq] at h
          exact Or.inr (Or.inr (Or.inl ⟨hr, hw, hfill, h.symm⟩))
        · rename_i hfill
          simp only [Option.some.injEq] at h
          exact Or.inr (Or.inl ⟨hr, by omega, h.symm⟩)
      · exact absurd h (by simp)
    · simp only [Option.some.injEq] at h
      exact Or.inl h.symm
  · rename_i hr
    split at h
    · rename_i ht
      split at h
      · rename_i hp
        simp only at h
        split at h
        · rename_i s2 hs2
          simp only [Option.some.injEq] at h
          obtain ⟨zc, md, sp, hform, hsp⟩ := searchCrossing_form _ _ hs2
          refine Or.inr (Or.inr (Or.inr ⟨by simpa using hr, ht,
            by simpa [TAIL_BUFFER_SIZE] using hp, zc, md, sp, ?_, hsp⟩))
          rw [← h, hform]
        · exact absurd h (by simp)
      · simp only [Option.some.injEq] at h
        exact Or.inl h.symm
    · simp only [Option.some.injEq] at h
      exact Or.inl h.symm

theorem spliceStage_cases (s s' : Remus) (h : spliceStage s = some s') :
    s' = s ∨ ∃ buf, s' = { s with buffer := buf, tail_pos := 0, stitch_position := 0 } := by
  unfold spliceStage at h
  split at h
  · simp only at h
    split at h
    · split at h
      · simp only [Option.some.injEq] at h
        exact Or.inr ⟨_, h.symm⟩
      · exact absurd h (by simp)
    · exact absurd h (by simp)
  · simp only [Option.some.injEq] at h
    exact Or.inl h.symm

theorem playbackStage_form (s s' : Remus) (o : ℚ) (h : playbackStage s = some (s', o)) :
    ∃ rp, s' = { s with read_pos := rp } := by
  unfold playbackStage at h
  split at h
  · split at h
    · simp only [Option.some.injEq, Prod.mk.injEq] at h
      rw [← h.1]
      split
      · exact ⟨_, rfl⟩
      · exact ⟨_, rfl⟩
    · exact absurd h (by simp)
  · simp only [Option.some.injEq, Prod.mk.injEq] at h
    rw [← h.1]
    exact ⟨s.read_pos, rfl⟩

/-- The end-of-capture checks on a tail capture in progress keep the tail
bounds, and end the capture only with the crossfade window complete. -/
theorem checkTail_tailInv (u : Remus) (h1 : u.tail_pos ≤ 1024)
    (h2 : u.stitch_position = 0 ∨ (32 ≤ u.stitch_position ∧ u.stitch_position ≤ 991))
    (h3 : u.recording_tail = true) : TailInv (checkFull (checkEnough u)) := by
  unfold checkFull checkEnough TailInv spliceDue
  simp only [CROSSFADE_SAMPLES, TAIL_BUFFER_SIZE, u32]
  split_ifs <;> simp_all <;> omega

theorem checkTail_write (u : Remus) :
    (checkFull (checkEnough u)).recording = u.recording ∧
      (checkFull (checkEnough u)).write_pos = u.write_pos ∧
      (checkFull (checkEnough u)).loop_samples = u.loop_samples := by
  unfold checkFull checkEnough
  simp only
  split_ifs <;> exact ⟨rfl, rfl, rfl⟩

/-! ## The tail bounds are kept by the sample loop -/

theorem captureStage_tailInv (s c : Remus) (x : ℚ) (h : captureStage s x = some c)
    (hi : TailInv s) : TailInv c := by
  obtain ⟨i1, i2, i3⟩ := hi
  rcases captureStage_cases s c x h with e | ⟨_, _, e⟩ | ⟨_, _, _, e⟩ |
    ⟨_, ht, hp, zc, md, sp, e, hsp⟩
  · rw [e]
    exact ⟨i1, i2, i3⟩
  · rw [e]
    exact ⟨i1, i2, i3⟩
  · rw [e]
    exact ⟨Nat.zero_le _, Or.inl rfl, fun hd => absurd hd.1 (by simp)⟩
  · rw [e]
    apply checkTail_tailInv
    · simp only
      omega
    · simp only
      rcases hsp with f | ⟨_, f1, f2⟩
      · rw [f]
        exact i2
      · exact Or.inr ⟨by omega, f2⟩
    · exact ht

theorem spliceStage_tailInv (s s' : Remus) (h : spliceStage s = some s') (hi : TailInv s) :
    TailInv s' := by
  rcases spliceStage_cases s s' h with e | ⟨buf, e⟩
  · rw [e]
    exact hi
  · rw [e]
    exact ⟨Nat.zero_le _, Or.inl rfl, fun hd => absurd hd.2.1 (by simp)⟩

theorem playbackStage_tailInv (s s' : Remus) (o : ℚ) (h : playbackStage s = some (s', o))
    (hi : TailInv s) : TailInv s' := by
  obtain ⟨rp, e⟩ := playbackStage_form s s' o h
  rw [e]
  exact hi

theorem processSample_tailInv (s s' : Remus) (x o : ℚ) (h : processSample s x = some (s', o))
    (hi : TailInv s) : TailInv s' := by
  unfold processSample at h
  split at h
  · rename_i s1 h1
    split at h
    · rename_i s2 h2
      exact playbackStage_tailInv _ _ _ h
        (spliceStage_tailInv _ _ h2 (captureStage_tailInv _ _ _ h1 hi))
    · exact absurd h (by simp)
  · exact absurd h (by simp)

theorem processSamples_tailInv :
    ∀ (xs : List ℚ) (s s' : Remus) (out : List ℚ), processSamples s xs = some (s', out) →
      TailInv s → TailInv s' := by
  intro xs
  induction xs with
  | nil =>
    intro s s' out h hi
    simp only [processSamples, Option.some.injEq, Prod.mk.injEq] at h
    rw [← h.1]
    exact hi
  | cons x xs ih =>
    intro s s' out h hi
    unfold processSamples at h
    split at h
    · rename_i s1 y h1
      split at h
      · rename_i s2 ys2 h2
        simp only [Option.some.injEq, Prod.mk.injEq] at h
        rw [← h.1]
        exact ih _ _ _ h2 (processSample_tailInv _ _ _ _ h1 hi)
      · exact absurd h (by simp)
    · exact absurd h (by simp)

/-! ## The write position while recording -/

theorem processSample_writeInv (s s' : Remus) (x o : ℚ) (h : processSample s x = some (s', o))
    (hi : WriteInv s) : WriteInv s' := by
  unfold processSample at h
  split at h
  · rename_i s1 h1
    split at h
    · rename_i s2 h2
      have hc : WriteInv s1 := by
        rcases captureStage_cases s s1 x h1 with e | ⟨_, hw, e⟩ | ⟨_, _, _, e⟩ |
          ⟨hr, _, _, zc, md, sp, e, _⟩
        · rw [e]
          exact hi
        · rw [e]
          intro _
          exact Nat.le_of_lt hw
        · rw [e]
          intro hrec
          exact absurd hrec (by simp)
        · rw [e]
          intro hrec
          rw [(checkTail_write _).1] at hrec
          exact absurd hrec (by simp [hr])
      have hs : WriteInv s2 := by
        rcases spliceStage_cases s1 s2 h2 with e | ⟨buf, e⟩
        · rw [e]
          exact hc
        · rw [e]
          exact hc
      obtain ⟨rp, e⟩ := playbackStage_form s2 s' o h
      rw [e]
      exact hs
    · exact absurd h (by simp)
  · exact absurd h (by simp)

theorem processSamples_writeInv :
    ∀ (xs : List ℚ) (s s' : Remus) (out : List ℚ), processSamples s xs = some (s', out) →
      WriteInv s → WriteInv s' := by
  intro xs
  induction xs with
  | nil =>
    intro s s' out h hi
    simp only [processSamples, Option.some.injEq, Prod.mk.injEq] at h
    rw [← h.1]
    exact hi
  | cons x xs ih =>
    intro s s' out h hi
    unfold processSamples at h
    split at h
    · rename_i s1 y h1
      split at h
      · rename_i s2 ys2 h2
        simp only [Option.some.injEq, Prod.mk.injEq] at h
        rw [← h.1]
        exact ih _ _ _ h2 (processSample_writeInv _ _ _ _ h1 hi)
      · exact absurd h (by simp)
    · exact absurd h (by simp)

/-- While the engine is not recording, the sample loop leaves `write_pos`
alone. -/
theorem processSample_write_idle (s s' : Remus) (x o : ℚ)
    (h : processSample s x = some (s', o)) (hr : s.recording = false) :
    s'.write_pos = s.write_pos ∧ s'.recording = false := by
  unfold processSample at h
  split at h
  · rename_i s1 h1
    split at h
    · rename_i s2 h2
      have hc : s1.write_pos = s.write_pos ∧ s1.recording = false := by
        rcases captureStage_cases s s1 x h1 with e | ⟨h0, _, _⟩ | ⟨h0, _, _, _⟩ |
          ⟨_, _, _, zc, md, sp, e, _⟩
        · rw [e]
          exact ⟨rfl, hr⟩
        · rw [hr] at h0
          exact absurd h0 (by simp)
        · rw [hr] at h0
          exact absurd h0 (by simp)
        · rw [e, (checkTail_write _).1, (checkTail_write _).2.1]
          exact ⟨rfl, hr⟩
      have hs : s2.write_pos = s.write_pos ∧ s2.recording = false := by
        rcases spliceStage_cases s1 s2 h2 with e | ⟨buf, e⟩
        · rw [e]
          exact hc
        · rw [e]
          exact hc
      obtain ⟨rp, e⟩ := playbackStage_form s2 s' o h
      rw [e]
      exact hs
    · exact absurd h (by simp)
  · exact absurd h (by simp)

theorem processSamples_write_idle :
    ∀ (xs : List ℚ) (s s' : Remus) (out : List ℚ), processSamples s xs = some (s', out) →
      s.recording = false → s'.write_pos = s.write_pos ∧ s'.recording = false := by
  intro xs
  induction xs with
  | nil =>
    intro s s' out h hr
    simp only [processSamples, Option.some.injEq, Prod.mk.injEq] at h
    rw [← h.1]
    exact ⟨rfl, hr⟩
  | cons x xs ih =>
    intro s s' out h hr
    unfold processSamples at h
    split at h
    · rename_i s1 y h1
      split at h
      · rename_i s2 ys2 h2
        simp only [Option.some.injEq, Prod.mk.injEq] at h
        rw [← h.1]
        obtain ⟨a1, a2⟩ := processSample_write_idle _ _ _ _ h1 hr
        obtain ⟨b1, b2⟩ := ih _ _ _ h2 a2
        exact ⟨by rw [b1, a1], b2⟩
      · exact absurd h (by simp)
    · exact absurd h (by simp)

/-! ## The invariants through the block prelude -/

theorem afterTrigger_tailInv (s : Remus) (b : Block) (hi : TailInv s) :
    TailInv (afterTrigger s b) := by
  obtain ⟨i1, i2, i3⟩ := hi
  unfold afterTrigger armOnTrigger stopOnRestart
  simp only
  split_ifs <;>
    first
    | exact ⟨i1, i2, i3⟩
    | exact ⟨Nat.zero_le _, i2, fun hd => absurd hd.2.2 (by simp)⟩

theorem checkBarBoundary_tailInv (s : Remus) (t : Transport) (hi : TailInv s) :
    TailInv (checkBarBoundary s t) := by
  unfold checkBarBoundary
  split_ifs <;> exact hi

theorem blockPrelude_tailInv (s : Remus) (b : Block) (hi : TailInv s) :
    TailInv (blockPrelude s b) := by
  obtain ⟨pl, wp, rp, L, h⟩ := blockPrelude_frame s b
  rw [h]
  exact checkBarBoundary_tailInv _ _ (afterTrigger_tailInv s b hi)

theorem run_tailInv (s s' : Remus) (b : Block) (out : List ℚ) (h : run s b = some (s', out))
    (hi : TailInv s) : TailInv s' := by
  obtain ⟨s1, hps, _, hs'⟩ := run_frame s s' b out h
  have h1 : TailInv s1 := processSamples_tailInv _ _ s1 _ hps (blockPrelude_tailInv s b hi)
  rw [hs']
  exact h1

theorem restore_tail (s : Remus) (st : Storage) :
    (restore s st).tail_pos = s.tail_pos ∧
      (restore s st).stitch_position = s.stitch_position ∧
      (restore s st).recording_tail = s.recording_tail := by
  unfold restore
  rcases st.remus_loop_samples with _ | ⟨n, ty⟩ <;>
    rcases st.remus_has_recorded with _ | ⟨m, ty2⟩ <;>
    rcases st.remus_buffer with _ | ⟨data, ty3⟩ <;>
    (try simp only) <;> (try split_ifs) <;>
    first
    | exact ⟨rfl, rfl, rfl⟩
    | exact ⟨trivial, trivial, trivial⟩

theorem restore_tailInv (s : Remus) (st : Storage) (hi : TailInv s) :
    TailInv (restore s st) := by
  obtain ⟨a, b, c⟩ := restore_tail s st
  unfold TailInv spliceDue
  rw [a, b, c]
  exact hi

theorem reachableR_tailInv (s : Remus) (h : ReachableR s) : TailInv s := by
  induction h with
  | fresh rate => exact ⟨Nat.zero_le _, Or.inl rfl, fun hd => absurd hd.2.1 (by simp [instantiate])⟩
  | activated s _ _ =>
    exact ⟨Nat.zero_le _, Or.inl rfl, fun hd => absurd hd.2.1 (by simp [activate])⟩
  | step s b s' out _ hrun ih => exact run_tailInv s s' b out hrun ih
  | restored s st _ ih => exact restore_tailInv s st ih

theorem reachable_reachableR (s : Remus) (h : Reachable s) : ReachableR s := by
  induction h with
  | init rate => exact ReachableR.activated _ (ReachableR.fresh rate)
  | step s b s' out _ hrun ih => exact ReachableR.step s b s' out ih hrun

/-! ## The loop length stays within the buffer -/

theorem hotUpdate_capInv (u : Remus) (n : Nat) (hi : CapInv u) : CapInv (hotUpdate u n) := by
  obtain ⟨i1, i2⟩ := hi
  unfold hotUpdate CapInv
  simp only
  split_ifs <;> simp_all

theorem checkBarBoundary_loop (a : Remus) (t : Transport) :
    (checkBarBoundary a t).loop_samples = a.loop_samples := by
  unfold checkBarBoundary
  split_ifs <;> rfl

theorem afterTrigger_capInv (s : Remus) (b : Block) (hi : CapInv s) :
    CapInv (afterTrigger s b) := by
  obtain ⟨i1, i2⟩ := hi
  have hB := (afterTrigger_last s b).2.2.2
  refine ⟨?_, by rw [hB]; exact i2⟩
  rw [hB]
  cases ht : blockRecStart s b with
  | true =>
    rw [afterTrigger_latch s b ht]
    exact Nat.min_le_right _ _
  | false =>
    rw [afterTrigger_noTrigger s b ht]
    exact i1

theorem blockPrelude_capInv (s : Remus) (b : Block) (hi : CapInv s) :
    CapInv (blockPrelude s b) := by
  have h1 := afterTrigger_capInv s b hi
  have h2 : CapInv (afterBarCheck s b) := by
    unfold afterBarCheck CapInv
    rw [checkBarBoundary_loop, (checkBarBoundary_buffer _ _).2]
    exact h1
  have h3 : CapInv (playbackAlign (afterBarCheck s b) (blockTransport s b)) := by
    obtain ⟨pl, wp, rp, e⟩ := playbackAlign_frame (afterBarCheck s b) (blockTransport s b)
    rw [e]
    exact h2
  exact hotUpdate_capInv _ _ h3

theorem run_capInv (s s' : Remus) (b : Block) (out : List ℚ) (h : run s b = some (s', out))
    (hi : CapInv s) : CapInv s' := by
  obtain ⟨s1, _, hf, hs'⟩ := run_frame s s' b out h
  obtain ⟨f1, f2, _⟩ := hf
  obtain ⟨p1, p2⟩ := blockPrelude_capInv s b hi
  have h1 : CapInv s1 := ⟨by rw [f1, f2]; exact p1, by rw [f1]; exact p2⟩
  rw [hs']
  exact h1

theorem restore_capInv (s : Remus) (st : Storage) (hi : CapInv s) : CapInv (restore s st) := by
  obtain ⟨i1, i2⟩ := hi
  unfold restore CapInv
  rcases st.remus_loop_samples with _ | ⟨n, ty⟩ <;>
    rcases st.remus_has_recorded with _ | ⟨m, ty2⟩ <;>
    rcases st.remus_buffer with _ | ⟨data, ty3⟩ <;>
    (try simp only) <;> (try split_ifs) <;> (try simp only) <;>
    first
    | exact ⟨i1, i2⟩
    | exact ⟨Nat.le_refl _, i2⟩
    | exact ⟨by omega, i2⟩

theorem activate_capInv (s : Remus) (hi : CapInv s) : CapInv (activate s) := by
  obtain ⟨_, i2⟩ := hi
  unfold activate CapInv
  simp only
  split_ifs <;> exact ⟨Nat.zero_le _, i2⟩

theorem reachableR_capInv (s : Remus) (h : ReachableR s) : CapInv s := by
  induction h with
  | fresh rate => exact ⟨Nat.zero_le _, rfl⟩
  | activated s _ ih => exact activate_capInv s ih
  | step s b s' out _ hrun ih => exact run_capInv s s' b out hrun ih
  | restored s st _ ih => exact restore_capInv s st ih

/-! ## The write position through the block prelude -/

theorem armOnTrigger_recording (x : Remus) (r : Bool) (n : Nat) :
    (armOnTrigger x r n).recording = x.recording := by
  unfold armOnTrigger
  simp only
  split_ifs <;> rfl

theorem stopOnRestart_stops (x : Remus) : (stopOnRestart x true).recording = false := by
  unfold stopOnRestart
  by_cases hx : x.recording = true
  · rw [if_pos ⟨hx, rfl⟩]
    simp only
    rw [if_pos hx]
    split <;> rfl
  · rw [if_neg (fun h => hx h.1)]
    simpa using hx

theorem afterTrigger_stops (s : Remus) (b : Block) (ht : blockRecStart s b = true) :
    (afterTrigger s b).recording = false := by
  unfold afterTrigger
  rw [ht]
  simp only
  rw [armOnTrigger_recording]
  exact stopOnRestart_stops _

theorem afterTrigger_writeInv (s : Remus) (b : Block) (hi : WriteInv s) :
    WriteInv (afterTrigger s b) := by
  cases ht : blockRecStart s b with
  | true =>
    intro hrec
    rw [afterTrigger_stops s b ht] at hrec
    exact absurd hrec (by simp)
  | false =>
    rw [afterTrigger_noTrigger s b ht]
    exact hi

theorem checkBarBoundary_writeInv (a : Remus) (t : Transport) (hi : WriteInv a) :
    WriteInv (checkBarBoundary a t) := by
  unfold checkBarBoundary
  split_ifs
  · intro _
    exact Nat.zero_le _
  · intro _
    exact Nat.zero_le _
  · exact hi
  · exact hi

theorem blockPrelude_writeInv (s : Remus) (b : Block) (hi : WriteInv s) :
    WriteInv (blockPrelude s b) := by
  have h2 : WriteInv (afterBarCheck s b) :=
    checkBarBoundary_writeInv _ _ (afterTrigger_writeInv s b hi)
  have h3 : WriteInv (playbackAlign (afterBarCheck s b) (blockTransport s b)) := by
    obtain ⟨pl, wp, rp, e⟩ := playbackAlign_frame (afterBarCheck s b) (blockTransport s b)
    rw [e]
    exact h2
  unfold blockPrelude
  cases hr : (playbackAlign (afterBarCheck s b) (blockTransport s b)).recording with
  | true =>
    rw [hotUpdate_skip _ _ (by simp [hr])]
    exact h3
  | false =>
    obtain ⟨L, rp, e, _⟩ := hotUpdate_frame
      (playbackAlign (afterBarCheck s b) (blockTransport s b)) (blockLoopSamples s b)
    rw [e]
    intro hrec
    rw [hr] at hrec
    exact absurd hrec (by simp)

theorem run_writeInv (s s' : Remus) (b : Block) (out : List ℚ) (h : run s b = some (s', out))
    (hi : WriteInv s) : WriteInv s' := by
  obtain ⟨s1, hps, _, hs'⟩ := run_frame s s' b out h
  have h1 : WriteInv s1 := processSamples_writeInv _ _ s1 _ hps (blockPrelude_writeInv s b hi)
  rw [hs']
  exact h1

theorem reachable_writeInv (s : Remus) (h : Reachable s) : WriteInv s := by
  induction h with
  | init rate =>
    intro hrec
    exact absurd hrec (by simp [activate])
  | step s b s' out _ hrun ih => exact run_writeInv s s' b out hrun ih


/-! ## Sessions with a changed loop length -/

/-- A trigger, while not recording, in a rolling block with a bar crossing:
the engine is recording from the first sample, with the latched loop
length. -/
theorem blockPrelude_start (s : Remus) (b : Block) (hrec : s.recording = false)
    (ht : blockRecStart s b = true) (hroll : (blockTransport s b).transport_rolling = true)
    (hc : barCrossed s (blockTransport s b)) :
    blockPrelude s b = { s with
      debug_logged := if s.debug_logged = false ∧ s.has_recorded = true then true
        else s.debug_logged
      transport_bpm := (blockTransport s b).bpm
      transport_beats_per_bar := (blockTransport s b).beats_per_bar
      prev_record_enable := b.rec_enable
      waiting_for_bar := false
      loop_samples := min (blockLoopSamples s b) s.buffer_size
      recording := true
      write_pos := 0
      read_pos := 0
      has_recorded := false } := by
  have hA := afterTrigger_arm s b hrec ht
  unfold blockPrelude afterBarCheck
  rw [checkBarBoundary_start (afterTrigger s b) _ (by rw [hA]) hroll
    ((barCrossed_afterTrigger s b _).2 hc)]
  rw [playbackAlign_skip _ _ (by simp), hotUpdate_skip _ _ (by simp), hA]

/-- Recording with `loop_samples = 0`: the test `write_pos < loop_samples`
fails, nothing is written and the end of the loop is never detected. -/
theorem processSample_stuck (s : Remus) (x : ℚ) (hr : s.recording = true)
    (hL : s.loop_samples = 0) (hh : s.has_recorded = false) (hnd : ¬ spliceDue s) :
    processSample s x = some (s, 0) := by
  unfold processSample captureStage
  rw [if_pos hr, if_neg (by omega)]
  simp only
  rw [spliceStage_idle s hnd]
  simp only
  rw [playbackStage_silent s (by simp [hh])]

theorem processSamples_stuck :
    ∀ (xs : List ℚ) (s : Remus), s.recording = true → s.loop_samples = 0 →
      s.has_recorded = false → ¬ spliceDue s →
      processSamples s xs = some (s, List.replicate xs.length 0) := by
  intro xs
  induction xs with
  | nil =>
    intro s _ _ _ _
    rfl
  | cons x xs ih =>
    intro s h1 h2 h3 h4
    unfold processSamples
    rw [processSample_stuck s x h1 h2 h3 h4]
    simp only
    rw [ih s h1 h2 h3 h4]
    simp [List.replicate_succ]

/-- A block without trigger leaves an engine that records with `loop_samples
= 0` in the recording state, whatever its length. -/
theorem run_stuck (s : Remus) (b : Block) (hr : s.recording = true)
    (hL : s.loop_samples = 0) (hh : s.has_recorded = false) (hnd : ¬ spliceDue s)
    (hw : s.waiting_for_bar = false) (ht : blockRecStart s b = false) :
    run s b = some ({ s with
      transport_bpm := (blockTransport s b).bpm
      transport_beats_per_bar := (blockTransport s b).beats_per_bar
      prev_record_enable := b.rec_enable
      last_bar_beat := (blockTransport s b).current_bar_beat
      last_bar := (blockTransport s b).current_bar }, List.replicate b.audio_in.length 0) := by
  have hpre := blockPrelude_idle s b hh hw ht
  have hps := processSamples_stuck b.audio_in (blockPrelude s b) (by rw [hpre]; exact hr)
    (by rw [hpre]; exact hL) (by rw [hpre]; exact hh) (by rw [hpre]; exact hnd)
  unfold run
  rw [hps, hpre]

/-- A session in which the take is started with a loop length of half a
beat: the engine is recording with `loop_samples = 0`. -/
theorem session_zero_length :
    ∃ s out, runBlocks (activate (instantiate 48000)) [sessionPress, zeroLengthTake] =
        some (s, out) ∧
      s.recording = true ∧ s.recording_tail = false ∧ s.loop_samples = 0 ∧ s.write_pos = 0 ∧
      s.has_recorded = false ∧ s.waiting_for_bar = false ∧ ¬ spliceDue s := by
  have h1 := run_idle (activate (instantiate 48000)) sessionPress rfl rfl rfl rfl rfl
    (by norm_num [blockRecStart, rec_start, sessionPress, activate, instantiate])
  have hT' : blockTransport (activate (instantiate 48000)) sessionPress =
      { current_bar_beat := 0, current_bar := 0, transport_rolling := true, bpm := 120,
        beats_per_bar := 4 } := blockTransport_posEvent (activate (instantiate 48000)) 0 0 1 1 [0, 0]
  rw [hT'] at h1
  obtain ⟨s1, hrun1, e1, e2, e3, e4, e5, e6, e7, e8⟩ : ∃ s1 : Remus,
      run (activate (instantiate 48000)) sessionPress =
        some (s1, List.replicate sessionPress.audio_in.length 0) ∧
      s1.recording = false ∧ s1.prev_record_enable = 1 ∧ s1.last_bar = 0 ∧
      s1.sample_rate = 48000 ∧ s1.buffer_size = MAX_BUFFER_SIZE ∧ s1.stitch_position = 0 ∧
      s1.recording_tail = false ∧ s1.tail_pos = 0 :=
    ⟨_, h1, rfl, rfl, rfl, rfl, rfl, rfl, rfl, rfl⟩
  have hT : blockTransport s1 zeroLengthTake =
      { current_bar_beat := 0, current_bar := 1, transport_rolling := true, bpm := 120,
        beats_per_bar := 4 } := blockTransport_posEvent s1 1 0 0 (1/8) [0, 0]
  have hL : blockLoopSamples s1 zeroLengthTake = 0 := by
    unfold blockLoopSamples
    rw [hT, e4]
    norm_num [new_loop_samples, toU32, u32, toNat_numeral, zeroLengthTake]
  have hstart : blockRecStart s1 zeroLengthTake = true := by
    unfold blockRecStart
    rw [e2]
    norm_num [rec_start, zeroLengthTake]
  have hpre := blockPrelude_start s1 zeroLengthTake e1 hstart (by rw [hT])
    (Or.inl (by rw [hT, e3]; decide))
  rw [hL, Nat.zero_min] at hpre
  have hps := processSamples_stuck zeroLengthTake.audio_in (blockPrelude s1 zeroLengthTake)
    (by rw [hpre]) (by rw [hpre]) (by rw [hpre]) (by rw [hpre]; simp [spliceDue, e6])
  have hrun2 := run_of_processSamples s1 _ zeroLengthTake _ hps
  refine ⟨_, _, runBlocks_cons _ _ _ _ _ _ _ hrun1 (runBlocks_cons _ _ _ _ _ _ _ hrun2 rfl),
    ?_, ?_, ?_, ?_, ?_, ?_, ?_⟩
  · simp only [hpre]
  · simp only [hpre, e7]
  · simp only [hpre]
  · simp only [hpre]
  · simp only [hpre]
  · simp only [hpre]
  · simp [spliceDue, hpre, e6]

/-! ## A trigger while the loop plays -/

theorem playbackAlign_playing_stay (a : Remus) (t : Transport) (hpl : a.playing = true)
    (hw : a.waiting_to_play = false) (hr : t.transport_rolling = true) :
    playbackAlign a t = a := by
  unfold playbackAlign
  split
  · rw [if_neg (by simp [hr]), if_neg (by simp [hpl]), if_neg (by simp [hw])]
  · rfl

/-- A stopped engine with a loop of 96000 samples meets a rolling block at
bar 0, beat 0 without trigger: it plays, and `read_pos` is at the number of
samples of the block (modulo the loop length) afterwards. -/
theorem run_start_top_pos (s : Remus) (r : ℚ) (audio : List ℚ)
    (h1 : s.recording = false) (h2 : s.recording_tail = false) (h3 : s.has_recorded = true)
    (h4 : s.stitch_position = 0) (h5 : s.loop_samples = 96000)
    (h6 : s.buffer_size = MAX_BUFFER_SIZE) (h7 : s.waiting_for_bar = false)
    (h8 : s.playing = false) (h9 : s.waiting_to_play = false) (h10 : s.sample_rate = 48000)
    (ht : rec_start s.prev_record_enable r = false) :
    ∃ s' out, run s ⟨[posEvent 0 0], r, 1, audio⟩ = some (s', out) ∧
      s'.playing = true ∧ s'.recording = false ∧ s'.recording_tail = false ∧
      s'.has_recorded = true ∧ s'.stitch_position = 0 ∧ s'.loop_samples = 96000 ∧
      s'.buffer_size = MAX_BUFFER_SIZE ∧ s'.waiting_for_bar = false ∧
      s'.prev_record_enable = r ∧ s'.sample_rate = 48000 ∧ s'.last_bar = 0 ∧
      s'.last_bar_beat = 0 ∧ s'.waiting_to_play = false ∧
      s'.read_pos = audio.length % 96000 := by
  have hT := blockTransport_posEvent s 0 0 r 1 audio
  have hL := blockLoopSamples_posEvent s 0 0 r audio h10
  have hA := afterTrigger_noTrigger s ⟨[posEvent 0 0], r, 1, audio⟩ ht
  have hpre : blockPrelude s ⟨[posEvent 0 0], r, 1, audio⟩ =
      { afterTrigger s ⟨[posEvent 0 0], r, 1, audio⟩ with
        playing := true, waiting_to_play := false, read_pos := 0 } := by
    unfold blockPrelude afterBarCheck
    rw [checkBarBoundary_stay _ _ (by rw [hA]; simp [h7])]
    rw [playbackAlign_stopped_top _ _ (by rw [hA]; simp [h3, h5, h1]) (by rw [hA]; exact h8)
      (by rw [hA]; exact h9) (by rw [hT]) (by rw [hT]; norm_num [atTop])]
    rw [hotUpdate_same _ _ (by rw [hL, hA]; exact h5.symm)]
  have hrun := processSamples_playing audio (blockPrelude s ⟨[posEvent 0 0], r, 1, audio⟩)
    (by rw [hpre, hA]; exact h1) (by rw [hpre, hA]; exact h2) (by rw [hpre, hA]; exact h4)
    (by rw [hpre]) (by rw [hpre, hA]; exact h3)
    (by rw [hpre, hA]; simp only [h5]; decide)
    (by rw [hpre, hA]; simp only [h5, h6]; decide) (by rw [hpre, hA]; exact h6)
  refine ⟨_, _, by unfold run; rw [hrun], ?_, ?_, ?_, ?_, ?_, ?_, ?_, ?_, ?_, ?_, ?_, ?_, ?_, ?_⟩
  · simp only [hpre]
  · simp only [hpre, hA, h1]
  · simp only [hpre, hA, h2]
  · simp only [hpre, hA, h3]
  · simp only [hpre, hA, h4]
  · simp only [hpre, hA, h5]
  · simp only [hpre, hA, h6]
  · simp only [hpre, hA, h7]
  · simp only [hpre, hA]
  · simp only [hpre, hA, h10]
  · simp only [hT]
  · simp only [hT]
  · simp only [hpre]
  · simp only [hpre, hA, h5, Nat.zero_add]

/-- The loop length computed for a quarter of a bar at 120 bpm in 4/4 and
48 kHz: one beat, 24000 samples. -/
theorem blockLoopSamples_quarter (s : Remus) (bar : Int) (beat r : ℚ) (audio : List ℚ)
    (hsr : s.sample_rate = 48000) :
    blockLoopSamples s ⟨[posEvent bar beat], r, 1/4, audio⟩ = 24000 := by
  unfold blockLoopSamples
  rw [blockTransport_posEvent, hsr]
  norm_num [new_loop_samples, toU32, u32, toNat_numeral]

/-- A trigger while the loop plays at position 50000, in a rolling block that
stays in the bar and sets the loop length to a quarter of a bar: the engine
is armed with `loop_samples = 24000`, `read_pos` is left at 50000, and the
first sample of the block is read from there. -/
theorem run_trigger_playing (s : Remus) (h1 : s.recording = false)
    (h2 : s.recording_tail = false) (h3 : s.has_recorded = true)
    (h4 : s.stitch_position = 0) (h6 : s.buffer_size = MAX_BUFFER_SIZE)
    (h8 : s.playing = true) (h9 : s.waiting_to_play = false) (h10 : s.sample_rate = 48000)
    (hprev : s.prev_record_enable = 1) (hbar : s.last_bar = 0) (hbeat : s.last_bar_beat = 0)
    (hrp : s.read_pos = 50000) :
    (blockPrelude s quarterBarTrigger).playing = true ∧
      (blockPrelude s quarterBarTrigger).has_recorded = true ∧
      (blockPrelude s quarterBarTrigger).loop_samples = 24000 ∧
      (blockPrelude s quarterBarTrigger).read_pos = 50000 ∧
      processSample (blockPrelude s quarterBarTrigger) 0 =
        some ({ blockPrelude s quarterBarTrigger with read_pos := 0 },
          (blockPrelude s quarterBarTrigger).buffer 50000) ∧
      ∃ s' out, run s quarterBarTrigger = some (s', out) := by
  have hT : blockTransport s quarterBarTrigger =
      { current_bar_beat := 1, current_bar := 0, transport_rolling := true, bpm := 120,
        beats_per_bar := 4 } := blockTransport_posEvent s 0 1 0 (1/4) [0, 0]
  have hL : blockLoopSamples s quarterBarTrigger = 24000 :=
    blockLoopSamples_quarter s 0 1 0 [0, 0] h10
  have hstart : blockRecStart s quarterBarTrigger = true := by
    unfold blockRecStart
    rw [hprev]
    norm_num [rec_start, quarterBarTrigger]
  have hA := afterTrigger_arm s quarterBarTrigger h1 hstart
  rw [hL, Nat.min_eq_left (by rw [h6]; decide)] at hA
  have hpre : blockPrelude s quarterBarTrigger = afterTrigger s quarterBarTrigger := by
    unfold blockPrelude afterBarCheck
    rw [checkBarBoundary_stay _ _ (by
      rw [hA, hT]
      simp only [barCrossed, hbar, hbeat]
      intro hc
      rcases hc.2.2 with hc | hc
      · exact hc.2.2 rfl
      · exact absurd hc.2.2 (by norm_num))]
    rw [playbackAlign_playing_stay _ _ (by rw [hA]; exact h8) (by rw [hA]; exact h9)
      (by rw [hT]), hotUpdate_skip _ _ (by rw [hA]; simp)]
  have e1 : (blockPrelude s quarterBarTrigger).playing = true := by rw [hpre, hA]; exact h8
  have e2 : (blockPrelude s quarterBarTrigger).has_recorded = true := by
    rw [hpre, hA]; exact h3
  have e3 : (blockPrelude s quarterBarTrigger).loop_samples = 24000 := by rw [hpre, hA]
  have e4 : (blockPrelude s quarterBarTrigger).read_pos = 50000 := by rw [hpre, hA]; exact hrp
  have e5 : (blockPrelude s quarterBarTrigger).recording = false := by rw [hpre, hA]; exact h1
  have e6 : (blockPrelude s quarterBarTrigger).recording_tail = false := by
    rw [hpre, hA]; exact h2
  have e7 : (blockPrelude s quarterBarTrigger).stitch_position = 0 := by
    rw [hpre, hA]; exact h4
  have e8 : (blockPrelude s quarterBarTrigger).buffer_size = MAX_BUFFER_SIZE := by
    rw [hpre, hA]; exact h6
  have hmax : MAX_BUFFER_SIZE = 14400000 := by decide
  have hstep : processSample (blockPrelude s quarterBarTrigger) 0 =
      some ({ blockPrelude s quarterBarTrigger with read_pos := 0 },
        (blockPrelude s quarterBarTrigger).buffer 50000) := by
    unfold processSample
    rw [captureStage_idle _ _ e5 e6]
    simp only
    rw [spliceStage_idle _ (by simp [spliceDue, e7])]
    simp only
    unfold playbackStage
    rw [if_pos ⟨e1, e2, by rw [e3]; decide⟩, if_pos (by rw [e4, e8, hmax]; decide)]
    simp only [e4, e3]
    rw [if_pos (by decide)]
  obtain ⟨s2, o2, hrest⟩ := processSamples_idle [0]
    { blockPrelude s quarterBarTrigger with read_pos := 0 } e5 e6 (by simp [spliceDue, e7])
    (by simp only [e8, hmax]; decide) (by simp only [e3, e8, hmax]; decide)
  refine ⟨e1, e2, e3, e4, hstep, _, _, run_of_processSamples s s2 quarterBarTrigger
    ((blockPrelude s quarterBarTrigger).buffer 50000 :: o2) ?_⟩
  have haudio : quarterBarTrigger.audio_in = [0, 0] := rfl
  rw [haudio]
  unfold processSamples
  rw [hstep]
  simp only
  rw [hrest]

/-- The session with the accepted loop, continued by 50000 samples of
playback. -/
theorem session_playing_long :
    ∃ s out, runBlocks (activate (instantiate 48000))
        [sessionPress, sessionRecord, sessionPlayLong] = some (s, out) ∧
      s.playing = true ∧ s.recording = false ∧ s.recording_tail = false ∧
      s.has_recorded = true ∧ s.stitch_position = 0 ∧ s.loop_samples = 96000 ∧
      s.buffer_size = MAX_BUFFER_SIZE ∧ s.waiting_for_bar = false ∧
      s.prev_record_enable = 1 ∧ s.sample_rate = 48000 ∧ s.last_bar = 0 ∧
      s.last_bar_beat = 0 ∧ s.waiting_to_play = false ∧ s.read_pos = 50000 := by
  obtain ⟨s2, o2, h2, q1, q2, q3, q4, _, q6, q7, q8, q9, q10, q11, q12, _⟩ := session_recorded
  obtain ⟨s3, o3, h3, r1, r2, r3, r4, r5, r6, r7, r8, r9, r10, r11, r12, r13, r14⟩ :=
    run_start_top_pos s2 1 (List.replicate 50000 0) q1 q2 q3 q4 q6 q7 q8 q9 q10 q12
      (by rw [q11]; norm_num [rec_start])
  rw [List.length_replicate] at r14
  exact ⟨s3, _, runBlocks_snoc [sessionPress, sessionRecord] _ _ _ sessionPlayLong _ _ h2 h3,
    r1, r2, r3, r4, r5, r6, r7, r8, r9, r10, r11, r12, r13, r14⟩

/-! ## The write position after a take -/

theorem processSamples_split :
    ∀ (xs ys : List ℚ) (s r : Remus) (out : List ℚ),
      processSamples s (xs ++ ys) = some (r, out) →
      ∃ m o1 o2, processSamples s xs = some (m, o1) ∧ processSamples m ys = some (r, o2) := by
  intro xs
  induction xs with
  | nil =>
    intro ys s r out h
    exact ⟨s, [], out, rfl, by simpa using h⟩
  | cons x xs ih =>
    intro ys s r out h
    rw [List.cons_append] at h
    unfold processSamples at h
    split at h
    · rename_i s1 y h1
      split at h
      · rename_i s2 ys2 h2
        simp only [Option.some.injEq, Prod.mk.injEq] at h
        obtain ⟨m, o1, o2, e1, e2⟩ := ih ys s1 s2 ys2 h2
        refine ⟨m, y :: o1, o2, ?_, by rw [← h.1]; exact e2⟩
        unfold processSamples
        rw [h1]
        simp only
        rw [e1]
      · exact absurd h (by simp)
    · exact absurd h (by simp)

/-- Recording `xs` without passing the loop length moves `write_pos` by the
number of samples; the engine has left the recording state exactly when the
loop length is reached. -/
theorem processSamples_rec_write :
    ∀ (xs : List ℚ) (s : Remus), s.recording = true → s.has_recorded = false →
      ¬ spliceDue s → s.write_pos + xs.length ≤ s.loop_samples →
      s.loop_samples ≤ s.buffer_size →
      ∃ s' out, processSamples s xs = some (s', out) ∧
        s'.write_pos = s.write_pos + xs.length ∧
        (0 < xs.length → s.write_pos + xs.length = s.loop_samples → s'.recording = false) := by
  intro xs
  induction xs with
  | nil =>
    intro s _ _ _ _ _
    exact ⟨s, [], rfl, rfl, fun h => absurd h (by simp)⟩
  | cons x xs ih =>
    intro s h1 h2 h3 h4 h5
    simp only [List.length_cons] at h4
    have hstep := processSample_recording s x h1 h2 h3 (by omega) h5
    by_cases hlast : s.write_pos + 1 ≥ s.loop_samples
    · rw [if_pos hlast] at hstep
      have hnil : xs = [] := List.eq_nil_of_length_eq_zero (by omega)
      rw [hnil]
      exact ⟨_, _, processSamples_single _ _ _ _ hstep, rfl, fun _ _ => rfl⟩
    · rw [if_neg hlast] at hstep
      obtain ⟨s', out, hrun, r1, r2⟩ := ih
        { s with buffer := store s.buffer s.write_pos x, write_pos := s.write_pos + 1 }
        h1 h2 (by simpa [spliceDue] using h3) (by simp only; omega) h5
      refine ⟨s', 0 :: out, ?_, ?_, ?_⟩
      · unfold processSamples
        rw [hstep]
        simp only
        rw [hrun]
      · rw [r1]
        simp only [List.length_cons]
        omega
      · intro _ hfull
        simp only [List.length_cons] at hfull
        have hpos : 0 < xs.length := by omega
        exact r2 hpos (by simp only; omega)

/-- A trigger in a rolling block that crosses into a new bar, followed in the
same block by the 96000 samples of the loop and by further samples: at the
end of the block `write_pos` is 96000. -/
theorem run_record_write (s : Remus) (bar : Int) (beat r : ℚ) (xs ys : List ℚ)
    (hrec : s.recording = false) (hprev : s.prev_record_enable > 1/2) (hr : r ≤ 1/2)
    (hlast : s.last_bar ≥ 0) (hbar : bar ≥ 0) (hne : bar ≠ s.last_bar)
    (hsr : s.sample_rate = 48000) (hB : s.buffer_size = MAX_BUFFER_SIZE)
    (hst : s.stitch_position = 0) (hlen : xs.length = 96000) (s' : Remus) (out : List ℚ)
    (hrun : run s ⟨[posEvent bar beat], r, 1, xs ++ ys⟩ = some (s', out)) :
    s'.write_pos = 96000 := by
  obtain ⟨dl, hpre⟩ := blockPrelude_trigger_crossing s bar beat r (xs ++ ys) hrec hprev hr
    hlast hbar hne hsr hB
  obtain ⟨s1, hps, _, hs'⟩ := run_frame s s' _ out hrun
  have hps' : processSamples (blockPrelude s ⟨[posEvent bar beat], r, 1, xs ++ ys⟩) (xs ++ ys) =
      some (s1, out) := hps
  obtain ⟨m, o1, o2, e1, e2⟩ := processSamples_split xs ys _ _ _ hps'
  obtain ⟨m', o', f1, f2, f3⟩ := processSamples_rec_write xs
    (blockPrelude s ⟨[posEvent bar beat], r, 1, xs ++ ys⟩) (by rw [hpre]) (by rw [hpre])
    (by rw [hpre]; simp [spliceDue, hst]) (by rw [hpre]; simp only; omega)
    (by rw [hpre]; simp only [hB]; decide)
  rw [e1] at f1
  simp only [Option.some.injEq, Prod.mk.injEq] at f1
  rw [← f1.1] at f2 f3
  have hm : m.recording = false := f3 (by omega) (by rw [hpre]; simp only; omega)
  obtain ⟨g1, _⟩ := processSamples_write_idle ys m s1 o2 e2 hm
  rw [hs']
  simp only
  rw [g1, f2, hpre]
  simp only
  omega

theorem runBlocks_two (s r : Remus) (b1 b2 : Block) (out : List ℚ)
    (h : runBlocks s [b1, b2] = some (r, out)) :
    ∃ s1 o1 o2, run s b1 = some (s1, o1) ∧ run s1 b2 = some (r, o2) := by
  unfold runBlocks at h
  split at h
  · rename_i s1 o1 h1
    split at h
    · rename_i s2 o2 h2
      simp only [Option.some.injEq, Prod.mk.injEq] at h
      unfold runBlocks at h2
      split at h2
      · rename_i s3 o3 h3
        simp only [runBlocks, Option.some.injEq, Prod.mk.injEq] at h2
        exact ⟨s1, o1, o3, h1, by rw [h3, ← h.1, ← h2.1]⟩
      · exact absurd h2 (by simp)
    · exact absurd h (by simp)
  · exact absurd h (by simp)

/-- At the end of the session with the accepted loop `write_pos` is 96000. -/
theorem session_recorded_write (s : Remus) (out : List ℚ)
    (h : runBlocks (activate (instantiate 48000)) [sessionPress, sessionRecord] =
      some (s, out)) : s.write_pos = 96000 := by
  obtain ⟨s1, o1, o2, h1, h2⟩ := runBlocks_two _ _ _ _ _ h
  have h0 := run_idle (activate (instantiate 48000)) sessionPress rfl rfl rfl rfl rfl
    (by norm_num [blockRecStart, rec_start, sessionPress, activate, instantiate])
  have hT' : blockTransport (activate (instantiate 48000)) sessionPress =
      { current_bar_beat := 0, current_bar := 0, transport_rolling := true, bpm := 120,
        beats_per_bar := 4 } := blockTransport_posEvent (activate (instantiate 48000)) 0 0 1 1 [0, 0]
  rw [hT'] at h0
  rw [h0] at h1
  simp only [Option.some.injEq, Prod.mk.injEq] at h1
  rw [← h1.1] at h2
  exact run_record_write _ 1 0 0 (List.replicate 96000 0) (List.replicate 1023 0 ++ [0])
    rfl (by norm_num [sessionPress]) (by norm_num) (by decide) (by decide) (by decide) rfl rfl
    rfl (List.length_replicate 96000 0) s o2 h2

/-- A stopped engine with a loop of 96000 samples meets a rolling block
without trigger that sets the loop length to a quarter of a bar: the
hot-update adopts 24000 samples and `write_pos` keeps its value. -/
theorem run_shrink (s : Remus) (h1 : s.recording = false) (h2 : s.recording_tail = false)
    (h3 : s.has_recorded = true) (h4 : s.stitch_position = 0) (h5 : s.loop_samples = 96000)
    (h6 : s.buffer_size = MAX_BUFFER_SIZE) (h7 : s.waiting_for_bar = false)
    (h8 : s.playing = false) (h9 : s.waiting_to_play = false) (h10 : s.sample_rate = 48000)
    (hprev : s.prev_record_enable = 0) :
    ∃ s', run s shrinkBlock = some (s', List.replicate 2 0) ∧ s'.loop_samples = 24000 ∧
      s'.write_pos = s.write_pos ∧ s'.recording = false := by
  have hT : blockTransport s shrinkBlock =
      { current_bar_beat := 2, current_bar := 1, transport_rolling := true, bpm := 120,
        beats_per_bar := 4 } := blockTransport_posEvent s 1 2 0 (1/4) [0, 0]
  have hL : blockLoopSamples s shrinkBlock = 24000 := blockLoopSamples_quarter s 1 2 0 [0, 0] h10
  have ht : blockRecStart s shrinkBlock = false := by
    unfold blockRecStart
    rw [hprev]
    norm_num [rec_start, shrinkBlock]
  have hA := afterTrigger_noTrigger s shrinkBlock ht
  have hbc : afterBarCheck s shrinkBlock = afterTrigger s shrinkBlock := by
    unfold afterBarCheck
    exact checkBarBoundary_stay _ _ (by rw [hA]; simp [h7])
  have hal : playbackAlign (afterBarCheck s shrinkBlock) (blockTransport s shrinkBlock) =
      { afterTrigger s shrinkBlock with waiting_to_play := true } := by
    rw [hbc]
    exact playbackAlign_stopped_wait _ _ (by rw [hA]; simp [h3, h5, h1]) (by rw [hA]; exact h8)
      (by rw [hA]; exact h9) (by rw [hT]) (by rw [hT]; simp [atTop])
  obtain ⟨L, rp, hform, _⟩ := hotUpdate_frame
    (playbackAlign (afterBarCheck s shrinkBlock) (blockTransport s shrinkBlock))
    (blockLoopSamples s shrinkBlock)
  obtain ⟨hval, _⟩ := hotUpdate_adopt
    (playbackAlign (afterBarCheck s shrinkBlock) (blockTransport s shrinkBlock))
    (blockLoopSamples s shrinkBlock) (by rw [hal, hA]; exact h1) (by rw [hal, hA]; exact h7)
    (by rw [hal, hA]; exact h3) (by rw [hL, hal, hA]; simp only [h5]; decide)
  have hpre : blockPrelude s shrinkBlock =
      { afterTrigger s shrinkBlock with waiting_to_play := true, loop_samples := L,
                                        read_pos := rp } := by
    unfold blockPrelude
    rw [hform, hal]
  have hLval : L = 24000 := by
    have e : (blockPrelude s shrinkBlock).loop_samples = 24000 := by
      unfold blockPrelude
      rw [hval, hL, hal, hA]
      simp only [h6]
      decide
    rw [hpre] at e
    exact e
  have hps := processSamples_silent shrinkBlock.audio_in (blockPrelude s shrinkBlock)
    (by rw [hpre, hA]; exact h1) (by rw [hpre, hA]; exact h2) (by rw [hpre, hA]; exact h4)
    (by rw [hpre, hA]; simp [h8])
  have hrun := run_of_processSamples s _ shrinkBlock _ hps
  refine ⟨_, hrun, ?_, ?_, ?_⟩
  · simp only [hpre, hLval]
  · simp only [hpre, hA]
  · simp only [hpre, hA, h1]

/-- The session with the accepted loop, continued by a block that shortens
the loop to a quarter of a bar: `write_pos` is beyond `loop_samples`. -/
theorem session_shrunk :
    ∃ s out, runBlocks (activate (instantiate 48000))
        [sessionPress, sessionRecord, shrinkBlock] = some (s, out) ∧
      s.write_pos = 96000 ∧ s.loop_samples = 24000 ∧ s.recording = false := by
  obtain ⟨s2, o2, h2, q1, q2, q3, q4, _, q6, q7, q8, q9, q10, q11, q12, _⟩ := session_recorded
  have hw := session_recorded_write s2 o2 h2
  obtain ⟨s3, h3, r1, r2, r3⟩ := run_shrink s2 q1 q2 q3 q4 q6 q7 q8 q9 q10 q12 q11
  exact ⟨s3, _, runBlocks_snoc [sessionPress, sessionRecord] _ _ _ shrinkBlock _ _ h2 h3,
    by rw [r2, hw], r1, r3⟩


/-! ## Claims -/

/-- C1. From the Recording state (recording, not armed, no loop accepted yet,
no splice pending) with `write_pos = 0` and loop length `L`, `1 ≤ L ≤`
capacity, and with no record trigger in any block: after fewer than `L` input
samples, split over any blocks, the engine is still recording with `write_pos`
equal to the number of samples; after exactly `L` samples the buffer holds
the input (`buffer[k] = x[k]` for `k < L`), `recording` is false,
`recording_tail` is true and the tail bookkeeping is reset. -/
theorem C1_recording_fills_loop (s : Remus) (bs : List Block) (L : Nat)
    (hrec : s.recording = true) (hwp : s.write_pos = 0) (hL : s.loop_samples = L)
    (h1 : 1 ≤ L) (hcap : L ≤ s.buffer_size) (harm : s.waiting_for_bar = false)
    (hhas : s.has_recorded = false) (hnd : ¬ spliceDue s)
    (htrig : noTrigger s.prev_record_enable bs) :
    ((inputOf bs).length < L →
      ∃ s', runBlocks s bs = some (s', List.replicate (inputOf bs).length 0) ∧
        s'.recording = true ∧ s'.write_pos = (inputOf bs).length ∧
        ∀ k, k < (inputOf bs).length → s'.buffer k = (inputOf bs).getD k 0) ∧
    ((inputOf bs).length = L →
      ∃ s', runBlocks s bs = some (s', List.replicate L 0) ∧
        (∀ k, k < L → s'.buffer k = (inputOf bs).getD k 0) ∧
        s'.recording = false ∧ s'.recording_tail = true ∧ s'.tail_pos = 0 ∧
        s'.stitch_position = 0 ∧ s'.tail_zero_crossings = 0 ∧ s'.tail_min_distance = 1024) := by
  have hph : RecPhase L (fun k => (inputOf bs).getD k 0) 0 s :=
    ⟨hL, hcap, hhas, harm, fun k hk => absurd hk (by omega), fun _ => ⟨hrec, hwp, hnd⟩,
      fun h => by omega⟩
  constructor
  · intro hlt
    obtain ⟨s', hrun, hp⟩ := runBlocks_recPhase L _ bs 0 s hph htrig (by omega) (by
      intro i _
      simp)
    rw [Nat.zero_add] at hp
    obtain ⟨_, _, _, _, hbuf, hmid, _⟩ := hp
    exact ⟨s', hrun, (hmid hlt).1, (hmid hlt).2.1, hbuf⟩
  · intro heq
    obtain ⟨s', hrun, hp⟩ := runBlocks_recPhase L _ bs 0 s hph htrig (by omega) (by
      intro i _
      simp)
    rw [Nat.zero_add, heq] at hp
    rw [heq] at hrun
    obtain ⟨_, _, _, _, hbuf, _, hend⟩ := hp
    exact ⟨s', hrun, hbuf, hend rfl⟩

/-- Witness for C1: a loop of three samples recorded over two blocks. -/
theorem C1_recording_fills_loop_witness :
    ∃ s', runBlocks { instantiate 48000 with recording := true, loop_samples := 3 }
        [⟨[], 0, 1, [1, 2]⟩, ⟨[], 0, 1, [3]⟩] = some (s', List.replicate 3 0) ∧
      (∀ k, k < 3 → s'.buffer k = (inputOf [⟨[], 0, 1, [1, 2]⟩, ⟨[], 0, 1, [3]⟩]).getD k 0) ∧
      s'.recording = false ∧ s'.recording_tail = true ∧ s'.tail_pos = 0 ∧
      s'.stitch_position = 0 ∧ s'.tail_zero_crossings = 0 ∧ s'.tail_min_distance = 1024 :=
  (C1_recording_fills_loop { instantiate 48000 with recording := true, loop_samples := 3 }
    [⟨[], 0, 1, [1, 2]⟩, ⟨[], 0, 1, [3]⟩] 3 rfl rfl rfl (by decide) (by decide) rfl rfl
    (by simp [spliceDue, instantiate]) (by simp [noTrigger, rec_start, instantiate])).2 rfl

/-- C2. For an armed engine (after the trigger handling of the block
`waiting_for_bar` is true and the engine is not recording), the state at the
first sample of the block is Recording if and only if transport is rolling in
the block and a bar crossing is detected; on that transition `waiting_for_bar`
and `has_recorded` are false and `write_pos = read_pos = 0`; otherwise the
engine is still armed and not recording, also at the end of the block. -/
theorem C2_armed_starts_on_bar_crossing (s : Remus) (b : Block)
    (harmed : (afterTrigger s b).waiting_for_bar = true)
    (hidle : (afterTrigger s b).recording = false) :
    ((blockPrelude s b).recording = true ↔
      ((blockTransport s b).transport_rolling = true ∧ barCrossed s (blockTransport s b))) ∧
    (((blockTransport s b).transport_rolling = true ∧ barCrossed s (blockTransport s b)) →
      (blockPrelude s b).waiting_for_bar = false ∧ (blockPrelude s b).has_recorded = false ∧
      (blockPrelude s b).write_pos = 0 ∧ (blockPrelude s b).read_pos = 0) ∧
    (¬ ((blockTransport s b).transport_rolling = true ∧ barCrossed s (blockTransport s b)) →
      (blockPrelude s b).waiting_for_bar = true ∧ (blockPrelude s b).recording = false ∧
      ∀ s' out, run s b = some (s', out) → s'.waiting_for_bar = true ∧ s'.recording = false) := by
  obtain ⟨hl1, hl2, _, _⟩ := afterTrigger_last s b
  have hcross : barCrossed (afterTrigger s b) (blockTransport s b) ↔
      barCrossed s (blockTransport s b) := by
    unfold barCrossed
    rw [hl1, hl2]
  have hyes : ((blockTransport s b).transport_rolling = true ∧
      barCrossed s (blockTransport s b)) →
      blockPrelude s b = { afterTrigger s b with
        recording := true, waiting_for_bar := false, write_pos := 0, read_pos := 0,
        has_recorded := false } := by
    intro h
    unfold blockPrelude afterBarCheck
    rw [checkBarBoundary_start _ _ harmed h.1 (hcross.2 h.2)]
    rw [playbackAlign_skip _ _ (by simp), hotUpdate_skip _ _ (by simp)]
  have hno : ¬ ((blockTransport s b).transport_rolling = true ∧
      barCrossed s (blockTransport s b)) →
      (blockPrelude s b).waiting_for_bar = true ∧ (blockPrelude s b).recording = false := by
    intro h
    unfold blockPrelude afterBarCheck
    rw [checkBarBoundary_stay _ _ (fun hc => h ⟨hc.2.1, hcross.1 hc.2.2⟩)]
    obtain ⟨pl, wp, rp, hpa⟩ := playbackAlign_frame (afterTrigger s b) (blockTransport s b)
    rw [hpa, hotUpdate_skip _ _ (by simp [harmed])]
    exact ⟨harmed, hidle⟩
  refine ⟨⟨?_, ?_⟩, ?_, ?_⟩
  · intro hr
    by_contra hc
    rw [(hno hc).2] at hr
    exact absurd hr (by simp)
  · intro h
    rw [hyes h]
  · intro h
    rw [hyes h]
    exact ⟨rfl, rfl, rfl, rfl⟩
  · intro h
    refine ⟨(hno h).1, (hno h).2, ?_⟩
    intro s' out hrun
    obtain ⟨s1, _, hf, hs'⟩ := run_frame s s' b out hrun
    obtain ⟨_, _, f3, _, _, _, _, _, _, _, _, _, f13⟩ := hf
    rw [hs']
    refine ⟨by simp only [f3]; exact (hno h).1, ?_⟩
    cases hr : s1.recording with
    | false => rfl
    | true =>
      have := f13 hr
      rw [(hno h).2] at this
      exact absurd this (by simp)

/-- Witness for C2: an armed engine whose previous block was in bar 0 meets a
rolling block in bar 1. -/
theorem C2_armed_starts_on_bar_crossing_witness :
    (blockPrelude { instantiate 48000 with waiting_for_bar := true, last_bar := 0 }
        ⟨[⟨some 0, some 1, some 1, none, none⟩], 0, 1, [0, 0]⟩).waiting_for_bar = false ∧
      (blockPrelude { instantiate 48000 with waiting_for_bar := true, last_bar := 0 }
        ⟨[⟨some 0, some 1, some 1, none, none⟩], 0, 1, [0, 0]⟩).has_recorded = false ∧
      (blockPrelude { instantiate 48000 with waiting_for_bar := true, last_bar := 0 }
        ⟨[⟨some 0, some 1, some 1, none, none⟩], 0, 1, [0, 0]⟩).write_pos = 0 ∧
      (blockPrelude { instantiate 48000 with waiting_for_bar := true, last_bar := 0 }
        ⟨[⟨some 0, some 1, some 1, none, none⟩], 0, 1, [0, 0]⟩).read_pos = 0 :=
  (C2_armed_starts_on_bar_crossing
    { instantiate 48000 with waiting_for_bar := true, last_bar := 0 }
    ⟨[⟨some 0, some 1, some 1, none, none⟩], 0, 1, [0, 0]⟩
    (by norm_num [afterTrigger, armOnTrigger, stopOnRestart, blockRecStart, rec_start,
      instantiate])
    (by norm_num [afterTrigger, armOnTrigger, stopOnRestart, blockRecStart, rec_start,
      instantiate])).2.1
    (by norm_num [blockTransport, processEvents, applyEvent, barCrossed, instantiate])

/-- C3. In a tail capture whose stitch position is unset, let the input
sample `y` become tail sample `t ≥ 1` and form a zero crossing of direction
`d` with tail sample `t-1`, and let `l` be the lowest loop position in
`[max 1 (t-8), min (t+8) (L-1)]` with a crossing of direction `d` whose
midpoint `m = (t+l)/2` has `32 ≤ m` and `m+1 < 992`.  Then the sample sets
`stitch_position = m+1` and the capture goes on; it is still going on after
any further samples that keep `tail_pos` below `m+1+32`, and it has ended
(loop accepted) after the sample that brings `tail_pos` to `m+1+32`. -/
theorem C3_first_match_sets_stitch (s : Remus) (y : ℚ) (t l : Nat) (d : Bool)
    (hrec : s.recording = false) (htail : s.recording_tail = true)
    (hhas : s.has_recorded = false) (hst : s.stitch_position = 0) (htp : s.tail_pos = t)
    (ht1 : 1 ≤ t) (ht2 : t < 1024) (hL : 1 ≤ s.loop_samples)
    (hLB : s.loop_samples ≤ s.buffer_size) (hB : s.buffer_size = MAX_BUFFER_SIZE)
    (hrp : s.read_pos < s.buffer_size)
    (hcross : crossing (s.tail_buffer (t - 1)) y = some d)
    (hl1 : max 1 (t - 8) ≤ l) (hl2 : l ≤ min (t + 8) (s.loop_samples - 1))
    (hmatch : loopMatch s.buffer t d l)
    (hfirst : ∀ k, max 1 (t - 8) ≤ k → k < l → ¬ loopMatch s.buffer t d k) :
    ∃ s1, processSample s y = some (s1, 0) ∧ s1.stitch_position = (t + l) / 2 + 1 ∧
      s1.recording_tail = true ∧ s1.tail_pos = t + 1 ∧
      (∀ ys : List ℚ, t + 1 + ys.length < (t + l) / 2 + 1 + 32 →
        ∃ s2, processSamples s1 ys = some (s2, List.replicate ys.length 0) ∧
          s2.recording_tail = true ∧ s2.stitch_position = (t + l) / 2 + 1 ∧
          s2.tail_pos = t + 1 + ys.length) ∧
      (∀ ys : List ℚ, t + 1 + ys.length = (t + l) / 2 + 1 + 32 →
        ∃ s3 out, processSamples s1 ys = some (s3, out) ∧ s3.recording_tail = false ∧
          s3.has_recorded = true) := by
  have hph : TailPhase s.buffer s.loop_samples (store s.tail_buffer t y) 0 t s :=
    ⟨hrec, htail, hhas, hst, htp, rfl, rfl, hL, hLB, hB, hrp, fun k hk => by
      unfold store
      rw [if_neg (by omega)]⟩
  obtain ⟨zc, md, sp2, hcap, _, _, hM⟩ := captureStage_tail s y hrec htail
    (by rw [htp]; exact ht2) hL hLB hB
  have hsp2 : sp2 = (t + l) / 2 + 1 := by
    have := hM hst d l (by rw [htp]; exact ht1) (by rw [htp]; exact hcross)
      (by rw [htp]; exact hl1) (by rw [htp]; exact hl2)
      (by rw [htp]; exact hfirst) (by rw [htp]; exact hmatch)
    rw [this, htp]
  obtain ⟨_, hm1, hm2⟩ := hmatch
  have hlt : t ≤ (t + l) / 2 + 4 := by omega
  rw [hsp2] at hcap
  obtain ⟨hstep, hph1⟩ := tail_continue _ _ _ 0 t s _ y zc md ((t + l) / 2 + 1) hph
    (by unfold store; rw [if_pos rfl]) hcap rfl (Or.inr ⟨by omega, by omega, by omega⟩)
  refine ⟨_, hstep, rfl, htail, by simp only [htp], ?_, ?_⟩
  · intro ys hys
    have hA := TailPhase.congr hph1
      (fun k => if k < t + 1 then store s.tail_buffer t y k else ys.getD (k - (t + 1)) 0)
      (by intro k hk; simp [hk])
    obtain ⟨s2, hrun, hph2⟩ := tail_run _ _ _ _ ys (t + 1) _ hA (by intro i hi; simp)
      (Or.inr ⟨by omega, by omega, by omega⟩)
    exact ⟨s2, hrun, hph2.2.1, hph2.2.2.2.1, hph2.2.2.2.2.1⟩
  · intro ys hys
    obtain ⟨s3, out, hrun, _, q2, q3, _, _⟩ := tail_finish _ _ _ _ (t + 1) _ hph1
      (by omega) (by omega) (by omega) ys hys
    exact ⟨s3, out, hrun, q2, q3⟩

/-- Witness for C3: a rising tail crossing at sample 40 and a rising loop
crossing at position 35 give stitch position 38. -/
theorem C3_first_match_sets_stitch_witness :
    ∃ s1, processSample { instantiate 48000 with
          recording_tail := true
          loop_samples := 96000
          tail_pos := 40
          buffer := fun k => if k = 34 then -1 else if k = 35 then 1 else 0
          tail_buffer := fun k => if k = 39 then -1 else 0 } 1 = some (s1, 0) ∧
      s1.stitch_position = 38 ∧ s1.recording_tail = true ∧ s1.tail_pos = 41 ∧
      (∀ ys : List ℚ, 41 + ys.length < 70 →
        ∃ s2, processSamples s1 ys = some (s2, List.replicate ys.length 0) ∧
          s2.recording_tail = true ∧ s2.stitch_position = 38 ∧ s2.tail_pos = 41 + ys.length) ∧
      (∀ ys : List ℚ, 41 + ys.length = 70 →
        ∃ s3 out, processSamples s1 ys = some (s3, out) ∧ s3.recording_tail = false ∧
          s3.has_recorded = true) :=
  C3_first_match_sets_stitch { instantiate 48000 with
      recording_tail := true
      loop_samples := 96000
      tail_pos := 40
      buffer := fun k => if k = 34 then -1 else if k = 35 then 1 else 0
      tail_buffer := fun k => if k = 39 then -1 else 0 } 1 40 35 true
    rfl rfl rfl rfl rfl (by decide) (by decide) (by decide) (by decide) rfl (by decide)
    (by norm_num [crossing]) (by decide) (by decide)
    (by norm_num [loopMatch, crossing])
    (by
      intro k hk1 hk2
      have hk3 : 32 ≤ k := by simpa using hk1
      interval_cases k <;> norm_num [loopMatch, crossing] <;> decide)

/-- C4. A splice with stitch position `sp` inside the crossfade-window bounds
(crossfade start `c = sp - 32`) leaves `buffer[p] = tail_buffer[p]` for every
`p < c`; at the ends of the window `buffer[c]` is the tail sample
`tail_buffer[c]` (full tail weight at `cf = 0`) and `buffer[c+63]` keeps its
value from before the splice (full loop weight at `cf = 63`). -/
theorem C4_splice_prefix_and_endpoints (s : Remus) (hdue : spliceDue s)
    (h1 : 32 ≤ s.stitch_position) (h2 : s.stitch_position + 32 ≤ 1024)
    (h3 : s.stitch_position + 32 ≤ s.buffer_size) :
    ∃ s', spliceStage s = some s' ∧
      (∀ p, p < s.stitch_position - 32 → s'.buffer p = s.tail_buffer p) ∧
      s'.buffer (s.stitch_position - 32) = s.tail_buffer (s.stitch_position - 32) ∧
      s'.buffer (s.stitch_position - 32 + 63) = s.buffer (s.stitch_position - 32 + 63) := by
  refine ⟨_, spliceStage_spec s hdue h1 h2 h3, ?_, ?_, ?_⟩
  · intro p hp
    simp only [splicedBuffer]
    rw [if_pos hp]
  · simp [splicedBuffer]
  · simp only [splicedBuffer]
    rw [if_neg (by omega), if_pos (by omega)]
    have h63 : s.stitch_position - 32 + 63 - (s.stitch_position - 32) = 63 := by omega
    rw [h63]
    norm_num

/-- Witness for C4: the splice at stitch position 38 after 70 tail samples. -/
theorem C4_splice_prefix_and_endpoints_witness :
    ∃ s', spliceStage spliceAt38 = some s' ∧
      (∀ p, p < 38 - 32 → s'.buffer p = (p : ℚ)) ∧
      s'.buffer (38 - 32) = ((38 - 32 : Nat) : ℚ) ∧
      s'.buffer (38 - 32 + 63) = 0 :=
  C4_splice_prefix_and_endpoints
    spliceAt38 (by simp [spliceDue, spliceAt38, instantiate]) (by decide) (by decide) (by decide)

/-- C5 (as the code has it). In the splice, for every `cf < 64` and
`p = crossfadeStart + cf`, the new loop sample is
`tailBuffer[p] * fadeOut(cf) + oldLoopBuffer[p] * fadeIn(cf)` with
`fadeIn(cf) = cf/63` and `fadeOut(cf) = 1 - fadeIn(cf)`: the tail sample is
weighted by the falling ramp and the old loop sample by the rising ramp. -/
theorem C5_crossfade_blend (s : Remus) (hdue : spliceDue s)
    (h1 : 32 ≤ s.stitch_position) (h2 : s.stitch_position + 32 ≤ 1024)
    (h3 : s.stitch_position + 32 ≤ s.buffer_size) :
    ∃ s', spliceStage s = some s' ∧
      ∀ cf, cf < 64 →
        s'.buffer (s.stitch_position - 32 + cf) =
          s.tail_buffer (s.stitch_position - 32 + cf) * (1 - (cf : ℚ) / 63) +
            s.buffer (s.stitch_position - 32 + cf) * ((cf : ℚ) / 63) := by
  refine ⟨_, spliceStage_spec s hdue h1 h2 h3, ?_⟩
  intro cf hcf
  simp only [splicedBuffer]
  rw [if_neg (by omega), if_pos (by omega)]
  have hsub : s.stitch_position - 32 + cf - (s.stitch_position - 32) = cf := by omega
  rw [hsub]

/-- Witness for C5: the blend at stitch position 32 over a constant tail. -/
theorem C5_crossfade_blend_witness :
    ∃ s', spliceStage spliceOnes = some s' ∧
      ∀ cf, cf < 64 →
        s'.buffer (32 - 32 + cf) = 1 * (1 - (cf : ℚ) / 63) + 0 * ((cf : ℚ) / 63) :=
  C5_crossfade_blend
    spliceOnes (by simp [spliceDue, spliceOnes, instantiate]) (by decide) (by decide) (by decide)

/-- C5 as stated fails: with a tail of ones over a silent loop and stitch
position 32 (crossfade start 0), the splice leaves `buffer[0] = 1`, the tail
sample, whereas `tailBuffer[0] * fadeIn(0) + oldLoopBuffer[0] * fadeOut(0)`
is `0`. -/
theorem C5_counterexample :
    ∃ s', spliceStage spliceOnes = some s' ∧ s'.buffer (spliceOnes.stitch_position - 32 + 0) = 1 ∧
      s'.buffer (spliceOnes.stitch_position - 32 + 0) ≠
        spliceOnes.tail_buffer (spliceOnes.stitch_position - 32 + 0) * (((0 : Nat) : ℚ) / 63) +
          spliceOnes.buffer (spliceOnes.stitch_position - 32 + 0) *
            (1 - ((0 : Nat) : ℚ) / 63) := by
  refine ⟨_, spliceStage_spec _ (by simp [spliceDue, spliceOnes, instantiate]) (by decide)
    (by decide) (by decide), ?_, ?_⟩
  · simp [splicedBuffer, spliceOnes, instantiate]
  · simp [splicedBuffer, spliceOnes, instantiate]

/-- C6. From the start of a tail capture (`tail_pos = 0`, stitch unset), let
the 1024 input samples `xs ++ [y]` be such that no tail zero crossing has a
qualifying loop crossing of its direction in the scanned window.  Then after
each of the first 1023 samples `stitch_position` is still 0 and the capture
goes on; on the 1024th sample the capture branch sets `stitch_position = 32`,
`recording_tail = false` and `has_recorded = true`, and the splice runs with
crossfade start 0: positions `[0, 64)` are blended, nothing is copied
verbatim and the rest of the loop is unchanged. -/
theorem C6_fallback_after_full_tail (s : Remus) (xs : List ℚ) (y : ℚ)
    (hrec : s.recording = false) (htail : s.recording_tail = true)
    (hhas : s.has_recorded = false) (hst : s.stitch_position = 0) (htp : s.tail_pos = 0)
    (hL : 1 ≤ s.loop_samples) (hLB : s.loop_samples ≤ s.buffer_size)
    (hB : s.buffer_size = MAX_BUFFER_SIZE) (hrp : s.read_pos < s.buffer_size)
    (hlen : xs.length = 1023)
    (hno : ∀ t, 1 ≤ t → t < 1024 → ∀ d,
      crossing ((xs ++ [y]).getD (t - 1) 0) ((xs ++ [y]).getD t 0) = some d →
      ∀ k, max 1 (t - 8) ≤ k → k ≤ min (t + 8) (s.loop_samples - 1) →
        ¬ loopMatch s.buffer t d k) :
    (∀ j, j ≤ 1023 → ∃ sj, processSamples s (xs.take j) = some (sj, List.replicate j 0) ∧
      sj.stitch_position = 0 ∧ sj.recording_tail = true ∧ sj.has_recorded = false ∧
      sj.tail_pos = j) ∧
    (∃ s1 c s' out, processSamples s xs = some (s1, List.replicate 1023 0) ∧
      captureStage s1 y = some c ∧ c.stitch_position = 32 ∧ c.recording_tail = false ∧
      c.has_recorded = true ∧
      processSamples s (xs ++ [y]) = some (s', out) ∧
      s'.recording_tail = false ∧ s'.has_recorded = true ∧
      (∀ p, p < 64 → s'.buffer p =
        (xs ++ [y]).getD p 0 * (1 - (p : ℚ) / 63) + s.buffer p * ((p : ℚ) / 63)) ∧
      (∀ p, 64 ≤ p → s'.buffer p = s.buffer p)) := by
  have hph : TailPhase s.buffer s.loop_samples (fun k => (xs ++ [y]).getD k 0) 0 0 s :=
    ⟨hrec, htail, hhas, hst, htp, rfl, rfl, hL, hLB, hB, hrp, fun k hk => absurd hk (by omega)⟩
  constructor
  · intro j hj
    obtain ⟨sj, hrun, hp⟩ := tail_unset_run s xs y hph hlen hno j hj
    exact ⟨sj, hrun, hp.2.2.2.1, hp.2.1, hp.2.2.1, hp.2.2.2.2.1⟩
  · obtain ⟨s1, c, s', out, r1, r2, r3, r4, r5, r6, _, r8, r9, _, _, r12, r13⟩ :=
      tail_fallback s xs y hph hlen hno
    exact ⟨s1, c, s', out, r1, r2, r3, r4, r5, r6, r8, r9, r12, r13⟩

/-- Witness for C6: 1024 samples of silence after a silent loop. -/
theorem C6_fallback_after_full_tail_witness :
    ∃ s1 c s' out, processSamples tailStart (List.replicate 1023 (0 : ℚ)) =
        some (s1, List.replicate 1023 (0 : ℚ)) ∧
      captureStage s1 0 = some c ∧ c.stitch_position = 32 ∧ c.recording_tail = false ∧
      c.has_recorded = true ∧
      processSamples tailStart (List.replicate 1023 (0 : ℚ) ++ [0]) = some (s', out) ∧
      s'.recording_tail = false ∧ s'.has_recorded = true ∧
      (∀ p, p < 64 → s'.buffer p =
        (List.replicate 1023 (0 : ℚ) ++ [0]).getD p 0 * (1 - (p : ℚ) / 63) +
          tailStart.buffer p * ((p : ℚ) / 63)) ∧
      (∀ p, 64 ≤ p → s'.buffer p = tailStart.buffer p) :=
  (C6_fallback_after_full_tail tailStart (List.replicate 1023 (0 : ℚ)) 0 rfl rfl rfl rfl rfl
    (by decide) (by decide) rfl (by decide) (by rw [List.length_replicate])
    (by
      intro t _ _ d hc
      have hz : ∀ i, (List.replicate 1023 (0 : ℚ) ++ [0]).getD i 0 = 0 := by
        intro i
        have hrep : List.replicate 1023 (0 : ℚ) ++ [0] = List.replicate 1024 0 := by
          rw [← List.replicate_succ']
        rw [hrep, List.getD_eq_getElem?_getD, List.getElem?_replicate]
        split <;> rfl
      rw [hz, hz] at hc
      simp [crossing] at hc)).2

/-- C7. Let `p` be the state in which the sample loop of a block starts.  If
`p` is playing (`playing`, `has_recorded`, loop length `L > 0`), no capture is
active or pending, and `p.read_pos = r < L ≤` capacity, then the block of `n`
samples outputs `buffer[(r + i) mod L]` at every `i < n`, leaves the loop
buffer unchanged and ends with `read_pos = (r + n) mod L`.  If `p` is neither
playing (one of `playing`, `has_recorded`, `L > 0` fails) nor capturing, every
output sample of the block is 0. -/
theorem C7_playback_reads_loop_cyclically (s : Remus) (b : Block) :
    ((blockPrelude s b).playing = true → (blockPrelude s b).has_recorded = true →
      (blockPrelude s b).recording = false → (blockPrelude s b).recording_tail = false →
      (blockPrelude s b).stitch_position = 0 →
      (blockPrelude s b).read_pos < (blockPrelude s b).loop_samples →
      (blockPrelude s b).loop_samples ≤ s.buffer_size → s.buffer_size = MAX_BUFFER_SIZE →
      ∃ s', run s b = some (s', (List.range b.audio_in.length).map (fun i =>
          s.buffer (((blockPrelude s b).read_pos + i) % (blockPrelude s b).loop_samples))) ∧
        s'.buffer = s.buffer ∧
        s'.read_pos = ((blockPrelude s b).read_pos + b.audio_in.length) %
          (blockPrelude s b).loop_samples) ∧
    (¬ ((blockPrelude s b).playing = true ∧ (blockPrelude s b).has_recorded = true ∧
        (blockPrelude s b).loop_samples > 0) →
      (blockPrelude s b).recording = false →
      (blockPrelude s b).recording_tail = false → (blockPrelude s b).stitch_position = 0 →
      ∃ s', run s b = some (s', List.replicate b.audio_in.length 0)) := by
  obtain ⟨hb1, hb2⟩ := blockPrelude_buffer s b
  constructor
  · intro h4 h5 h1 h2 h3 h6 h7 h8
    have hrun := processSamples_playing b.audio_in (blockPrelude s b) h1 h2 h3 h4 h5 h6
      (by rw [hb2]; exact h7) (by rw [hb2]; exact h8)
    unfold run
    rw [hrun, hb1]
    exact ⟨_, rfl, rfl, rfl⟩
  · intro h4 h1 h2 h3
    have hrun := processSamples_silent b.audio_in (blockPrelude s b) h1 h2 h3 h4
    unfold run
    rw [hrun]
    exact ⟨_, rfl⟩

/-- The prelude of `rollingBlock` leaves `playingState` playing. -/
theorem blockPrelude_playingState :
    blockPrelude playingState rollingBlock = { playingState with debug_logged := true } := by
  norm_num [blockPrelude, afterBarCheck, hotUpdate, playbackAlign, checkBarBoundary,
    afterTrigger, armOnTrigger, stopOnRestart, blockRecStart, rec_start, blockTransport, processEvents,
    applyEvent, blockLoopSamples, new_loop_samples, toU32, u32, toNat_numeral, playingState,
    rollingBlock, instantiate]

/-- Witness for C7: three samples played across the wrap of a 96000-sample
loop. -/
theorem C7_playback_reads_loop_cyclically_witness :
    ∃ s', run playingState rollingBlock =
        some (s', (List.range rollingBlock.audio_in.length).map (fun i =>
          playingState.buffer (((blockPrelude playingState rollingBlock).read_pos + i) %
            (blockPrelude playingState rollingBlock).loop_samples))) ∧
      s'.buffer = playingState.buffer ∧
      s'.read_pos = ((blockPrelude playingState rollingBlock).read_pos +
        rollingBlock.audio_in.length) % (blockPrelude playingState rollingBlock).loop_samples :=
  (C7_playback_reads_loop_cyclically playingState rollingBlock).1
    (by rw [blockPrelude_playingState]; rfl) (by rw [blockPrelude_playingState]; rfl)
    (by rw [blockPrelude_playingState]; rfl) (by rw [blockPrelude_playingState]; rfl)
    (by rw [blockPrelude_playingState]; rfl)
    (by rw [blockPrelude_playingState]; decide)
    (by rw [blockPrelude_playingState]; decide) rfl

/-- C8. Let the scheduler find a recorded loop (`has_recorded`,
`loop_samples > 0`, not recording) in a block.  From Stopped with transport
rolling, the state at the first sample is playing exactly when the transport
is at bar 0 with beat in `[0, 0.1)`, and then `waiting_to_play` is false and
`read_pos = 0`; otherwise the engine is waiting to play and not playing.  From
WaitingToPlay, it is playing at the first sample exactly when transport is
rolling and a bar crossing is detected, and then `waiting_to_play` is false
and `read_pos = 0`. -/
theorem C8_playback_start (s : Remus) (b : Block)
    (hhas : (afterBarCheck s b).has_recorded = true)
    (hL : (afterBarCheck s b).loop_samples > 0)
    (hrec : (afterBarCheck s b).recording = false) :
    ((afterBarCheck s b).playing = false → (afterBarCheck s b).waiting_to_play = false →
      (blockTransport s b).transport_rolling = true →
      ((blockPrelude s b).playing = true ↔ atTop (blockTransport s b)) ∧
      (atTop (blockTransport s b) → (blockPrelude s b).playing = true ∧
        (blockPrelude s b).waiting_to_play = false ∧ (blockPrelude s b).read_pos = 0) ∧
      (¬ atTop (blockTransport s b) → (blockPrelude s b).waiting_to_play = true ∧
        (blockPrelude s b).playing = false)) ∧
    ((afterBarCheck s b).waiting_to_play = true → (afterBarCheck s b).playing = false →
      ((blockPrelude s b).playing = true ↔
        ((blockTransport s b).transport_rolling = true ∧ barCrossed s (blockTransport s b))) ∧
      (((blockTransport s b).transport_rolling = true ∧ barCrossed s (blockTransport s b)) →
        (blockPrelude s b).playing = true ∧ (blockPrelude s b).waiting_to_play = false ∧
        (blockPrelude s b).read_pos = 0)) := by
  obtain ⟨hl1, hl2⟩ := afterBarCheck_last s b
  have hcross : barCrossed (afterBarCheck s b) (blockTransport s b) ↔
      barCrossed s (blockTransport s b) := by
    unfold barCrossed
    rw [hl1, hl2]
  obtain ⟨f1, f2, f3⟩ := hotUpdate_flags
    (playbackAlign (afterBarCheck s b) (blockTransport s b)) (blockLoopSamples s b)
  have hp : blockPrelude s b = hotUpdate
    (playbackAlign (afterBarCheck s b) (blockTransport s b)) (blockLoopSamples s b) := rfl
  rw [hp, f1, f2]
  constructor
  · intro h1 h2 hr
    have hyes : atTop (blockTransport s b) →
        (playbackAlign (afterBarCheck s b) (blockTransport s b)).playing = true ∧
        (playbackAlign (afterBarCheck s b) (blockTransport s b)).waiting_to_play = false ∧
        (hotUpdate (playbackAlign (afterBarCheck s b) (blockTransport s b))
          (blockLoopSamples s b)).read_pos = 0 := by
      intro htop
      have he := playbackAlign_stopped_top _ _ ⟨hhas, hL, hrec⟩ h1 h2 hr htop
      refine ⟨by rw [he], by rw [he], f3 (by rw [he])⟩
    have hno : ¬ atTop (blockTransport s b) →
        (playbackAlign (afterBarCheck s b) (blockTransport s b)).waiting_to_play = true ∧
        (playbackAlign (afterBarCheck s b) (blockTransport s b)).playing = false := by
      intro htop
      have he := playbackAlign_stopped_wait _ _ ⟨hhas, hL, hrec⟩ h1 h2 hr htop
      refine ⟨by rw [he], by rw [he]; exact h1⟩
    refine ⟨⟨?_, fun h => (hyes h).1⟩, hyes, hno⟩
    intro hplay
    by_contra htop
    rw [(hno htop).2] at hplay
    exact absurd hplay (by simp)
  · intro h2 h1
    have hyes : ((blockTransport s b).transport_rolling = true ∧
        barCrossed s (blockTransport s b)) →
        (playbackAlign (afterBarCheck s b) (blockTransport s b)).playing = true ∧
        (playbackAlign (afterBarCheck s b) (blockTransport s b)).waiting_to_play = false ∧
        (hotUpdate (playbackAlign (afterBarCheck s b) (blockTransport s b))
          (blockLoopSamples s b)).read_pos = 0 := by
      intro hc
      have he := playbackAlign_waiting_start _ _ ⟨hhas, hL, hrec⟩ h2 hc.1 (hcross.2 hc.2)
      refine ⟨by rw [he], by rw [he], f3 (by rw [he])⟩
    refine ⟨⟨?_, fun h => (hyes h).1⟩, hyes⟩
    intro hplay
    by_contra hc
    by_cases hr : (blockTransport s b).transport_rolling = true
    · have he := playbackAlign_waiting_stay _ _ ⟨hhas, hL, hrec⟩ h2 hr
        (fun hx => hc ⟨hr, hcross.1 hx⟩)
      rw [he, h1] at hplay
      exact absurd hplay (by simp)
    · have he := playbackAlign_stop _ _ ⟨hhas, hL, hrec⟩ (by simpa using hr)
      rw [he] at hplay
      exact absurd hplay (by simp)

/-- The state of `stoppedState` when the scheduler of `topBlock` runs. -/
theorem afterBarCheck_stoppedState :
    afterBarCheck stoppedState topBlock = { stoppedState with debug_logged := true } := by
  norm_num [afterBarCheck, checkBarBoundary, afterTrigger, armOnTrigger, stopOnRestart,
    blockRecStart, rec_start, blockTransport, processEvents, applyEvent, stoppedState, topBlock,
    instantiate]

/-- Witness for C8: a stopped engine with a loop starts at bar 0, beat 0. -/
theorem C8_playback_start_witness :
    (blockPrelude stoppedState topBlock).playing = true ∧
      (blockPrelude stoppedState topBlock).waiting_to_play = false ∧
      (blockPrelude stoppedState topBlock).read_pos = 0 :=
  ((C8_playback_start stoppedState topBlock
    (by rw [afterBarCheck_stoppedState]; rfl) (by rw [afterBarCheck_stoppedState]; decide)
    (by rw [afterBarCheck_stoppedState]; rfl)).1
    (by rw [afterBarCheck_stoppedState]; rfl) (by rw [afterBarCheck_stoppedState]; rfl)
    (by norm_num [blockTransport, processEvents, applyEvent, topBlock])).2.1
    (by norm_num [atTop, blockTransport, processEvents, applyEvent, topBlock])

/-- C9 (as the code has it). In a block in which transport is not rolling and
in which the playback scheduler finds a recorded loop (`has_recorded`,
`loop_samples > 0` and not recording, after the trigger and bar handling of
the block), both `playing` and `waiting_to_play` are false when the sample
loop starts and at the end of the block. -/
theorem C9_transport_stop_with_loop (s : Remus) (b : Block)
    (hhas : (afterBarCheck s b).has_recorded = true)
    (hL : (afterBarCheck s b).loop_samples > 0)
    (hrec : (afterBarCheck s b).recording = false)
    (hstop : (blockTransport s b).transport_rolling = false) :
    (blockPrelude s b).playing = false ∧ (blockPrelude s b).waiting_to_play = false ∧
    ∀ s' out, run s b = some (s', out) → s'.playing = false ∧ s'.waiting_to_play = false := by
  obtain ⟨f1, f2, _⟩ := hotUpdate_flags
    (playbackAlign (afterBarCheck s b) (blockTransport s b)) (blockLoopSamples s b)
  have he := playbackAlign_stop _ _ ⟨hhas, hL, hrec⟩ hstop
  have hp1 : (blockPrelude s b).playing = false := by
    unfold blockPrelude
    rw [f1, he]
  have hp2 : (blockPrelude s b).waiting_to_play = false := by
    unfold blockPrelude
    rw [f2, he]
  refine ⟨hp1, hp2, ?_⟩
  intro s' out hrun
  obtain ⟨s1, _, hf, hs'⟩ := run_frame s s' b out hrun
  obtain ⟨_, _, _, f4, f5, _⟩ := hf
  rw [hs']
  exact ⟨by simp only [f4, hp1], by simp only [f5, hp2]⟩

/-- The state of `playingState` when the scheduler of `silentStopBlock` runs. -/
theorem afterBarCheck_playingState :
    afterBarCheck playingState silentStopBlock = { playingState with debug_logged := true } := by
  norm_num [afterBarCheck, checkBarBoundary, afterTrigger, armOnTrigger, stopOnRestart,
    blockRecStart, rec_start, blockTransport, processEvents, playingState, silentStopBlock,
    instantiate]

/-- Witness for C9: a playing engine meets a block without position event. -/
theorem C9_transport_stop_with_loop_witness :
    (blockPrelude playingState silentStopBlock).playing = false ∧
      (blockPrelude playingState silentStopBlock).waiting_to_play = false ∧
      ∀ s' out, run playingState silentStopBlock = some (s', out) →
        s'.playing = false ∧ s'.waiting_to_play = false :=
  C9_transport_stop_with_loop playingState silentStopBlock
    (by rw [afterBarCheck_playingState]; rfl) (by rw [afterBarCheck_playingState]; decide)
    (by rw [afterBarCheck_playingState]; rfl)
    (by simp [blockTransport, processEvents, silentStopBlock])

/-- C9 as stated fails: after a loop was recorded and is playing, a new take
is started by a trigger at the bar line; the next block carries no position
event (transport not rolling) and ends with `playing` still true. -/
theorem C9_counterexample :
    ∃ s4 o4 s' out, runBlocks (activate (instantiate 48000))
        [sessionPress, sessionRecord, sessionPress, sessionRerecord] = some (s4, o4) ∧
      Reachable s4 ∧ (blockTransport s4 sessionStop).transport_rolling = false ∧
      run s4 sessionStop = some (s', out) ∧ s'.playing = true := by
  obtain ⟨s4, o4, s', out, h4, h5, hp, _, _⟩ := session_stopped
  exact ⟨s4, o4, s', out, h4, reachable_runBlocks _ _ _ _ (Reachable.init 48000) h4,
    blockTransport_noEvent s4 0 1 [0, 0], h5, hp⟩

/-- C10, the code at the failing input. A take is recorded and its tail
capture is in progress (two tail samples captured) when record-enable is
released: the block is a record trigger, yet at its end `recording_tail` is
still true and `has_recorded` is still false; the capture goes on (four tail
samples) and the engine is armed. -/
theorem C10_trigger_during_tail_not_aborted :
    ∃ s o s' out, runBlocks (activate (instantiate 48000))
        [sessionPress, sessionRerecord, takePress] = some (s, o) ∧
      s.recording_tail = true ∧ s.tail_pos = 2 ∧ blockRecStart s takeRelease = true ∧
      run s takeRelease = some (s', out) ∧
      s'.recording_tail = true ∧ s'.has_recorded = false ∧ s'.tail_pos = 4 ∧
      s'.waiting_for_bar = true := by
  obtain ⟨s, o, hrun, hT, _, h2, h3, h4, h5⟩ := session_in_tail
  obtain ⟨s', out, hrun', _, q2, q3, q4, q5⟩ := run_trigger_in_tail _ 96000 2 s 1 2 0 [0, 0] hT
    (by rw [h2]; norm_num) (by norm_num) h3 h4 (by rw [h5]; norm_num)
    (by
      intro i
      rw [List.getD_eq_getElem?_getD]
      rcases i with _ | _ | i <;> simp)
    (by decide)
  refine ⟨s, o, s', out, hrun, hT.2.1, hT.2.2.2.2.1, ?_, hrun', q2, q3, q5, q4⟩
  simp only [blockRecStart, h2]
  norm_num [rec_start, takeRelease]

/-- C11, the code at the failing input. A loop is recorded and plays (a state
reached through `run`); record-enable is released at the bar line and a new
take is recorded in one block: 96000 loop samples and 1024 tail samples of
value 1.  The 1024th tail sample is appended to the tail buffer and completes
the capture; `playing` is still set from the old loop, and the output written
for that sample is 1, the spliced loop at `read_pos = 0`, not 0. -/
theorem C11_output_on_tail_completion :
    ∃ s o s', runBlocks (activate (instantiate 48000))
        [sessionPress, sessionRecord, sessionPress] = some (s, o) ∧
      Reachable s ∧ s.playing = true ∧
      run s sessionRecordOnes =
        some (s', List.replicate 96000 0 ++ (List.replicate 1023 0 ++ [1])) ∧
      s'.recording_tail = false ∧ s'.has_recorded = true := by
  obtain ⟨s, o, s', hrun, h0, h1, h2, h3⟩ := session_output_in_tail
  exact ⟨s, o, s', hrun, reachable_runBlocks _ _ _ _ (Reachable.init 48000) hrun, h0, h1, h2,
    h3⟩

/-- C12. The loop length computed in a block is
`floor(floor(beats_per_bar * loop_len) * 60 * sample_rate / bpm)` whenever
`bpm > 0`, the sample rate is not negative and both conversions to `uint32_t`
are applied to values of the 32-bit range (outside of it the conversion is
undefined in C).  The value latched at arming, and the value adopted by the
hot-update, is the computed length clamped to the buffer capacity; for the
buffer of 14,400,000 samples it never exceeds 14,400,000 (and, being
unsigned, is never negative). -/
theorem C12_loop_length (s : Remus) (b : Block) :
    (0 < (blockTransport s b).bpm → 0 ≤ s.sample_rate →
      0 ≤ (blockTransport s b).beats_per_bar * b.loop_len →
      (blockTransport s b).beats_per_bar * b.loop_len < 4294967296 →
      ((⌊(blockTransport s b).beats_per_bar * b.loop_len⌋ : ℤ) : ℚ) * 60 * s.sample_rate /
        (blockTransport s b).bpm < 4294967296 →
      ((blockLoopSamples s b : ℕ) : ℤ) =
        ⌊((⌊(blockTransport s b).beats_per_bar * b.loop_len⌋ : ℤ) : ℚ) * 60 * s.sample_rate /
          (blockTransport s b).bpm⌋) ∧
    (blockRecStart s b = true →
      (afterTrigger s b).loop_samples = min (blockLoopSamples s b) s.buffer_size) ∧
    ((afterScheduler s b).recording = false → (afterScheduler s b).waiting_for_bar = false →
      (afterScheduler s b).has_recorded = true →
      blockLoopSamples s b ≠ (afterScheduler s b).loop_samples →
      (blockPrelude s b).loop_samples = min (blockLoopSamples s b) s.buffer_size) ∧
    (s.buffer_size = MAX_BUFFER_SIZE → min (blockLoopSamples s b) s.buffer_size ≤ 14400000) := by
  refine ⟨?_, afterTrigger_latch s b, ?_, ?_⟩
  · intro hbpm hsr h0 h1 h2
    obtain ⟨_, hq⟩ := toU32_of_range _ h0 h1
    have hf0 : (0 : ℚ) ≤ ((⌊(blockTransport s b).beats_per_bar * b.loop_len⌋ : ℤ) : ℚ) := by
      exact_mod_cast Int.floor_nonneg.2 h0
    have hy0 : 0 ≤ ((⌊(blockTransport s b).beats_per_bar * b.loop_len⌋ : ℤ) : ℚ) * 60 *
        s.sample_rate / (blockTransport s b).bpm := by positivity
    unfold blockLoopSamples new_loop_samples
    simp only
    rw [hq]
    exact (toU32_of_range _ hy0 h2).1
  · intro h1 h2 h3 h4
    rw [← afterScheduler_buffer_size s b]
    exact (hotUpdate_adopt (afterScheduler s b) (blockLoopSamples s b) h1 h2 h3 h4).1
  · intro hB
    rw [hB]
    exact Nat.min_le_right _ _

/-- Witness for C12: one bar of four beats at 120 bpm and 48 kHz. -/
theorem C12_loop_length_witness :
    ((blockLoopSamples pressedState sessionStop : ℕ) : ℤ) =
      ⌊((⌊(blockTransport pressedState sessionStop).beats_per_bar * sessionStop.loop_len⌋ : ℤ) : ℚ)
        * 60 * pressedState.sample_rate / (blockTransport pressedState sessionStop).bpm⌋ :=
  (C12_loop_length pressedState sessionStop).1
    (by norm_num [blockTransport, processEvents, pressedState, sessionStop, instantiate])
    (by norm_num [pressedState, instantiate])
    (by norm_num [blockTransport, processEvents, pressedState, sessionStop, instantiate])
    (by norm_num [blockTransport, processEvents, pressedState, sessionStop, instantiate])
    (by norm_num [blockTransport, processEvents, pressedState, sessionStop, instantiate])

/-- C13. A block is a record trigger exactly when the record-enable value kept
from the previous block is above 0.5 and the value of the block is at most
0.5; the kept value is replaced by the value of the block in every block and
is 0 in a fresh engine.  On a trigger while idle (not recording, no tail
capture, no splice pending, `read_pos` inside the buffer) in a block without a
bar crossing under rolling transport, `run` returns with the engine armed and
`loop_samples` the smaller of the computed loop length and the capacity.  In a
block without a trigger `waiting_for_bar` does not go from false to true. -/
theorem C13_trigger_and_arming (s : Remus) (b : Block) :
    (blockRecStart s b = true ↔ (s.prev_record_enable > 1/2 ∧ b.rec_enable ≤ 1/2)) ∧
    (blockPrelude s b).prev_record_enable = b.rec_enable ∧
    (∀ s' out, run s b = some (s', out) → s'.prev_record_enable = b.rec_enable) ∧
    (∀ rate, (instantiate rate).prev_record_enable = 0 ∧
      (activate (instantiate rate)).prev_record_enable = 0) ∧
    (blockRecStart s b = true → s.recording = false → s.recording_tail = false →
      ¬ spliceDue s → s.read_pos < s.buffer_size →
      ¬ ((blockTransport s b).transport_rolling = true ∧ barCrossed s (blockTransport s b)) →
      (blockPrelude s b).waiting_for_bar = true ∧
      (blockPrelude s b).loop_samples = min (blockLoopSamples s b) s.buffer_size ∧
      ∃ s' out, run s b = some (s', out) ∧ s'.waiting_for_bar = true ∧
        s'.loop_samples = min (blockLoopSamples s b) s.buffer_size) ∧
    (blockRecStart s b = false → s.waiting_for_bar = false →
      (blockPrelude s b).waiting_for_bar = false ∧
      ∀ s' out, run s b = some (s', out) → s'.waiting_for_bar = false) := by
  have hprev : (blockPrelude s b).prev_record_enable = b.rec_enable := by
    obtain ⟨pl, wp, rp, L, h⟩ := blockPrelude_frame s b
    rw [h]
    simp only
    unfold afterBarCheck checkBarBoundary
    split_ifs <;> exact afterTrigger_prev s b
  refine ⟨?_, hprev, ?_, fun rate => ⟨rfl, rfl⟩, ?_, ?_⟩
  · unfold blockRecStart rec_start
    simp only [Bool.and_eq_true, decide_eq_true_eq]
    exact and_comm
  · intro s' out hrun
    obtain ⟨s1, _, hf, hs'⟩ := run_frame s s' b out hrun
    obtain ⟨_, _, _, _, _, f6, _⟩ := hf
    rw [hs']
    simp only [f6, hprev]
  · intro ht hrec htail hnd hrp hnc
    have ha := afterTrigger_arm s b hrec ht
    have hstay : afterBarCheck s b = afterTrigger s b := by
      unfold afterBarCheck
      apply checkBarBoundary_stay
      rintro ⟨_, hr, hc⟩
      exact hnc ⟨hr, (barCrossed_afterTrigger s b _).1 hc⟩
    obtain ⟨pl, wp, rp, hal⟩ := playbackAlign_frame (afterBarCheck s b) (blockTransport s b)
    have hrp2 := playbackAlign_read_pos (afterBarCheck s b) (blockTransport s b)
    have hpre : blockPrelude s b = playbackAlign (afterBarCheck s b) (blockTransport s b) := by
      unfold blockPrelude
      apply hotUpdate_skip
      rw [hal, hstay, ha]
      simp
    have e1 : (blockPrelude s b).waiting_for_bar = true := by
      rw [hpre, hal, hstay, ha]
    have e2 : (blockPrelude s b).loop_samples = min (blockLoopSamples s b) s.buffer_size := by
      rw [hpre, hal, hstay, ha]
    have e3 : (blockPrelude s b).recording = false := by
      rw [hpre, hal, hstay, ha]
      exact hrec
    have e4 : (blockPrelude s b).recording_tail = false := by
      rw [hpre, hal, hstay, ha]
      exact htail
    have e5 : ¬ spliceDue (blockPrelude s b) := by
      rw [hpre, hal, hstay, ha]
      exact hnd
    have e6 : (blockPrelude s b).buffer_size = s.buffer_size := (blockPrelude_buffer s b).2
    have e7 : (blockPrelude s b).read_pos < (blockPrelude s b).buffer_size := by
      rw [e6, hpre]
      rcases hrp2 with h | h
      · rw [h, hstay, ha]
        exact hrp
      · rw [h]
        omega
    obtain ⟨s1, out, hps⟩ := processSamples_idle b.audio_in (blockPrelude s b) e3 e4 e5 e7
      (by rw [e2, e6]; exact Nat.min_le_right _ _)
    have hrun := run_of_processSamples s s1 b out hps
    obtain ⟨s1', _, hf, hs'⟩ := run_frame s _ b out hrun
    obtain ⟨_, f2, f3, _⟩ := hf
    refine ⟨e1, e2, _, out, hrun, ?_, ?_⟩
    · rw [hs']
      simp only [f3, e1]
    · rw [hs']
      simp only [f2, e2]
  · intro ht hw
    have ha := afterTrigger_noTrigger s b ht
    have hstay : afterBarCheck s b = afterTrigger s b := by
      unfold afterBarCheck
      apply checkBarBoundary_stay
      rintro ⟨h, _, _⟩
      rw [ha] at h
      simp [hw] at h
    have e1 : (blockPrelude s b).waiting_for_bar = false := by
      obtain ⟨pl, wp, rp, L, h⟩ := blockPrelude_frame s b
      rw [h, hstay, ha]
      exact hw
    refine ⟨e1, ?_⟩
    intro s' out hrun
    obtain ⟨s1, _, hf, hs'⟩ := run_frame s s' b out hrun
    obtain ⟨_, _, f3, _⟩ := hf
    rw [hs']
    simp only [f3, e1]

/-- Witness for C13: a stopped engine whose record-enable port was high meets
a block with the port low and no position event. -/
theorem C13_trigger_and_arming_witness :
    (blockPrelude pressedState sessionStop).waiting_for_bar = true ∧
      (blockPrelude pressedState sessionStop).loop_samples =
        min (blockLoopSamples pressedState sessionStop) pressedState.buffer_size ∧
      ∃ s' out, run pressedState sessionStop = some (s', out) ∧ s'.waiting_for_bar = true ∧
        s'.loop_samples = min (blockLoopSamples pressedState sessionStop)
          pressedState.buffer_size :=
  (C13_trigger_and_arming pressedState sessionStop).2.2.2.2.1
    (by norm_num [blockRecStart, rec_start, pressedState, sessionStop, instantiate])
    rfl rfl (by simp [spliceDue, pressedState, instantiate]) (by decide)
    (by simp [blockTransport, processEvents, sessionStop])

/-- C14. In a block in which the engine is idle with a loop when the
hot-update runs (not recording, not armed, `has_recorded`): if the computed
loop length differs from the active `loop_samples`, then `loop_samples`
becomes the smaller of the computed length and the capacity, and `read_pos` is
reset to 0 when it is no longer below the new `loop_samples` and kept
otherwise; if the computed length equals `loop_samples`, or the engine is
recording, armed or has no loop, the hot-update changes nothing. -/
theorem C14_hot_update (s : Remus) (b : Block) :
    blockPrelude s b = hotUpdate (afterScheduler s b) (blockLoopSamples s b) ∧
    ((afterScheduler s b).recording = false → (afterScheduler s b).waiting_for_bar = false →
      (afterScheduler s b).has_recorded = true →
      blockLoopSamples s b ≠ (afterScheduler s b).loop_samples →
      (blockPrelude s b).loop_samples =
        min (blockLoopSamples s b) (afterScheduler s b).buffer_size ∧
      (blockPrelude s b).read_pos =
        (if (afterScheduler s b).read_pos <
            min (blockLoopSamples s b) (afterScheduler s b).buffer_size
          then (afterScheduler s b).read_pos else 0)) ∧
    ((blockLoopSamples s b = (afterScheduler s b).loop_samples ∨
        (afterScheduler s b).recording = true ∨ (afterScheduler s b).waiting_for_bar = true ∨
        (afterScheduler s b).has_recorded = false) →
      blockPrelude s b = afterScheduler s b) := by
  refine ⟨rfl, ?_, ?_⟩
  · intro h1 h2 h3 h4
    exact hotUpdate_adopt (afterScheduler s b) (blockLoopSamples s b) h1 h2 h3 h4
  · intro h
    have hpre : blockPrelude s b = hotUpdate (afterScheduler s b) (blockLoopSamples s b) := rfl
    rw [hpre]
    rcases h with h | h | h | h
    · exact hotUpdate_same _ _ h
    · exact hotUpdate_skip _ _ (by simp [h])
    · exact hotUpdate_skip _ _ (by simp [h])
    · exact hotUpdate_skip _ _ (by simp [h])

/-- The state of `playingState` when the hot-update of `halfBarBlock` runs. -/
theorem afterScheduler_playingState :
    afterScheduler playingState halfBarBlock = { playingState with debug_logged := true } := by
  norm_num [afterScheduler, afterBarCheck, playbackAlign, checkBarBoundary,
    afterTrigger, armOnTrigger, stopOnRestart, blockRecStart, rec_start, blockTransport,
    processEvents, applyEvent, playingState, halfBarBlock, instantiate]

/-- The loop length computed in `halfBarBlock`: two beats at 120 bpm. -/
theorem blockLoopSamples_halfBar : blockLoopSamples playingState halfBarBlock = 48000 := by
  norm_num [blockLoopSamples, new_loop_samples, toU32, u32, toNat_numeral, blockTransport,
    processEvents, applyEvent, playingState, halfBarBlock, instantiate]

/-- Witness for C14: a loop of 96000 samples playing at position 95999 is set
to half a bar, 48000 samples, and `read_pos` goes back to 0. -/
theorem C14_hot_update_witness :
    (blockPrelude playingState halfBarBlock).loop_samples = 48000 ∧
      (blockPrelude playingState halfBarBlock).read_pos = 0 := by
  have h := (C14_hot_update playingState halfBarBlock).2.1
    (by rw [afterScheduler_playingState]; rfl) (by rw [afterScheduler_playingState]; rfl)
    (by rw [afterScheduler_playingState]; rfl)
    (by rw [afterScheduler_playingState, blockLoopSamples_halfBar]; decide)
  rw [afterScheduler_playingState, blockLoopSamples_halfBar] at h
  exact h

/-- C15. For an engine with a recorded loop of `K` samples (`has_recorded`,
`1 ≤ K ≤` capacity) and `persist_enable ≥ 0.5`, `save` stores its three items
and `restore` of these items into a freshly instantiated engine gives
`loop_samples = K`, `has_recorded = true`, `read_pos = 0`, `recording = false`,
`waiting_for_bar = false` and the first `K` buffer samples of the saved
engine; when persistence is disabled or there is no loop, `save` leaves the
store as it was. -/
theorem C15_save_restore_round_trip (s : Remus) (persist_enable : ℚ) (st0 : Storage)
    (rate : ℚ) :
    (persist_enable ≥ 1/2 → s.has_recorded = true → 1 ≤ s.loop_samples →
      s.loop_samples ≤ s.buffer_size → s.loop_samples ≤ MAX_BUFFER_SIZE →
      ∃ st, save s persist_enable st0 = some st ∧
        (restore (instantiate rate) st).loop_samples = s.loop_samples ∧
        (restore (instantiate rate) st).has_recorded = true ∧
        (restore (instantiate rate) st).read_pos = 0 ∧
        (restore (instantiate rate) st).recording = false ∧
        (restore (instantiate rate) st).waiting_for_bar = false ∧
        ∀ k, k < s.loop_samples → (restore (instantiate rate) st).buffer k = s.buffer k) ∧
    ((persist_enable < 1/2 ∨ s.has_recorded = false ∨ s.loop_samples = 0) →
      save s persist_enable st0 = some st0) := by
  constructor
  · intro hpe hhas hK1 hK2 hK3
    have hmax : MAX_BUFFER_SIZE = 14400000 := by decide
    have hu : u32 s.loop_samples = s.loop_samples := by
      unfold u32
      omega
    have hsave : save s persist_enable st0 = some
        { remus_buffer := some ((List.range s.loop_samples).map s.buffer, AtomType.atom_Float)
          remus_loop_samples := some (s.loop_samples, AtomType.atom_Long)
          remus_has_recorded := some (1, AtomType.atom_Long) } := by
      unfold save
      rw [if_neg (not_lt.2 hpe), if_neg (by simp [hhas]; omega), if_pos hK2]
      simp [hhas]
    refine ⟨_, hsave, ?_⟩
    rw [restore_saved (instantiate rate) _ AtomType.atom_Float s.loop_samples (by omega)
      (by simp only [instantiate]; omega) (by omega) (by simp)]
    refine ⟨rfl, rfl, rfl, rfl, rfl, ?_⟩
    intro k hk
    simp only
    rw [if_pos hk]
    exact getD_map_range s.buffer s.loop_samples k hk
  · intro h
    unfold save
    rcases h with h | h | h
    · rw [if_pos h]
    · split
      · rfl
      · rw [if_pos (Or.inl h)]
    · split
      · rfl
      · rw [if_pos (Or.inr h)]

/-- Witness for C15: a loop of three samples is saved and restored. -/
theorem C15_save_restore_round_trip_witness :
    ∃ st, save threeSampleLoop 1 emptyStorage = some st ∧
      (restore (instantiate 48000) st).loop_samples = threeSampleLoop.loop_samples ∧
      (restore (instantiate 48000) st).has_recorded = true ∧
      (restore (instantiate 48000) st).read_pos = 0 ∧
      (restore (instantiate 48000) st).recording = false ∧
      (restore (instantiate 48000) st).waiting_for_bar = false ∧
      ∀ k, k < threeSampleLoop.loop_samples →
        (restore (instantiate 48000) st).buffer k = threeSampleLoop.buffer k :=
  (C15_save_restore_round_trip threeSampleLoop 1 emptyStorage 48000).1 (by norm_num) rfl
    (by decide) (by decide) (by decide)

/-- C16, the code at the failing input. A loop of three samples is restored
into a fresh engine (`has_recorded = true`, `loop_samples = 3`); `activate`
keeps the buffer and `has_recorded` but sets `loop_samples` to 0, as it does
for every state.  The first block after it adopts the length computed from
the tempo (96000 samples for one bar at 120 bpm), not the restored one. -/
theorem C16_activate_resets_loop_samples :
    (restore (instantiate 48000) threeSampleStorage).has_recorded = true ∧
      (restore (instantiate 48000) threeSampleStorage).loop_samples = 3 ∧
      (activate (restore (instantiate 48000) threeSampleStorage)).loop_samples = 0 ∧
      (activate (restore (instantiate 48000) threeSampleStorage)).has_recorded = true ∧
      (activate (restore (instantiate 48000) threeSampleStorage)).buffer =
        (restore (instantiate 48000) threeSampleStorage).buffer ∧
      (∀ s : Remus, (activate s).loop_samples = 0) ∧
      (blockPrelude (activate (restore (instantiate 48000) threeSampleStorage))
        rollingBlock).loop_samples = 96000 := by
  rw [restore_threeSample]
  refine ⟨rfl, rfl, rfl, rfl, rfl, fun s => rfl, ?_⟩
  norm_num [blockPrelude, afterBarCheck, hotUpdate, playbackAlign, checkBarBoundary,
    afterTrigger, armOnTrigger, stopOnRestart, blockRecStart, rec_start, blockTransport,
    processEvents, applyEvent, blockLoopSamples, new_loop_samples, toU32, u32, toNat_numeral,
    rollingBlock, activate, instantiate, MAX_BUFFER_SIZE]

/-- C17 (as the code has it). A block that carries no position event and no
record trigger signals no bar crossing and counts as transport not rolling.
It leaves `waiting_for_bar` unchanged, so an armed engine stays armed, over
any number of such blocks.  It leaves `waiting_to_play` unchanged only when
the scheduler finds no recorded loop; when a loop is present (`has_recorded`,
`loop_samples > 0`, not recording) it clears `waiting_to_play` and `playing`. -/
theorem C17_block_without_position (s : Remus) (b : Block) (hev : b.events = [])
    (ht : blockRecStart s b = false) :
    ¬ barCrossed s (blockTransport s b) ∧
    (blockTransport s b).transport_rolling = false ∧
    (blockPrelude s b).waiting_for_bar = s.waiting_for_bar ∧
    (∀ s' out, run s b = some (s', out) → s'.waiting_for_bar = s.waiting_for_bar) ∧
    (∀ (bs : List Block) s' out, (∀ c, c ∈ bs → c.events = []) →
      noTrigger s.prev_record_enable bs → runBlocks s bs = some (s', out) →
      s'.waiting_for_bar = s.waiting_for_bar) ∧
    (¬ (s.has_recorded = true ∧ s.loop_samples > 0 ∧ s.recording = false) →
      (blockPrelude s b).waiting_to_play = s.waiting_to_play ∧
      ∀ s' out, run s b = some (s', out) → s'.waiting_to_play = s.waiting_to_play) ∧
    ((s.has_recorded = true ∧ s.loop_samples > 0 ∧ s.recording = false) →
      (blockPrelude s b).waiting_to_play = false ∧ (blockPrelude s b).playing = false ∧
      ∀ s' out, run s b = some (s', out) → s'.waiting_to_play = false ∧ s'.playing = false) := by
  have hT := blockTransport_nil s b hev
  refine ⟨?_, by rw [hT], blockPrelude_noEvent_wait s b hev ht, ?_, ?_, ?_, ?_⟩
  · rw [hT]
    unfold barCrossed
    simp
  · intro s' out hrun
    rw [(run_flags s s' b out hrun).1]
    exact blockPrelude_noEvent_wait s b hev ht
  · intro bs s' out h1 h2 h3
    exact runBlocks_noEvent_wait bs s s' out h1 h2 h3
  · intro hg
    obtain ⟨e1, _⟩ := blockPrelude_noEvent_noloop s b hev ht hg
    refine ⟨e1, ?_⟩
    intro s' out hrun
    rw [(run_flags s s' b out hrun).2.1]
    exact e1
  · intro hg
    obtain ⟨e1, e2⟩ := blockPrelude_noEvent_loop s b hev ht hg
    refine ⟨e1, e2, ?_⟩
    intro s' out hrun
    obtain ⟨_, g2, g3, _⟩ := run_flags s s' b out hrun
    rw [g2, g3]
    exact ⟨e1, e2⟩

/-- Witness for C17: an armed engine stays armed in a block without position
event. -/
theorem C17_block_without_position_witness :
    (blockPrelude armedState sessionStop).waiting_for_bar = armedState.waiting_for_bar ∧
      ∀ s' out, run armedState sessionStop = some (s', out) →
        s'.waiting_for_bar = armedState.waiting_for_bar :=
  ⟨(C17_block_without_position armedState sessionStop rfl
      (by norm_num [blockRecStart, rec_start, armedState, sessionStop, instantiate])).2.2.1,
    (C17_block_without_position armedState sessionStop rfl
      (by norm_num [blockRecStart, rec_start, armedState, sessionStop, instantiate])).2.2.2.1⟩

/-- C17 as stated fails: after a loop was recorded, a rolling block in the
middle of a bar leaves the engine waiting to play; the next block carries no
position event and no trigger, and ends with `waiting_to_play` false. -/
theorem C17_counterexample :
    ∃ s o s', runBlocks (activate (instantiate 48000))
        [sessionPress, sessionRecord, takeRelease] = some (s, o) ∧
      Reachable s ∧ s.waiting_to_play = true ∧ sessionStop.events = [] ∧
      blockRecStart s sessionStop = false ∧
      run s sessionStop = some (s', List.replicate 2 0) ∧ s'.waiting_to_play = false := by
  obtain ⟨s, o, hrun, q1, _, q3, q4, q5, q6, q7, q8⟩ := session_waiting
  have ht : blockRecStart s sessionStop = false := by
    unfold blockRecStart
    rw [q8]
    norm_num [rec_start, sessionStop]
  obtain ⟨s', hrun', e1, _⟩ := run_noEvent_loop s sessionStop rfl ht q3 q4 q6
    ⟨q5, by rw [q7]; decide⟩
  exact ⟨s, o, s', hrun, reachable_runBlocks _ _ _ _ (Reachable.init 48000) hrun, q1, rfl, ht,
    hrun', e1⟩

/-- C18, the code at the failing input. A take is recorded and its tail
capture is in progress (a state reached through `run`) when record-enable is
released in a block whose loop length is half a beat: the block is a trigger,
the latched `loop_samples` is 0 and the capture goes on; the zero crossing of
the two input samples starts the scan of the loop, whose end
`loop_samples - 1` wraps to `2^32 - 1`, and the scan reads beyond the loop
buffer: `run` takes the out-of-range branch. -/
theorem C18_scan_leaves_buffer :
    ∃ s out, runBlocks (activate (instantiate 48000))
        [sessionPress, sessionRerecord, takePress] = some (s, out) ∧
      Reachable s ∧ blockRecStart s tailRelatch = true ∧
      (blockPrelude s tailRelatch).loop_samples = 0 ∧
      (blockPrelude s tailRelatch).recording_tail = true ∧
      run s tailRelatch = none := by
  obtain ⟨s, out, hrun, hT, _, q2, q3, q4, q5⟩ := session_in_tail
  obtain ⟨e1, _, e3, e4, e5⟩ := run_relatch_overrun s hT q2 q3 q4 q5
  exact ⟨s, out, hrun, reachable_runBlocks _ _ _ _ (Reachable.init 48000) hrun, e1, e3, e4, e5⟩

/-- C19. From the start of a tail capture (`recording_tail`, not recording, no
loop accepted yet, `tail_pos = 0`, `stitch_position = 0`, loop length between
1 and the capacity, `read_pos` inside the buffer) and for every input signal
of 1024 samples, the capture ends after `j` samples of the sample loop for
some `1 ≤ j ≤ 1024`, with `recording_tail = false` and `has_recorded = true`;
before that the capture is in progress with `tail_pos` below 1024, and a
stitch position that is set still lacks samples of its crossfade window and
has this window inside the tail buffer.  A block without trigger that carries
the 1024 samples returns with the capture ended. -/
theorem C19_tail_capture_completes (s : Remus) (ys : List ℚ)
    (hr : s.recording = false) (ht : s.recording_tail = true) (hh : s.has_recorded = false)
    (hp : s.tail_pos = 0) (hsp : s.stitch_position = 0) (hL1 : 1 ≤ s.loop_samples)
    (hL2 : s.loop_samples ≤ s.buffer_size) (hB : s.buffer_size = MAX_BUFFER_SIZE)
    (hrp : s.read_pos < s.buffer_size) (hlen : ys.length = 1024) :
    (∃ j s' out, 1 ≤ j ∧ j ≤ 1024 ∧ processSamples s (ys.take j) = some (s', out) ∧
      s'.recording_tail = false ∧ s'.has_recorded = true ∧
      ∀ i, i < j → ∃ si, processSamples s (ys.take i) = some (si, List.replicate i 0) ∧
        si.recording_tail = true ∧ si.tail_pos = i ∧ i < 1024 ∧
        (si.stitch_position ≠ 0 →
          i < si.stitch_position + 32 ∧ si.stitch_position + 32 < 1024)) ∧
    (∀ b : Block, b.audio_in = ys → s.waiting_for_bar = false → blockRecStart s b = false →
      ∃ s' out, run s b = some (s', out) ∧ s'.recording_tail = false ∧
        s'.has_recorded = true) := by
  constructor
  · obtain ⟨j, s', out, j1, j2, hrun, _, q2, q3, _, _, _, _, _, hpre⟩ :=
      tail_terminates s.buffer s.loop_samples ys 0 0 s s.tail_buffer
        ⟨hr, ht, hh, hsp, hp, rfl, rfl, hL1, hL2, hB, hrp, fun _ _ => rfl⟩ (Or.inl rfl)
        (by omega) (by omega)
    refine ⟨j, s', out, j1, by omega, hrun, q2, q3, ?_⟩
    intro i hi
    obtain ⟨si, r1, r2, _, r4, r5⟩ := hpre i hi
    refine ⟨si, r1, r2, by omega, by omega, ?_⟩
    intro hne
    have := r5 hne
    omega
  · intro b hb hw htr
    have hpre := blockPrelude_idle s b hh hw htr
    obtain ⟨j, s1, o1, j1, j2, hrun, q1, q2, q3, q4, q5, q6, q7, q8, _⟩ :=
      tail_terminates s.buffer s.loop_samples ys 0 0 (blockPrelude s b) s.tail_buffer
        (by
          rw [hpre]
          exact ⟨hr, ht, hh, hsp, hp, rfl, rfl, hL1, hL2, hB, hrp, fun _ _ => rfl⟩)
        (Or.inl rfl) (by omega) (by omega)
    have hbs : (blockPrelude s b).buffer_size = s.buffer_size := by rw [hpre]
    have hls : (blockPrelude s b).loop_samples = s.loop_samples := by rw [hpre]
    obtain ⟨s2, o2, hrest, _, r2, r3⟩ := processSamples_idle_fields (ys.drop j) s1 q1 q2
      (by simp [spliceDue, q5]) (by rw [q7]; exact q6) (by rw [q7, q8, hbs, hls]; exact hL2)
    have happ := processSamples_append _ _ _ _ _ _ _ hrun hrest
    rw [List.take_append_drop, ← hb] at happ
    exact ⟨_, _, run_of_processSamples s s2 b _ happ, r2, by rw [r3]; exact q3⟩

/-- Witness for C19: a tail capture over a silent loop of 96000 samples ends
within a block of 1024 silent samples. -/
theorem C19_tail_capture_completes_witness :
    ∃ s' out, run tailStart tailBlock = some (s', out) ∧ s'.recording_tail = false ∧
      s'.has_recorded = true :=
  (C19_tail_capture_completes tailStart (List.replicate 1024 0) rfl rfl rfl rfl rfl
    (by decide) (by decide) rfl (by decide) (List.length_replicate 1024 0)).2 tailBlock rfl rfl
    (by norm_num [blockRecStart, rec_start, tailStart, tailBlock, instantiate])

/-- C20, the code at the failing input. A take is recorded and its tail
capture is in progress when record-enable is released (the engine is armed
and the capture goes on); the next block crosses into bar 2 and starts the
new take: at its end, a state reached through `run`, both `recording` and
`recording_tail` are true. -/
theorem C20_recording_and_tail_both_set :
    ∃ s out, runBlocks (activate (instantiate 48000))
        [sessionPress, sessionRerecord, takePress, tailRestart] = some (s, out) ∧
      Reachable s ∧ s.recording = true ∧ s.recording_tail = true := by
  obtain ⟨s, out, hrun, h1, h2⟩ := session_both
  exact ⟨s, out, hrun, reachable_runBlocks _ _ _ _ (Reachable.init 48000) hrun, h1, h2⟩


/-- C21, the code at the failing input. A loop of 96000 samples is recorded
and plays for 50000 samples (a state reached through `run`, `read_pos =
50000`).  Record-enable is released in a block that sets the loop length to a
quarter of a bar: the trigger latches `loop_samples = 24000` and leaves
`read_pos` alone, the hot-update is skipped because the engine is armed, and
the first sample of the block is output from `buffer[50000]` while `playing`
and `has_recorded` are true and `loop_samples = 24000`: the index read is not
below `loop_samples`. -/
theorem C21_read_pos_outside_loop :
    ∃ s out, runBlocks (activate (instantiate 48000))
        [sessionPress, sessionRecord, sessionPlayLong] = some (s, out) ∧
      Reachable s ∧
      (blockPrelude s quarterBarTrigger).playing = true ∧
      (blockPrelude s quarterBarTrigger).has_recorded = true ∧
      (blockPrelude s quarterBarTrigger).loop_samples = 24000 ∧
      (blockPrelude s quarterBarTrigger).read_pos = 50000 ∧
      processSample (blockPrelude s quarterBarTrigger) 0 =
        some ({ blockPrelude s quarterBarTrigger with read_pos := 0 },
          (blockPrelude s quarterBarTrigger).buffer 50000) ∧
      ∃ s' out', run s quarterBarTrigger = some (s', out') := by
  obtain ⟨s, out, hrun, q1, q2, q3, q4, q5, _, q7, _, q9, q10, q11, q12, q13, q14⟩ :=
    session_playing_long
  obtain ⟨e1, e2, e3, e4, e5, e6⟩ := run_trigger_playing s q2 q3 q4 q5 q7 q1 q13 q10 q9 q11
    q12 q14
  exact ⟨s, out, hrun, reachable_runBlocks _ _ _ _ (Reachable.init 48000) hrun, e1, e2, e3, e4,
    e5, e6⟩

/-- C22 (as the code has it). In every state reachable from `instantiate`
through `activate`, `run` and `restore`, `loop_samples` is at most the
capacity of 14,400,000 samples.  In every state reachable from activation
through `run`, `write_pos ≤ loop_samples` holds while the engine is recording;
outside of a take `write_pos` keeps the value of the last take, whatever
`loop_samples` becomes. -/
theorem C22_loop_and_write_bounds (s : Remus) :
    (ReachableR s → s.loop_samples ≤ 14400000 ∧ s.buffer_size = 14400000) ∧
    (Reachable s → s.recording = true → s.write_pos ≤ s.loop_samples) := by
  constructor
  · intro h
    obtain ⟨i1, i2⟩ := reachableR_capInv s h
    have hmax : MAX_BUFFER_SIZE = 14400000 := by decide
    rw [hmax] at i2
    exact ⟨by omega, i2⟩
  · intro h
    exact reachable_writeInv s h

/-- Witness for C22: the state of the session in which a second take is being
recorded. -/
theorem C22_loop_and_write_bounds_witness :
    ∃ s out, runBlocks (activate (instantiate 48000))
        [sessionPress, sessionRecord, sessionPress, sessionRerecord] = some (s, out) ∧
      s.recording = true ∧ s.write_pos ≤ s.loop_samples ∧ s.loop_samples ≤ 14400000 := by
  obtain ⟨s, out, hrun, hph, _⟩ := session_rerecording
  have hr := reachable_runBlocks _ _ _ _ (Reachable.init 48000) hrun
  have hrec : s.recording = true := (hph.2.2.2.2.2.1 (by decide)).1
  exact ⟨s, out, hrun, hrec, (C22_loop_and_write_bounds s).2 hr hrec,
    ((C22_loop_and_write_bounds s).1 (reachable_reachableR s hr)).1⟩

/-- C22 as stated fails: a loop of 96000 samples is recorded and accepted
(`write_pos = 96000`), then a block without trigger sets the loop length to a
quarter of a bar; the hot-update adopts `loop_samples = 24000` and the block
ends, in a state reached through `run`, with `write_pos` above
`loop_samples`. -/
theorem C22_counterexample :
    ∃ s out, runBlocks (activate (instantiate 48000))
        [sessionPress, sessionRecord, shrinkBlock] = some (s, out) ∧
      Reachable s ∧ s.write_pos = 96000 ∧ s.loop_samples = 24000 ∧
      ¬ (s.write_pos ≤ s.loop_samples) := by
  obtain ⟨s, out, hrun, h1, h2, _⟩ := session_shrunk
  exact ⟨s, out, hrun, reachable_runBlocks _ _ _ _ (Reachable.init 48000) hrun, h1, h2,
    by rw [h1, h2]; decide⟩

/-- C23. In every state reachable from `instantiate` through `activate`, `run`
and `restore`, `tail_pos ≤ 1024` and `stitch_position` is 0 or lies in
`[32, 991]`, so that the window `[stitch_position - 32, stitch_position + 32)`
is inside the tail buffer of 1024 samples.  Whenever the splice runs in a
block started from such a state (after any samples `xs` of the block, on the
next sample `x`, the state `c` left by the capture branch satisfies the
condition of the splice), the stitch position is in `[32, 991]` and the tail
holds all the samples the splice reads: `stitch_position + 32 ≤ tail_pos`. -/
theorem C23_tail_bounds (s : Remus) (h : ReachableR s) :
    s.tail_pos ≤ 1024 ∧
    (s.stitch_position = 0 ∨ (32 ≤ s.stitch_position ∧ s.stitch_position ≤ 991)) ∧
    (s.stitch_position ≠ 0 →
      0 ≤ (s.stitch_position : Int) - 32 ∧ s.stitch_position + 32 ≤ TAIL_BUFFER_SIZE) ∧
    ∀ (b : Block) (xs : List ℚ) (x : ℚ) (p : Remus) (o : List ℚ) (c : Remus),
      processSamples (blockPrelude s b) xs = some (p, o) → captureStage p x = some c →
      spliceDue c →
      32 ≤ c.stitch_position ∧ c.stitch_position ≤ 991 ∧
        c.stitch_position + 32 ≤ c.tail_pos ∧ c.tail_pos ≤ 1024 := by
  obtain ⟨i1, i2, i3⟩ := reachableR_tailInv s h
  refine ⟨i1, i2, ?_, ?_⟩
  · intro hne
    simp only [TAIL_BUFFER_SIZE]
    rcases i2 with h0 | ⟨a, b⟩
    · exact absurd h0 hne
    · omega
  · intro b xs x p o c hps hcap hdue
    have hp : TailInv p := processSamples_tailInv _ _ _ _ hps
      (blockPrelude_tailInv s b ⟨i1, i2, i3⟩)
    obtain ⟨c1, c2, c3⟩ := captureStage_tailInv p c x hcap hp
    have hpos : c.stitch_position > 0 := hdue.2.1
    have := c3 hdue
    rcases c2 with h0 | ⟨a, b⟩
    · omega
    · exact ⟨a, b, this, c1⟩

/-- Witness for C23: the state of the session in which two tail samples are
captured. -/
theorem C23_tail_bounds_witness :
    ∃ s out, runBlocks (activate (instantiate 48000))
        [sessionPress, sessionRerecord, takePress] = some (s, out) ∧
      s.recording_tail = true ∧ s.tail_pos ≤ 1024 ∧
      (s.stitch_position = 0 ∨ (32 ≤ s.stitch_position ∧ s.stitch_position ≤ 991)) := by
  obtain ⟨s, out, hrun, hT, _⟩ := session_in_tail
  have hr := reachable_reachableR s (reachable_runBlocks _ _ _ _ (Reachable.init 48000) hrun)
  exact ⟨s, out, hrun, hT.2.1, (C23_tail_bounds s hr).1, (C23_tail_bounds s hr).2.1⟩

/-- C24, the code at the failing input. A take is started by a trigger at the
bar line while the loop length is half a beat: the engine enters Recording
with `loop_samples = 0` and `write_pos = 0` (a state reached through `run`).
Every block without trigger, of any length, leaves it recording: `recording`
stays true, `recording_tail` stays false and `write_pos` stays 0; no tail
capture begins. -/
theorem C24_zero_length_recording_never_ends :
    ∃ s out, runBlocks (activate (instantiate 48000)) [sessionPress, zeroLengthTake] =
        some (s, out) ∧
      Reachable s ∧ s.recording = true ∧ s.recording_tail = false ∧ s.loop_samples = 0 ∧
      s.write_pos = 0 ∧
      (∀ xs : List ℚ, processSamples s xs = some (s, List.replicate xs.length 0)) ∧
      ∀ b : Block, blockRecStart s b = false →
        ∃ s', run s b = some (s', List.replicate b.audio_in.length 0) ∧
          s'.recording = true ∧ s'.recording_tail = false ∧ s'.write_pos = 0 ∧
          s'.loop_samples = 0 := by
  obtain ⟨s, out, hrun, h1, h2, h3, h4, h5, h6, h7⟩ := session_zero_length
  refine ⟨s, out, hrun, reachable_runBlocks _ _ _ _ (Reachable.init 48000) hrun, h1, h2, h3, h4,
    fun xs => processSamples_stuck xs s h1 h3 h5 h7, ?_⟩
  intro b hb
  exact ⟨_, run_stuck s b h1 h3 h5 h7 h6 hb, h1, h2, h4, h3⟩


end Looper
